import Mathlib

/-!
The chefs-table client: ingredient transcoder, recipe resolver and store calls

A shallow embedding of the JavaScript in `src/pages/CreateRecipe.jsx`,
`src/pages/EditRecipe.jsx`, `src/pages/RecipeDetails.jsx` and `src/libs/db.js`.

* JavaScript values are the inductive type `JsVal`; a plain object is an
  insertion-ordered association list `Obj`.
* A function that can throw returns `Except JsError _`.
* The document store is a list of documents in store order; a read that fails
  is an explicit flag of the store.
-/

namespace ChefsTable

/-! ## JavaScript values -/

/-- A JavaScript value as far as the transcoder can observe it. A number is
kept as an integer (only its being zero matters to the code), `nan` is the
not-a-number value, and `obj` stands for any object or array: it is truthy and
has no callable `trim` property, as is the case for every value a JSON response
or a stored document can hold. -/
inductive JsVal where
  | undefined
  | null
  | bool (b : Bool)
  | num (n : Int)
  | nan
  | str (s : String)
  | obj
  deriving DecidableEq, Repr

/-- The errors a modelled function can throw. -/
inductive JsError where
  | typeError
  deriving DecidableEq, Repr

deriving instance DecidableEq for Except

/-- JavaScript `ToBoolean`. -/
def JsVal.truthy : JsVal → Bool
  | .undefined => false
  | .null => false
  | .bool b => b
  | .num n => n != 0
  | .nan => false
  | .str s => s != ""
  | .obj => true

/-- The value is a string. -/
def JsVal.isStr : JsVal → Bool
  | .str _ => true
  | _ => false

/-- The value is `undefined` or `null`. -/
def JsVal.isNullish : JsVal → Bool
  | .undefined => true
  | .null => true
  | _ => false

/-- JavaScript `a || b`. -/
def jsOr (a b : JsVal) : JsVal := if a.truthy then a else b

/-- JavaScript `a ?? b`. -/
def jsNullish (a b : JsVal) : JsVal := if a.isNullish then b else a

/-! ## Strings -/

/-- The code points `String.prototype.trim` removes: ECMAScript WhiteSpace and
LineTerminator. -/
def isJsSpace (c : Char) : Bool :=
  let n := c.toNat
  n == 0x09 || n == 0x0A || n == 0x0B || n == 0x0C || n == 0x0D || n == 0x20 ||
  n == 0xA0 || n == 0x1680 || (0x2000 ≤ n && n ≤ 0x200A) || n == 0x2028 ||
  n == 0x2029 || n == 0x202F || n == 0x205F || n == 0x3000 || n == 0xFEFF

/-- Drop leading and trailing white space from a list of characters. -/
def trimChars (l : List Char) : List Char :=
  ((l.dropWhile isJsSpace).reverse.dropWhile isJsSpace).reverse

/-- JavaScript `s.trim()`. -/
def jsTrim (s : String) : String := String.mk (trimChars s.data)

/-- The test `s.trim()` used as a condition, equivalently `s.trim() !== ""`. -/
def nonBlank (s : String) : Bool := jsTrim s != ""

/-- One decimal digit as a character. -/
def digitChar (d : Nat) : Char :=
  match d with
  | 0 => '0' | 1 => '1' | 2 => '2' | 3 => '3' | 4 => '4'
  | 5 => '5' | 6 => '6' | 7 => '7' | 8 => '8' | _ => '9'

/-- The decimal digits of `n`, most significant first; `fuel` bounds the number
of digits. -/
def decimalDigits : Nat → Nat → List Char
  | 0, _ => []
  | fuel + 1, n =>
    if n < 10 then [digitChar n] else decimalDigits fuel (n / 10) ++ [digitChar (n % 10)]

/-- The text a template literal substitutes for a natural number. -/
def numberToString (n : Nat) : String := String.mk (decimalDigits (n + 1) n)

/-- The property name of the template literal strIngredient followed by i. -/
def ingredientKey (i : Nat) : String := "strIngredient" ++ numberToString i

/-- The property name of the template literal strMeasure followed by i. -/
def measureKey (i : Nat) : String := "strMeasure" ++ numberToString i

/-! ## Plain objects -/

/-- A plain object: its own properties in insertion order. -/
abbrev Obj := List (String × JsVal)

/-- Property read `o[k]`: `undefined` when the property is missing. -/
def objGet : Obj → String → JsVal
  | [], _ => .undefined
  | (k', v) :: rest, k => if k' = k then v else objGet rest k

/-- Property write `o[k] = v`: an existing property keeps its place, a new one
is appended. -/
def objSet : Obj → String → JsVal → Obj
  | [], k, v => [(k, v)]
  | (k', v') :: rest, k, v => if k' = k then (k, v) :: rest else (k', v') :: objSet rest k v

/-- The own property names, `Object.keys(o)`. -/
def objKeys (o : Obj) : List String := o.map Prod.fst

/-- Object spread `{...a, ...b}`: every own property of `b` is read and written
onto a copy of `a`. -/
def objSpread (a b : Obj) : Obj :=
  (objKeys b).foldl (fun acc k => objSet acc k (objGet b k)) a

/-! ## The ingredient list -/

/-- One row of the ingredient editor. The name is a string: it is the value of
a text input, or a stored name that passed the loader's `trim` test. The
measure is whatever the row holds, the loader copies it unchecked. -/
structure Ingredient where
  name : String
  measure : JsVal
  deriving DecidableEq, Repr

/-- The loop `ingredients.forEach((ing, i) => ...)` threading the object the
callback writes to; `i` is the index of the head of the list. -/
def forEachFrom (body : Obj → Ingredient → Nat → Obj) : Nat → List Ingredient → Obj → Obj
  | _, [], m => m
  | i, ing :: rest, m => forEachFrom body (i + 1) rest (body m ing i)

/-- The callback shared by both submit handlers: a row whose trimmed name is
non-empty writes its two slot properties. -/
def fillSlot (m : Obj) (ing : Ingredient) (i : Nat) : Obj :=
  if nonBlank ing.name then
    objSet (objSet m (ingredientKey (i + 1)) (.str ing.name)) (measureKey (i + 1)) ing.measure
  else m

/-- The `ingredientMap` of `CreateRecipe.handleSubmit` (the spec's `toFlat`). -/
def toFlat (ingredients : List Ingredient) : Obj :=
  forEachFrom fillSlot 0 ingredients []

/-- The first loop of `EditRecipe.handleSubmit`: slots 1..20 set to the empty
string. -/
def clearedSlots : Obj :=
  (List.range' 1 20).foldl
    (fun m i => objSet (objSet m (ingredientKey i) (.str "")) (measureKey i) (.str "")) []

/-- The `ingredientMap` of `EditRecipe.handleSubmit` (the spec's
`toFlatForUpdate`). -/
def toFlatForUpdate (ingredients : List Ingredient) : Obj :=
  forEachFrom fillSlot 0 ingredients clearedSlots

/-- The `updatePayload` of `EditRecipe.handleSubmit`. -/
def updatePayload (formData : Obj) (ingredients : List Ingredient) : Obj :=
  objSpread formData (toFlatForUpdate ingredients)

/-- The merge-write of `updateRecipe` (Firestore `updateDoc`) on the fields of an
existing document: the written fields are set, the others are kept. -/
def updateDoc (record payload : Obj) : Obj := objSpread record payload

/-- The loop of `RecipeDetails.getIngredients` over the slot numbers still to
visit, with the array built so far. -/
def getIngredientsLoop (meal : Obj) : List Nat → List Ingredient → Except JsError (List Ingredient)
  | [], ingredients => .ok ingredients
  | i :: rest, ingredients =>
    let ingredient := objGet meal (ingredientKey i)
    let measure := objGet meal (measureKey i)
    if ingredient.truthy then
      match ingredient with
      | .str s =>
        if nonBlank s then
          getIngredientsLoop meal rest (ingredients ++ [⟨s, jsOr measure (.str "")⟩])
        else getIngredientsLoop meal rest ingredients
      | _ => .error .typeError
    else getIngredientsLoop meal rest ingredients

/-- The function `RecipeDetails.getIngredients` (the spec's `fromFlat`); `none`
is a null meal. -/
def getIngredients (meal : Option Obj) : Except JsError (List Ingredient) :=
  match meal with
  | none => .ok []
  | some m => getIngredientsLoop m (List.range' 1 20) []

/-- The loop of the loader in `EditRecipe.fetchData` that fills
`loadedIngredients`. -/
def loadedIngredientsLoop (data : Obj) : List Nat → List Ingredient → Except JsError (List Ingredient)
  | [], loaded => .ok loaded
  | i :: rest, loaded =>
    let name := objGet data (ingredientKey i)
    let measure := objGet data (measureKey i)
    if name.truthy then
      match name with
      | .str s =>
        if nonBlank s then loadedIngredientsLoop data rest (loaded ++ [⟨s, measure⟩])
        else loadedIngredientsLoop data rest loaded
      | _ => .error .typeError
    else loadedIngredientsLoop data rest loaded

/-- The array `loadedIngredients` built by `EditRecipe.fetchData`. -/
def loadedIngredients (data : Obj) : Except JsError (List Ingredient) :=
  loadedIngredientsLoop data (List.range' 1 20) []

/-! ## The recipe resolver -/

/-- A decimal digit. -/
def isDecDigit (c : Char) : Bool := 48 ≤ c.toNat && c.toNat ≤ 57

/-- A hexadecimal digit. -/
def isHexDigit (c : Char) : Bool :=
  isDecDigit c || (65 ≤ c.toNat && c.toNat ≤ 70) || (97 ≤ c.toNat && c.toNat ≤ 102)

/-- A non-empty run of characters all satisfying `p`. -/
def isRunOf (p : Char → Bool) (l : List Char) : Bool := !l.isEmpty && l.all p

/-- The exponent part after the letter e: an optional sign and digits. -/
def isExponent (l : List Char) : Bool :=
  match l with
  | '+' :: rest => isRunOf isDecDigit rest
  | '-' :: rest => isRunOf isDecDigit rest
  | _ => isRunOf isDecDigit l

/-- The mantissa of a decimal literal: digits, with an optional point that has
digits on at least one side. -/
def isMantissa (l : List Char) : Bool :=
  let whole := l.takeWhile (fun c => c != '.')
  match l.dropWhile (fun c => c != '.') with
  | [] => isRunOf isDecDigit whole
  | _ :: frac => whole.all isDecDigit && frac.all isDecDigit && !(whole.isEmpty && frac.isEmpty)

/-- ECMAScript StrUnsignedDecimalLiteral. -/
def isUnsignedDecimal (l : List Char) : Bool :=
  if l = "Infinity".data then true
  else
    let mantissa := l.takeWhile (fun c => c != 'e' && c != 'E')
    match l.dropWhile (fun c => c != 'e' && c != 'E') with
    | [] => isMantissa mantissa
    | _ :: expo => isMantissa mantissa && isExponent expo

/-- ECMAScript StrNumericLiteral: a signed decimal literal or an unsigned
hexadecimal, octal or binary integer literal. -/
def isStrNumericLiteral (l : List Char) : Bool :=
  match l with
  | '0' :: 'x' :: rest => isRunOf isHexDigit rest
  | '0' :: 'X' :: rest => isRunOf isHexDigit rest
  | '0' :: 'o' :: rest => isRunOf (fun c => 48 ≤ c.toNat && c.toNat ≤ 55) rest
  | '0' :: 'O' :: rest => isRunOf (fun c => 48 ≤ c.toNat && c.toNat ≤ 55) rest
  | '0' :: 'b' :: rest => isRunOf (fun c => c == '0' || c == '1') rest
  | '0' :: 'B' :: rest => isRunOf (fun c => c == '0' || c == '1') rest
  | '+' :: rest => isUnsignedDecimal rest
  | '-' :: rest => isUnsignedDecimal rest
  | _ => isUnsignedDecimal l

/-- JavaScript `isNaN(s)` for a string: the string, white space trimmed, is
neither empty (which converts to 0) nor a numeric literal. -/
def jsIsNaN (s : String) : Bool :=
  let t := trimChars s.data
  !(t.isEmpty || isStrNumericLiteral t)

/-- A document of the `custom_recipes` collection: its key and its fields. -/
structure Doc where
  key : String
  data : Obj
  deriving DecidableEq, Repr

/-- The `custom_recipes` collection: its documents in the order a query returns
them, and whether a read reaches the backend (a read that does not, throws). -/
structure Store where
  docs : List Doc
  reachable : Bool

/-- What the lookup request of the external recipe API comes to: the request or
the decoding of its body throws, or the body carries `meals`, null or an
array. -/
inductive ExtReply where
  | failed
  | meals (m : Option (List Obj))

/-- The function `getCustomRecipe` of `libs/db.js`: the document under key `id`
with `idMeal` set to the key, else the first document whose `idMeal` field
equals `id`, else null; null too when a read throws. -/
def getCustomRecipe (store : Store) (id : String) : Option Obj :=
  if store.reachable then
    match store.docs.find? (fun d => d.key == id) with
    | some d => some (objSet (objSpread [] d.data) "idMeal" (.str d.key))
    | none =>
      match (store.docs.filter (fun d => decide (objGet d.data "idMeal" = .str id))).head? with
      | some d => some d.data
      | none => none
  else none

/-- Step 1 of `RecipeDetails.fetchData`: the external lookup, made only when
`isNaN(id)` is false; a throw is caught and leaves `foundRecipe` null. -/
def externalLookup (ext : String → ExtReply) (id : String) : Option Obj :=
  if !jsIsNaN id then
    match ext id with
    | .meals (some ms) => ms.head?
    | .meals none => none
    | .failed => none
  else none

/-- The resolver of `RecipeDetails.fetchData`: the recipe it puts in the state,
`none` when it reports that the recipe was not found. -/
def fetchData (ext : String → ExtReply) (store : Store) (id : String) : Option Obj :=
  match externalLookup ext id with
  | some r => some r
  | none => getCustomRecipe store id

/-! ## The search page -/

/-- The test `hay.includes(needle)` on lists of characters. -/
def includesChars : List Char → List Char → Bool
  | [], needle => needle.isEmpty
  | c :: rest, needle => needle.isPrefixOf (c :: rest) || includesChars rest needle

/-- JavaScript `s.includes(t)`. -/
def jsIncludes (s t : String) : Bool := includesChars s.data t.data

/-- The object `{...doc.data(), idMeal: doc.id}` the store functions build from
a document. -/
def recipeOfDoc (d : Doc) : Obj := objSet (objSpread [] d.data) "idMeal" (.str d.key)

/-- The callback of the `filter` in `searchCustomRecipes`; `toLowerCase` is the
string method of that name and `lowerQuery` the lower-cased query. Calling the
method on a value that is not a string throws. -/
def matchesQuery (toLowerCase : String → String) (lowerQuery : String) (recipe : Obj) :
    Except JsError Bool :=
  match objGet recipe "strMeal" with
  | .str title =>
    if jsIncludes (toLowerCase title) lowerQuery then .ok true
    else
      let category := objGet recipe "strCategory"
      if category.truthy then
        match category with
        | .str c => .ok (jsIncludes (toLowerCase c) lowerQuery)
        | _ => .error .typeError
      else .ok false
  | _ => .error .typeError

/-- The method `Array.prototype.filter` with a callback that can throw. -/
def filterRecipes (p : Obj → Except JsError Bool) : List Obj → Except JsError (List Obj)
  | [] => .ok []
  | r :: rest =>
    match p r with
    | .error e => .error e
    | .ok b =>
      match filterRecipes p rest with
      | .error e => .error e
      | .ok l => .ok (if b then r :: l else l)

/-- The function `searchCustomRecipes` of `libs/db.js`; an error thrown by the
read or by the filter is caught and gives the empty list. -/
def searchCustomRecipes (toLowerCase : String → String) (store : Store) (searchQuery : String) :
    List Obj :=
  if store.reachable then
    let allRecipes := store.docs.map recipeOfDoc
    let lowerQuery := toLowerCase searchQuery
    match filterRecipes (matchesQuery toLowerCase lowerQuery) allRecipes with
    | .ok l => l
    | .error _ => []
  else []

/-- The effect of `Search.fetchRecipes` on the `recipes` state: nothing for an
empty query; nothing when the batch of the two lookups rejects, which it does
when the request to the external API fails; else the local results followed by
`apiRes.meals || []`. -/
def fetchRecipes (toLowerCase : String → String) (api : String → ExtReply) (store : Store)
    (query : String) (recipes : List Obj) : List Obj :=
  if query = "" then recipes
  else
    match api query with
    | .failed => recipes
    | .meals m => searchCustomRecipes toLowerCase store query ++ m.getD []

/-- A lower-casing of the letters A to Z only; it agrees with `toLowerCase` on
ASCII text. -/
def asciiLowerCase (s : String) : String := String.mk (s.data.map Char.toLower)

/-- The match rule of the local search as the spec words it: the lower-cased
title contains the lower-cased query, or the category is present and its
lower-cased form contains the lower-cased query. -/
def localMatchSpec (toLowerCase : String → String) (q : String) (d : Doc) : Bool :=
  (match objGet d.data "strMeal" with
    | .str t => decide ((toLowerCase q).data <:+: (toLowerCase t).data)
    | _ => false) ||
  (match objGet d.data "strCategory" with
    | .str c => c != "" && decide ((toLowerCase q).data <:+: (toLowerCase c).data)
    | _ => false)

/-! ## Comments -/

/-- JavaScript `String(v)`; for `obj` the text of a plain object. -/
def jsToString : JsVal → String
  | .undefined => "undefined"
  | .null => "null"
  | .bool true => "true"
  | .bool false => "false"
  | .num n => if n < 0 then "-" ++ numberToString n.natAbs else numberToString n.natAbs
  | .nan => "NaN"
  | .str s => s
  | .obj => "[object Object]"

/-- The object `{...doc.data(), id: doc.id}` that `getComments` builds from a
document of the `comments` collection. -/
def commentOfDoc (d : Doc) : Obj := objSet (objSpread [] d.data) "id" (.str d.key)

/-- The comparator of `getComments`,
`new Date(b.createdAt) - new Date(a.createdAt)`; `dateOf v` is the time value
of `new Date(v)` in milliseconds, `none` for an invalid date, and the result
`none` is NaN. -/
def compareNewestFirst (dateOf : JsVal → Option Int) (a b : Obj) : Option Int :=
  match dateOf (objGet b "createdAt"), dateOf (objGet a "createdAt") with
  | some tb, some ta => some (tb - ta)
  | _, _ => none

/-- Insert `a` before the first element it does not have to follow; a NaN
result of the comparator counts as 0. -/
def sortInsert (cmp : Obj → Obj → Option Int) (a : Obj) : List Obj → List Obj
  | [] => [a]
  | b :: rest => if (cmp a b).getD 0 ≤ 0 then a :: b :: rest else b :: sortInsert cmp a rest

/-- The method `Array.prototype.sort` with a comparator, as a stable insertion
sort; for a consistent comparator every stable sort gives this result. -/
def jsSort (cmp : Obj → Obj → Option Int) (l : List Obj) : List Obj :=
  l.foldr (sortInsert cmp) []

/-- The function `getComments` of `libs/db.js` on the documents of the
`comments` collection. -/
def getComments (dateOf : JsVal → Option Int) (comments : List Doc) (recipeId : JsVal) :
    List Obj :=
  jsSort (compareNewestFirst dateOf)
    ((comments.filter
      (fun d => decide (objGet d.data "recipeId" = .str (jsToString recipeId)))).map
      commentOfDoc)

/-- The function `addComment` of `libs/db.js`: a new document with a generated
key `newKey`, which the collection lists at `position`, holding the comment
data, the recipe id as a string and the creation time `now`. -/
def addComment (comments : List Doc) (newKey : String) (position : Nat) (now : String)
    (recipeId : JsVal) (commentData : Obj) : List Doc :=
  comments.take position ++
    [⟨newKey, objSet (objSet (objSpread [] commentData) "recipeId"
      (.str (jsToString recipeId))) "createdAt" (.str now)⟩] ++
    comments.drop position

/-- The signed-in user as the pages read it. -/
structure AuthUser where
  uid : String
  displayName : JsVal
  email : String
  photoURL : JsVal

/-- The `comments` collection together with the state of the `Comments`
component. -/
structure CommentsView where
  store : List Doc
  comments : List Obj
  newComment : String
  rating : Int

/-- The expression `email.split('@')[0]`. -/
def emailLocalPart (email : String) : String :=
  String.mk (email.data.takeWhile (fun c => c != '@'))

/-- The handler `Comments.handleSubmit` when its two backend calls succeed:
nothing for a blank text, else the comment is added, the list is fetched again
and the form is reset. -/
def Comments.handleSubmit (dateOf : JsVal → Option Int) (newKey : String) (position : Nat)
    (now : String) (currentUser : AuthUser) (recipeId : JsVal) (v : CommentsView) :
    CommentsView :=
  if nonBlank v.newComment then
    let commentData : Obj :=
      [("text", .str v.newComment), ("rating", .num v.rating),
        ("userId", .str currentUser.uid),
        ("userName", jsOr currentUser.displayName (.str (emailLocalPart currentUser.email))),
        ("userPhoto", jsOr currentUser.photoURL .null)]
    let store := addComment v.store newKey position now recipeId commentData
    { store := store, comments := getComments dateOf store recipeId,
      newComment := "", rating := 5 }
  else v

/-- The number shown in the heading of the reviews, `comments.length`. -/
def reviewsCount (v : CommentsView) : Nat := v.comments.length

/-- A `dateOf` for creation times stored as numbers: `new Date(n)` has the
time value `n`. -/
def dateOfNumber : JsVal → Option Int
  | .num n => some n
  | _ => none

/-! ## Keyed collections of documents -/

/-- Read the entry under key `k` of a collection kept as a list of keyed
entries. -/
def kvGet {κ ν : Type} [DecidableEq κ] : List (κ × ν) → κ → Option ν
  | [], _ => none
  | (k', v) :: rest, k => if k' = k then some v else kvGet rest k

/-- Put `v` under key `k`: an existing entry is replaced, a new one is
appended. -/
def kvSet {κ ν : Type} [DecidableEq κ] : List (κ × ν) → κ → ν → List (κ × ν)
  | [], k, v => [(k, v)]
  | (k', v') :: rest, k, v => if k' = k then (k, v) :: rest else (k', v') :: kvSet rest k v

/-- Remove the entries under key `k`. -/
def kvErase {κ ν : Type} [DecidableEq κ] (l : List (κ × ν)) (k : κ) : List (κ × ν) :=
  l.filter (fun e => decide (e.1 ≠ k))

/-- The errors a call of the document store can throw. -/
inductive DbError where
  | invalidArgument
  | notFound
  | unavailable
  deriving DecidableEq, Repr

/-- Some property of the object holds `undefined`. The document store refuses
to write such data: `setDoc` and `updateDoc` throw an invalid-argument error
and store nothing. -/
def hasUndefined (o : Obj) : Bool := o.any (fun p => decide (p.2 = .undefined))

/-! ## The meal planner -/

/-- The value of a meal-plan slot: the three fields `addToMealPlan` writes. -/
structure MealRef where
  idMeal : JsVal
  strMeal : JsVal
  strMealThumb : JsVal
  deriving DecidableEq, Repr

/-- A document of a user's `meal_plan` collection: its slots by name. -/
abbrev PlanDoc := List (String × MealRef)

/-- The `meal_plan` collections of all users: the documents by user id and
date. -/
abbrev MealPlans := List ((String × String) × PlanDoc)

/-- The slot `slot` of the plan of `userId` for `date`, if it is set. -/
def planSlot (plans : MealPlans) (userId date slot : String) : Option MealRef :=
  match kvGet plans (userId, date) with
  | some doc => kvGet doc slot
  | none => none

/-- The object `{idMeal, strMeal, strMealThumb}` that `addToMealPlan` takes from
the recipe. -/
def mealRefOf (recipe : Obj) : MealRef :=
  ⟨objGet recipe "idMeal", objGet recipe "strMeal", objGet recipe "strMealThumb"⟩

/-- Some field of the reference is `undefined`. -/
def MealRef.hasUndefined (r : MealRef) : Bool :=
  decide (r.idMeal = .undefined) || decide (r.strMeal = .undefined) ||
    decide (r.strMealThumb = .undefined)

/-- The plans after the merge-write of the one slot into the document of the
date, which is created when it is missing. -/
def setMealSlot (plans : MealPlans) (userId date slot : String) (ref : MealRef) : MealPlans :=
  kvSet plans (userId, date) (kvSet ((kvGet plans (userId, date)).getD []) slot ref)

/-- The function `addToMealPlan` of `libs/db.js`: `setDoc` with merge of the one
slot. When the recipe lacks one of the three fields the data holds `undefined`,
`setDoc` throws and nothing is stored. -/
def addToMealPlan (plans : MealPlans) (userId date slot : String) (recipe : Obj) :
    Except DbError MealPlans :=
  if (mealRefOf recipe).hasUndefined then .error .invalidArgument
  else .ok (setMealSlot plans userId date slot (mealRefOf recipe))

/-! ## Favorites -/

/-- The `favorites` collections of all users: the stored entries by user id and
document key. -/
abbrev Favorites := List ((String × String) × Obj)

/-- The object of five fields that `addToFavorites` takes from the recipe. -/
def favoriteEntry (recipe : Obj) : Obj :=
  [("idMeal", objGet recipe "idMeal"), ("strMeal", objGet recipe "strMeal"),
    ("strMealThumb", objGet recipe "strMealThumb"),
    ("strCategory", objGet recipe "strCategory"), ("strArea", objGet recipe "strArea")]

/-- The function `addToFavorites` of `libs/db.js`: the five fields are written
by `setDoc`, without merge, under the key `recipe.idMeal`. A key that is not a
string is rejected, and so is an entry holding `undefined`, which a recipe
lacking one of the five fields gives; nothing is stored then. -/
def addToFavorites (favs : Favorites) (userId : String) (recipe : Obj) :
    Except DbError Favorites :=
  match objGet recipe "idMeal" with
  | .str key =>
    if hasUndefined (favoriteEntry recipe) then .error .invalidArgument
    else .ok (kvSet favs (userId, key) (favoriteEntry recipe))
  | _ => .error .invalidArgument

/-- The function `removeFromFavorites` of `libs/db.js`. -/
def removeFromFavorites (favs : Favorites) (userId recipeId : String) : Favorites :=
  kvErase favs (userId, recipeId)

/-- The function `getFavorites` of `libs/db.js`. -/
def getFavorites (favs : Favorites) (userId : String) : List Obj :=
  (favs.filter (fun e => decide (e.1.1 = userId))).map Prod.snd

/-- The favorites store is well formed: no two entries share a key, and every
entry holds its own key as `idMeal`. -/
def FavoritesWF (favs : Favorites) : Prop :=
  (favs.map Prod.fst).Nodup ∧ ∀ e ∈ favs, objGet e.2 "idMeal" = .str e.1.2

/-! ## Writing custom recipes -/

/-- The function `updateRecipe` of `libs/db.js`: the merge-write `updateDoc` on
the document under key `recipeId`, which must exist. Data holding `undefined`
is refused before anything is sent, and nothing is written. -/
def updateRecipe (store : Store) (recipeId : String) (updatedData : Obj) :
    Except DbError Store :=
  if hasUndefined updatedData then .error .invalidArgument
  else if store.reachable then
    if store.docs.any (fun d => d.key == recipeId) then
      .ok { store with
        docs := store.docs.map
          (fun d => if d.key = recipeId then ⟨d.key, updateDoc d.data updatedData⟩ else d) }
    else .error .notFound
  else .error .unavailable

/-- The function `deleteRecipe` of `libs/db.js`. -/
def deleteRecipe (store : Store) (recipeId : String) : Except DbError Store :=
  if store.reachable then
    .ok { store with docs := store.docs.filter (fun d => d.key != recipeId) }
  else .error .unavailable

/-- The function `getMyRecipes` of `libs/db.js`. -/
def getMyRecipes (store : Store) (userId : String) : Except DbError (List Obj) :=
  if store.reachable then
    .ok ((store.docs.filter
      (fun d => decide (objGet d.data "userId" = .str userId))).map recipeOfDoc)
  else .error .unavailable

/-- The effect of `EditRecipe.handleSubmit` on the store, for the route
parameter `id`; a rejected update is caught and leaves the store as it is.
The first argument is the signed-in user in whose session the handler runs (the
route guard lets only signed-in users reach the page); the handler does not
read it. -/
def EditRecipe.handleSubmit (_currentUser : AuthUser) (store : Store) (id : String)
    (formData : Obj) (ingredients : List Ingredient) : Store :=
  match updateRecipe store id (updatePayload formData ingredients) with
  | .ok updated => updated
  | .error _ => store

/-! ## The edit form -/

/-- The eight fields of the `formData` state of `EditRecipe`. -/
def formFields : List String :=
  ["strMeal", "strMealThumb", "strCategory", "strInstructions", "strYoutube", "cookingTime",
    "servings", "difficulty"]

/-- The initial `formData` state of `EditRecipe`. -/
def EditRecipe.initialFormData : Obj :=
  [("strMeal", .str ""), ("strMealThumb", .str ""), ("strCategory", .str "Beef"),
    ("strInstructions", .str ""), ("strYoutube", .str ""), ("cookingTime", .str ""),
    ("servings", .str ""), ("difficulty", .str "Easy")]

/-- The `formData` state that `EditRecipe.fetchData` sets from the loaded
record. -/
def EditRecipe.loadedFormData (data : Obj) : Obj :=
  [("strMeal", objGet data "strMeal"), ("strMealThumb", objGet data "strMealThumb"),
    ("strCategory", objGet data "strCategory"),
    ("strInstructions", objGet data "strInstructions"),
    ("strYoutube", objGet data "strYoutube"),
    ("cookingTime", jsOr (objGet data "cookingTime") (.str "")),
    ("servings", jsOr (objGet data "servings") (.str "")),
    ("difficulty", jsOr (objGet data "difficulty") (.str "Easy"))]

/-- The handler `EditRecipe.handleChange` for the input named `name`:
`{...prev, [name]: value}`. -/
def EditRecipe.handleChange (formData : Obj) (name value : String) : Obj :=
  objSet (objSpread [] formData) name (.str value)

/-- The `formData` and `ingredients` states of `EditRecipe`. -/
structure EditForm where
  formData : Obj
  ingredients : List Ingredient
  deriving DecidableEq, Repr

/-- The states `EditRecipe.fetchData` leaves for the route parameter `id`: the
form fields and the ingredient rows of the loaded record, one empty row when
the record has no ingredient. When the loader loop throws, the form fields are
set already and the rows stay empty; when no record is found both states stay
as they were initially. -/
def EditRecipe.fetchData (store : Store) (id : String) : EditForm :=
  match getCustomRecipe store id with
  | some data =>
    match loadedIngredients data with
    | .ok loaded =>
      ⟨EditRecipe.loadedFormData data, if loaded.isEmpty then [⟨"", .str ""⟩] else loaded⟩
    | .error _ => ⟨EditRecipe.loadedFormData data, []⟩
  | none => ⟨EditRecipe.initialFormData, []⟩

/-- The fields of a stored recipe that the edit form has no input for. -/
def preservedFields : List String :=
  ["userId", "author", "idMeal", "isCustom", "strArea", "createdAt"]

/-! ## Destructive operations -/

deriving instance DecidableEq for Store

/-- A call of a backend function that changes stored data. -/
inductive BackendCall where
  | deleteRecipe (recipeId : String)
  | deleteUserData (userId : String)
  | deleteUser (userId : String)
  | removeFromMealPlan (userId date slot : String)
  deriving DecidableEq, Repr

/-- The `users` collection: the profile documents by user id. -/
abbrev Profiles := List (String × Obj)

/-- The function `deleteUserData` of `libs/db.js`: the recipes of the user are
queried, their deletions and the deletion of the profile document are put in one
batch, and the batch is committed; `commits` tells whether the commit succeeds.
A failed query or commit changes nothing. -/
def deleteUserData (store : Store) (profiles : Profiles) (commits : Bool) (userId : String) :
    Except DbError (Store × Profiles) :=
  if store.reachable then
    let mine := store.docs.filter (fun d => decide (objGet d.data "userId" = .str userId))
    if commits then
      .ok ({ store with docs := store.docs.filter (fun d => decide (d ∉ mine)) },
        kvErase profiles userId)
    else .error .unavailable
  else .error .unavailable

/-- The effect of `Dashboard.handleDeleteRecipe` on the store and on the
`recipes` state, with the backend calls it issues; `confirmed` is the answer of
`window.confirm`. -/
def Dashboard.handleDeleteRecipe (confirmed : Bool) (store : Store) (recipes : List Obj)
    (recipeId : String) : Store × List Obj × List BackendCall :=
  if confirmed then
    match deleteRecipe store recipeId with
    | .ok deleted =>
      (deleted, recipes.filter (fun r => objGet r "idMeal" != .str recipeId),
        [.deleteRecipe recipeId])
    | .error _ => (store, recipes, [.deleteRecipe recipeId])
  else (store, recipes, [])

/-- The stored data `Dashboard.handleDeleteAccount` works on: the custom
recipes, the profile documents and the uids of the accounts of the
authentication service. -/
structure Backend where
  recipes : Store
  profiles : Profiles
  accounts : List String
  deriving DecidableEq

/-- The effect of `Dashboard.handleDeleteAccount`, with the backend calls it
issues: the stored data is cleaned up first, then the account is removed;
`authDeletes` tells whether `deleteUser` succeeds. A throw of either call is
caught. -/
def Dashboard.handleDeleteAccount (confirmed commits authDeletes : Bool)
    (currentUser : AuthUser) (b : Backend) : Backend × List BackendCall :=
  if confirmed then
    match deleteUserData b.recipes b.profiles commits currentUser.uid with
    | .ok (recipes, profiles) =>
      if authDeletes then
        ({ recipes := recipes, profiles := profiles,
            accounts := b.accounts.filter (fun u => u != currentUser.uid) },
          [.deleteUserData currentUser.uid, .deleteUser currentUser.uid])
      else
        ({ recipes := recipes, profiles := profiles, accounts := b.accounts },
          [.deleteUserData currentUser.uid, .deleteUser currentUser.uid])
    | .error _ => (b, [.deleteUserData currentUser.uid])
  else (b, [])

/-- The function `removeFromMealPlan` of `libs/db.js`: `updateDoc` with
`deleteField()` for the slot; the document of the date must exist. -/
def removeFromMealPlan (plans : MealPlans) (userId date slot : String) :
    Except DbError MealPlans :=
  match kvGet plans (userId, date) with
  | some doc => .ok (kvSet plans (userId, date) (kvErase doc slot))
  | none => .error .notFound

/-- The effect of `MealPlanner.handleRemove` on the stored plans and on the
`plan` state (the documents of the user by date), with the backend calls it
issues. -/
def MealPlanner.handleRemove (confirmed : Bool) (currentUser : AuthUser) (plans : MealPlans)
    (plan : List (String × PlanDoc)) (date slot : String) :
    MealPlans × List (String × PlanDoc) × List BackendCall :=
  if confirmed then
    match removeFromMealPlan plans currentUser.uid date slot with
    | .ok removed =>
      (removed,
        match kvGet plan date with
        | some doc => kvSet plan date (kvErase doc slot)
        | none => plan,
        [.removeFromMealPlan currentUser.uid date slot])
    | .error _ => (plans, plan, [.removeFromMealPlan currentUser.uid date slot])
  else (plans, plan, [])

/-! ## Signing up -/

/-- The `length` of a JavaScript string: its number of UTF-16 code units. -/
def jsLength (s : String) : Nat :=
  (s.data.map (fun c => if c.toNat < 0x10000 then 1 else 2)).sum

/-- What the call `signup(email, password)` comes to: it resolves, or it rejects
with an error whose `code` property is the given value. -/
inductive SignupOutcome where
  | resolved
  | rejected (code : JsVal)

/-- What `Signup.handleSubmit` does: the calls of `signup` it makes, the `error`
state it leaves, and whether it navigates to the home page. -/
structure SignupResult where
  authCalls : List (String × String)
  error : String
  navigated : Bool
  deriving DecidableEq, Repr

/-- The handler `Signup.handleSubmit`; `signup` is the behaviour of the
authentication service. -/
def Signup.handleSubmit (signup : String → String → SignupOutcome)
    (email password confirmPassword : String) : SignupResult :=
  if password ≠ confirmPassword then
    { authCalls := [], error := "Passwords do not match", navigated := false }
  else if jsLength password < 6 then
    { authCalls := [], error := "Password must be at least 6 characters", navigated := false }
  else
    match signup email password with
    | .resolved => { authCalls := [(email, password)], error := "", navigated := true }
    | .rejected code =>
      if code = .str "auth/email-already-in-use" then
        { authCalls := [(email, password)], error := "This email is already registered.",
          navigated := false }
      else
        { authCalls := [(email, password)], error := "Failed to create an account.",
          navigated := false }

/-! ## Auxiliary definitions for the statements -/

/-- A store holding one recipe as `CreateRecipe.handleSubmit` writes it, created
by the user alice and stored under the key r1. -/
def aliceStore : Store :=
  ⟨[⟨"r1", [("strMeal", .str "Pie"), ("strMealThumb", .str ""), ("strCategory", .str "Dessert"),
    ("strArea", .str "Unknown"), ("strInstructions", .str "Bake"), ("strYoutube", .str ""),
    ("cookingTime", .str ""), ("servings", .str ""), ("difficulty", .str "Easy"),
    ("strIngredient1", .str "Flour"), ("strMeasure1", .str "200g"),
    ("userId", .str "alice"), ("author", .str "alice@example.org"),
    ("idMeal", .str "1700000000000"), ("isCustom", .bool true),
    ("createdAt", .str "2024-05-01T10:00:00.000Z")]⟩], true⟩

/-- The number a list of decimal digits denotes. -/
def digitsValue (l : List Char) : Nat :=
  l.foldl (fun a c => 10 * a + (c.toNat - 48)) 0

/-- The forty slot property names in the order the clearing loop creates them. -/
def slotKeys : List String :=
  (List.range' 1 20).flatMap (fun i => [ingredientKey i, measureKey i])

/-- The row that the loop started at index `s` writes into slot `j`, if any:
the row at index `j - 1`, when its name is non-blank. -/
def writtenAt (s : Nat) (L : List Ingredient) (j : Nat) : Option Ingredient :=
  if s < j then (L[j - (s + 1)]?).filter (fun e => nonBlank e.name) else none

/-- The entry the body of the read loop appends for slot `i`, if any, when the
slot does not make it throw. -/
def readSlot (meal : Obj) (i : Nat) : Option Ingredient :=
  match objGet meal (ingredientKey i) with
  | .str s => if nonBlank s then some ⟨s, jsOr (objGet meal (measureKey i)) (.str "")⟩ else none
  | _ => none

/-- The value makes the read loop throw: it is truthy and not a string. -/
def JsVal.throwsOnTrim (v : JsVal) : Bool := v.truthy && !v.isStr

/-- The value is skipped by the read loop: it is falsy or a blank string. -/
def JsVal.skipped : JsVal → Bool
  | .str s => !nonBlank s
  | v => !v.truthy

/-- An entry as the read loop returns it: the measure goes through
`measure || ""`. -/
def Ingredient.withDefaultMeasure (e : Ingredient) : Ingredient :=
  ⟨e.name, jsOr e.measure (.str "")⟩

/-- The property names the `forEach` loop started at index `s` writes, in the
order of the writes. -/
def writtenKeys : Nat → List Ingredient → List String
  | _, [] => []
  | s, e :: rest =>
    (if nonBlank e.name then [ingredientKey (s + 1), measureKey (s + 1)] else [])
      ++ writtenKeys (s + 1) rest

/-- The value is a string or missing (`undefined` or `null`). -/
def JsVal.isStrOrMissing (v : JsVal) : Bool := v.isStr || v.isNullish

/-- One step of the reading rule as the spec words it: slot `i` appends its name
and its measure (the empty string when the measure is missing) when its
ingredient is present and non-blank after trimming. -/
def fromFlatSpecStep (record : Obj) (out : List Ingredient) (i : Nat) : List Ingredient :=
  match objGet record (ingredientKey i) with
  | .str s =>
    if nonBlank s then out ++ [⟨s, jsNullish (objGet record (measureKey i)) (.str "")⟩] else out
  | _ => out

/-- The reading rule as the spec words it: scan the slots 1..20 in ascending
order, appending. -/
def fromFlatSpec (record : Obj) : List Ingredient :=
  (List.range' 1 20).foldl (fromFlatSpecStep record) []

/-- The entry the body of the loader loop appends for slot `i`, if any, when the
slot does not make it throw: the measure is copied as it is. -/
def loadSlot (data : Obj) (i : Nat) : Option Ingredient :=
  match objGet data (ingredientKey i) with
  | .str s => if nonBlank s then some ⟨s, objGet data (measureKey i)⟩ else none
  | _ => none

/-! ## Property names -/

theorem digitsValue_digitChar (d : Nat) (h : d < 10) : (digitChar d).toNat - 48 = d := by
  interval_cases d <;> rfl

theorem digitsValue_snoc (l : List Char) (c : Char) :
    digitsValue (l ++ [c]) = 10 * digitsValue l + (c.toNat - 48) := by
  simp [digitsValue, List.foldl_append]

theorem digitsValue_decimalDigits (fuel n : Nat) (h : n < fuel) :
    digitsValue (decimalDigits fuel n) = n := by
  induction fuel generalizing n with
  | zero => omega
  | succ fuel ih =>
    unfold decimalDigits
    split
    · rename_i h10
      simp [digitsValue, digitsValue_digitChar n h10]
    · rename_i h10
      rw [digitsValue_snoc, ih (n / 10) (by omega),
        digitsValue_digitChar (n % 10) (Nat.mod_lt _ (by decide))]
      omega

theorem numberToString_inj {i j : Nat} (h : numberToString i = numberToString j) : i = j := by
  unfold numberToString at h
  have hd : decimalDigits (i + 1) i = decimalDigits (j + 1) j := by
    simpa using congrArg String.data h
  have := congrArg digitsValue hd
  rwa [digitsValue_decimalDigits _ _ (Nat.lt_succ_self i),
    digitsValue_decimalDigits _ _ (Nat.lt_succ_self j)] at this

theorem ingredientKey_inj {i j : Nat} (h : ingredientKey i = ingredientKey j) : i = j := by
  unfold ingredientKey at h
  have hd := congrArg String.data h
  simp only [String.data_append, List.append_cancel_left_eq] at hd
  exact numberToString_inj (String.ext hd)

theorem measureKey_inj {i j : Nat} (h : measureKey i = measureKey j) : i = j := by
  unfold measureKey at h
  have hd := congrArg String.data h
  simp only [String.data_append, List.append_cancel_left_eq] at hd
  exact numberToString_inj (String.ext hd)

theorem ingredientKey_ne_measureKey (i j : Nat) : ingredientKey i ≠ measureKey j := by
  intro h
  unfold ingredientKey measureKey at h
  have hd := congrArg String.data h
  simp [String.data_append] at hd

theorem measureKey_ne_ingredientKey (i j : Nat) : measureKey i ≠ ingredientKey j :=
  fun h => ingredientKey_ne_measureKey j i h.symm

/-! ## Reading and writing properties -/

theorem objGet_objSet_self (o : Obj) (k : String) (v : JsVal) : objGet (objSet o k v) k = v := by
  induction o with
  | nil => simp [objSet, objGet]
  | cons p rest ih =>
    obtain ⟨k', v'⟩ := p
    by_cases hk : k' = k
    · simp [objSet, objGet, hk]
    · simp [objSet, objGet, hk, ih]

theorem objGet_objSet_ne (o : Obj) {k k' : String} (v : JsVal) (h : k ≠ k') :
    objGet (objSet o k v) k' = objGet o k' := by
  induction o with
  | nil => simp [objSet, objGet, h]
  | cons p rest ih =>
    obtain ⟨k₀, v₀⟩ := p
    by_cases hk : k₀ = k
    · subst hk
      simp [objSet, objGet, h]
    · by_cases hk' : k₀ = k'
      · subst hk'
        simp [objSet, objGet, hk]
      · simp [objSet, objGet, hk, hk', ih]

theorem objKeys_objSet_of_mem (o : Obj) (k : String) (v : JsVal) (h : k ∈ objKeys o) :
    objKeys (objSet o k v) = objKeys o := by
  induction o with
  | nil => simp [objKeys] at h
  | cons p rest ih =>
    obtain ⟨k₀, v₀⟩ := p
    by_cases hk : k₀ = k
    · simp [objSet, objKeys, hk]
    · have hr : k ∈ objKeys rest := by
        simp only [objKeys, List.map_cons, List.mem_cons] at h
        rcases h with h | h
        · exact absurd h.symm hk
        · exact h
      have := ih hr
      simp only [objKeys] at this
      simp [objSet, objKeys, hk, this]

theorem objKeys_objSet_of_not_mem (o : Obj) (k : String) (v : JsVal) (h : k ∉ objKeys o) :
    objKeys (objSet o k v) = objKeys o ++ [k] := by
  induction o with
  | nil => simp [objSet, objKeys]
  | cons p rest ih =>
    obtain ⟨k₀, v₀⟩ := p
    have hk : k₀ ≠ k := by
      intro e
      apply h
      simp [objKeys, e]
    have hr : k ∉ objKeys rest := by
      intro e
      apply h
      simp only [objKeys, List.map_cons, List.mem_cons]
      exact Or.inr e
    have := ih hr
    simp only [objKeys] at this
    simp [objSet, objKeys, hk, this]

theorem mem_objKeys_objSet (o : Obj) (k k' : String) (v : JsVal) :
    k' ∈ objKeys (objSet o k v) ↔ k' = k ∨ k' ∈ objKeys o := by
  by_cases h : k ∈ objKeys o
  · rw [objKeys_objSet_of_mem o k v h]
    constructor
    · exact Or.inr
    · rintro (e | e)
      · exact e ▸ h
      · exact e
  · rw [objKeys_objSet_of_not_mem o k v h]
    simp [or_comm]

theorem objGet_of_not_mem (o : Obj) (k : String) (h : k ∉ objKeys o) : objGet o k = .undefined := by
  induction o with
  | nil => rfl
  | cons p rest ih =>
    obtain ⟨k₀, v₀⟩ := p
    simp only [objKeys, List.map_cons, List.mem_cons, not_or] at h
    have hk : k₀ ≠ k := fun e => h.1 e.symm
    simp only [objGet, hk, if_false]
    exact ih h.2

theorem objGet_foldl_objSet (b : Obj) (ks : List String) (a : Obj) (k : String) :
    objGet (ks.foldl (fun acc k => objSet acc k (objGet b k)) a) k =
      if k ∈ ks then objGet b k else objGet a k := by
  induction ks generalizing a with
  | nil => simp
  | cons k₀ ks ih =>
    rw [List.foldl_cons, ih]
    by_cases hk : k ∈ ks
    · simp [hk]
    · by_cases h0 : k₀ = k
      · subst h0
        simp [hk, objGet_objSet_self]
      · have h0' : ¬ k = k₀ := fun e => h0 e.symm
        simp [hk, h0', objGet_objSet_ne _ _ h0]

/-- Reading a spread: a property of `b` wins, any other is read from `a`. -/
theorem objGet_objSpread (a b : Obj) (k : String) :
    objGet (objSpread a b) k = if k ∈ objKeys b then objGet b k else objGet a k :=
  objGet_foldl_objSet b (objKeys b) a k

/-! ## The slot writes of the submit handlers -/

theorem objGet_fillSlot_ingredientKey (m : Obj) (e : Ingredient) (i j : Nat) :
    objGet (fillSlot m e i) (ingredientKey j) =
      if nonBlank e.name = true ∧ j = i + 1 then .str e.name else objGet m (ingredientKey j) := by
  unfold fillSlot
  by_cases hb : nonBlank e.name = true
  · by_cases hj : j = i + 1
    · subst hj
      simp [hb, objGet_objSet_ne _ _ (measureKey_ne_ingredientKey _ _), objGet_objSet_self]
    · have hne : ingredientKey (i + 1) ≠ ingredientKey j := fun h => hj (ingredientKey_inj h).symm
      simp [hb, hj, objGet_objSet_ne _ _ (measureKey_ne_ingredientKey _ _), objGet_objSet_ne _ _ hne]
  · simp [hb]

theorem objGet_fillSlot_measureKey (m : Obj) (e : Ingredient) (i j : Nat) :
    objGet (fillSlot m e i) (measureKey j) =
      if nonBlank e.name = true ∧ j = i + 1 then e.measure else objGet m (measureKey j) := by
  unfold fillSlot
  by_cases hb : nonBlank e.name = true
  · by_cases hj : j = i + 1
    · subst hj
      simp [hb, objGet_objSet_self]
    · have hne : measureKey (i + 1) ≠ measureKey j := fun h => hj (measureKey_inj h).symm
      simp [hb, hj, objGet_objSet_ne _ _ hne, objGet_objSet_ne _ _ (ingredientKey_ne_measureKey _ _)]
  · simp [hb]

theorem writtenAt_nil (s j : Nat) : writtenAt s [] j = none := by
  unfold writtenAt
  split <;> simp

theorem writtenAt_cons_of_le (s : Nat) (e : Ingredient) (L : List Ingredient) (j : Nat)
    (h : j ≤ s) : writtenAt s (e :: L) j = none := by
  unfold writtenAt
  simp [Nat.not_lt.mpr h]

theorem writtenAt_cons_self (s : Nat) (e : Ingredient) (L : List Ingredient) :
    writtenAt s (e :: L) (s + 1) = if nonBlank e.name then some e else none := by
  unfold writtenAt
  simp [Option.filter]

theorem writtenAt_cons_of_gt (s : Nat) (e : Ingredient) (L : List Ingredient) (j : Nat)
    (h : s + 1 < j) : writtenAt s (e :: L) j = writtenAt (s + 1) L j := by
  unfold writtenAt
  have h1 : s < j := by omega
  have h2 : j - (s + 1) = (j - (s + 1 + 1)) + 1 := by omega
  rw [if_pos h1, if_pos h, h2, List.getElem?_cons_succ]

theorem writtenAt_succ_of_le (s : Nat) (L : List Ingredient) (j : Nat) (h : j ≤ s + 1) :
    writtenAt (s + 1) L j = none := by
  unfold writtenAt
  simp [Nat.not_lt.mpr h]

/-- What the `forEach` loop leaves in an ingredient slot. -/
theorem objGet_forEachFrom_ingredientKey (L : List Ingredient) (s : Nat) (m : Obj) (j : Nat) :
    objGet (forEachFrom fillSlot s L m) (ingredientKey j) =
      match writtenAt s L j with
      | some e => .str e.name
      | none => objGet m (ingredientKey j) := by
  induction L generalizing s m with
  | nil => simp [forEachFrom, writtenAt_nil]
  | cons e rest ih =>
    rw [forEachFrom, ih, objGet_fillSlot_ingredientKey]
    rcases Nat.lt_trichotomy j (s + 1) with hlt | heq | hgt
    · have hj : j ≠ s + 1 := by omega
      rw [writtenAt_succ_of_le _ _ _ (by omega), writtenAt_cons_of_le _ _ _ _ (by omega)]
      simp [hj]
    · subst heq
      rw [writtenAt_succ_of_le _ _ _ (le_refl _), writtenAt_cons_self]
      by_cases hb : nonBlank e.name = true <;> simp [hb]
    · have hj : j ≠ s + 1 := by omega
      rw [writtenAt_cons_of_gt _ _ _ _ hgt]
      simp [hj]

/-- What the `forEach` loop leaves in a measure slot. -/
theorem objGet_forEachFrom_measureKey (L : List Ingredient) (s : Nat) (m : Obj) (j : Nat) :
    objGet (forEachFrom fillSlot s L m) (measureKey j) =
      match writtenAt s L j with
      | some e => e.measure
      | none => objGet m (measureKey j) := by
  induction L generalizing s m with
  | nil => simp [forEachFrom, writtenAt_nil]
  | cons e rest ih =>
    rw [forEachFrom, ih, objGet_fillSlot_measureKey]
    rcases Nat.lt_trichotomy j (s + 1) with hlt | heq | hgt
    · have hj : j ≠ s + 1 := by omega
      rw [writtenAt_succ_of_le _ _ _ (by omega), writtenAt_cons_of_le _ _ _ _ (by omega)]
      simp [hj]
    · subst heq
      rw [writtenAt_succ_of_le _ _ _ (le_refl _), writtenAt_cons_self]
      by_cases hb : nonBlank e.name = true <;> simp [hb]
    · have hj : j ≠ s + 1 := by omega
      rw [writtenAt_cons_of_gt _ _ _ _ hgt]
      simp [hj]

theorem objKeys_clearedSlots : objKeys clearedSlots = slotKeys := by decide

theorem mem_slotKeys (k : String) :
    k ∈ slotKeys ↔ ∃ i, 1 ≤ i ∧ i ≤ 20 ∧ (k = ingredientKey i ∨ k = measureKey i) := by
  unfold slotKeys
  simp only [List.mem_flatMap, List.mem_range'_1, List.mem_cons, List.mem_singleton,
    List.not_mem_nil, or_false]
  constructor
  · rintro ⟨i, ⟨h1, h2⟩, h⟩
    exact ⟨i, h1, by omega, h⟩
  · rintro ⟨i, h1, h2, h⟩
    exact ⟨i, ⟨h1, by omega⟩, h⟩

theorem objGet_clearedSlots_ingredientKey (j : Nat) :
    objGet clearedSlots (ingredientKey j) =
      if 1 ≤ j ∧ j ≤ 20 then .str "" else .undefined := by
  by_cases h : 1 ≤ j ∧ j ≤ 20
  · rw [if_pos h]
    obtain ⟨h1, h2⟩ := h
    interval_cases j <;> decide
  · rw [if_neg h]
    apply objGet_of_not_mem
    rw [objKeys_clearedSlots, mem_slotKeys]
    rintro ⟨i, h1, h2, hk | hk⟩
    · have := ingredientKey_inj hk
      omega
    · exact ingredientKey_ne_measureKey _ _ hk

theorem objGet_clearedSlots_measureKey (j : Nat) :
    objGet clearedSlots (measureKey j) =
      if 1 ≤ j ∧ j ≤ 20 then .str "" else .undefined := by
  by_cases h : 1 ≤ j ∧ j ≤ 20
  · rw [if_pos h]
    obtain ⟨h1, h2⟩ := h
    interval_cases j <;> decide
  · rw [if_neg h]
    apply objGet_of_not_mem
    rw [objKeys_clearedSlots, mem_slotKeys]
    rintro ⟨i, h1, h2, hk | hk⟩
    · exact measureKey_ne_ingredientKey _ _ hk
    · have := measureKey_inj hk
      omega

/-! ## The read loop -/

theorem nonBlank_empty : nonBlank "" = false := by decide

theorem truthy_of_nonBlank {s : String} (h : nonBlank s = true) : (JsVal.str s).truthy = true := by
  by_cases hs : s = ""
  · subst hs
    simp [nonBlank_empty] at h
  · simp [JsVal.truthy, hs]

theorem nonBlank_of_not_truthy {s : String} (h : (JsVal.str s).truthy = false) :
    nonBlank s = false := by
  by_cases hb : nonBlank s = true
  · rw [truthy_of_nonBlank hb] at h
    exact absurd h (by decide)
  · simpa using hb

/-- One step of the read loop on a slot that does not throw. -/
theorem getIngredientsLoop_cons (meal : Obj) (i : Nat) (rest : List Nat) (acc : List Ingredient)
    (h : (objGet meal (ingredientKey i)).throwsOnTrim = false) :
    getIngredientsLoop meal (i :: rest) acc =
      getIngredientsLoop meal rest (acc ++ (readSlot meal i).toList) := by
  simp only [getIngredientsLoop, readSlot]
  cases hv : objGet meal (ingredientKey i) with
  | str s =>
    by_cases ht : (JsVal.str s).truthy = true
    · by_cases hb : nonBlank s = true <;> simp [ht, hb]
    · have hb := nonBlank_of_not_truthy (by simpa using ht)
      simp [ht, hb]
  | undefined => simp [JsVal.truthy]
  | null => simp [JsVal.truthy]
  | nan => simp [JsVal.truthy]
  | bool b =>
    rw [hv] at h
    cases b
    · simp [JsVal.truthy]
    · simp [JsVal.throwsOnTrim, JsVal.truthy, JsVal.isStr] at h
  | num n =>
    rw [hv] at h
    by_cases hn : n = 0
    · simp [JsVal.truthy, hn]
    · simp [JsVal.throwsOnTrim, JsVal.truthy, JsVal.isStr, hn] at h
  | obj =>
    rw [hv] at h
    simp [JsVal.throwsOnTrim, JsVal.truthy, JsVal.isStr] at h

/-- One step of the read loop on a slot that throws. -/
theorem getIngredientsLoop_throw (meal : Obj) (i : Nat) (rest : List Nat) (acc : List Ingredient)
    (h : (objGet meal (ingredientKey i)).throwsOnTrim = true) :
    getIngredientsLoop meal (i :: rest) acc = .error .typeError := by
  simp only [getIngredientsLoop]
  cases hv : objGet meal (ingredientKey i) <;> rw [hv] at h <;>
    simp_all [JsVal.throwsOnTrim, JsVal.truthy, JsVal.isStr]

/-- The read loop over slots none of which throws. -/
theorem getIngredientsLoop_ok (meal : Obj) (slots : List Nat) (acc : List Ingredient)
    (h : ∀ i ∈ slots, (objGet meal (ingredientKey i)).throwsOnTrim = false) :
    getIngredientsLoop meal slots acc = .ok (acc ++ slots.filterMap (readSlot meal)) := by
  induction slots generalizing acc with
  | nil => simp [getIngredientsLoop]
  | cons i rest ih =>
    rw [getIngredientsLoop_cons meal i rest acc (h i (List.mem_cons_self _ _)),
      ih _ (fun j hj => h j (List.mem_cons_of_mem _ hj))]
    cases hr : readSlot meal i <;> simp [List.filterMap_cons, hr]

/-- The read loop over slots one of which throws. -/
theorem getIngredientsLoop_error (meal : Obj) (slots : List Nat) (acc : List Ingredient)
    (h : ∃ i ∈ slots, (objGet meal (ingredientKey i)).throwsOnTrim = true) :
    getIngredientsLoop meal slots acc = .error .typeError := by
  induction slots generalizing acc with
  | nil => simp at h
  | cons i rest ih =>
    by_cases hi : (objGet meal (ingredientKey i)).throwsOnTrim = true
    · exact getIngredientsLoop_throw meal i rest acc hi
    · rw [getIngredientsLoop_cons meal i rest acc (by simpa using hi)]
      apply ih
      obtain ⟨j, hj, hjt⟩ := h
      rcases List.mem_cons.mp hj with e | e
      · exact absurd (e ▸ hjt) hi
      · exact ⟨j, e, hjt⟩

theorem filterMap_range'_getElem? {β : Type} (g : Option Ingredient → Option β)
    (hg : g none = none) (n s : Nat) (L : List Ingredient) :
    (List.range' (s + 1) n).filterMap (fun j => g (L[j - (s + 1)]?)) =
      (L.take n).filterMap (fun e => g (some e)) := by
  induction n generalizing s L with
  | zero => simp
  | succ n ih =>
    rw [List.range'_succ]
    cases L with
    | nil =>
      simp only [List.getElem?_nil, List.take_nil, List.filterMap_nil]
      rw [List.filterMap_eq_nil_iff]
      intro _ _
      exact hg
    | cons e rest =>
      have htail : (List.range' (s + 1 + 1) n).filterMap (fun j => g ((e :: rest)[j - (s + 1)]?)) =
          (List.range' (s + 1 + 1) n).filterMap (fun j => g (rest[j - (s + 1 + 1)]?)) := by
        apply List.filterMap_congr
        intro j hj
        have hj' := (List.mem_range'_1.mp hj).1
        have h2 : j - (s + 1) = (j - (s + 1 + 1)) + 1 := by omega
        rw [h2, List.getElem?_cons_succ]
      rw [List.filterMap_cons, htail, ih (s + 1) rest]
      simp only [Nat.sub_self, List.getElem?_cons_zero, List.take_succ_cons, List.filterMap_cons]

/-! ## The property names the submit loop creates -/

theorem mem_writtenKeys (k : String) (s : Nat) (L : List Ingredient) :
    k ∈ writtenKeys s L ↔
      ∃ i, ∃ h : i < L.length, nonBlank (L[i]).name = true ∧
        (k = ingredientKey (s + i + 1) ∨ k = measureKey (s + i + 1)) := by
  induction L generalizing s with
  | nil => simp [writtenKeys]
  | cons e rest ih =>
    rw [writtenKeys, List.mem_append, ih]
    constructor
    · rintro (h | ⟨i, hi, hb, hk⟩)
      · by_cases hb : nonBlank e.name = true
        · rw [if_pos hb] at h
          refine ⟨0, by simp, by simpa using hb, ?_⟩
          simpa using h
        · rw [if_neg hb] at h
          simp at h
      · refine ⟨i + 1, by simpa using hi, by simpa using hb, ?_⟩
        have e1 : s + (i + 1) + 1 = s + 1 + i + 1 := by omega
        rw [e1]
        exact hk
    · rintro ⟨i, hi, hb, hk⟩
      cases i with
      | zero =>
        left
        have hb' : nonBlank e.name = true := by simpa using hb
        rw [if_pos hb']
        simpa using hk
      | succ i =>
        right
        refine ⟨i, by simpa using hi, by simpa using hb, ?_⟩
        have e1 : s + (i + 1) + 1 = s + 1 + i + 1 := by omega
        rw [← e1]
        exact hk

theorem length_writtenKeys (s : Nat) (L : List Ingredient) :
    (writtenKeys s L).length = 2 * (L.filter (fun e => nonBlank e.name)).length := by
  induction L generalizing s with
  | nil => simp [writtenKeys]
  | cons e rest ih =>
    rw [writtenKeys, List.length_append, ih]
    by_cases hb : nonBlank e.name = true
    · simp [hb, List.filter_cons]
      omega
    · simp [hb, List.filter_cons]

theorem nodup_writtenKeys (s : Nat) (L : List Ingredient) : (writtenKeys s L).Nodup := by
  induction L generalizing s with
  | nil => simp [writtenKeys]
  | cons e rest ih =>
    rw [writtenKeys, List.nodup_append]
    refine ⟨?_, ih (s + 1), ?_⟩
    · by_cases hb : nonBlank e.name = true
      · simp [hb, ingredientKey_ne_measureKey]
      · simp [hb]
    · intro k hk hk'
      rw [mem_writtenKeys] at hk'
      obtain ⟨i, _, _, hki⟩ := hk'
      by_cases hb : nonBlank e.name = true
      · rw [if_pos hb] at hk
        simp only [List.mem_cons, List.mem_singleton, List.not_mem_nil, or_false] at hk
        rcases hk with hk | hk <;> rcases hki with hki | hki
        · have := ingredientKey_inj (hk.symm.trans hki)
          omega
        · exact ingredientKey_ne_measureKey _ _ (hk.symm.trans hki)
        · exact measureKey_ne_ingredientKey _ _ (hk.symm.trans hki)
        · have := measureKey_inj (hk.symm.trans hki)
          omega
      · rw [if_neg hb] at hk
        simp at hk

theorem mem_objKeys_fillSlot (m : Obj) (e : Ingredient) (i : Nat) (k : String) :
    k ∈ objKeys (fillSlot m e i) ↔
      k ∈ objKeys m ∨
        (nonBlank e.name = true ∧ (k = ingredientKey (i + 1) ∨ k = measureKey (i + 1))) := by
  unfold fillSlot
  by_cases hb : nonBlank e.name = true
  · simp only [hb, if_true, mem_objKeys_objSet, true_and]
    tauto
  · simp [hb]

/-- Membership in the property names after the `forEach` loop. -/
theorem mem_objKeys_forEachFrom (L : List Ingredient) (s : Nat) (m : Obj) (k : String) :
    k ∈ objKeys (forEachFrom fillSlot s L m) ↔ k ∈ objKeys m ∨ k ∈ writtenKeys s L := by
  induction L generalizing s m with
  | nil => simp [forEachFrom, writtenKeys]
  | cons e rest ih =>
    rw [forEachFrom, ih, mem_objKeys_fillSlot, writtenKeys, List.mem_append]
    by_cases hb : nonBlank e.name = true
    · simp only [hb, true_and, if_true, List.mem_cons, List.mem_singleton, List.not_mem_nil,
        or_false]
      tauto
    · simp [hb]

/-- When every name the loop writes is fresh, the names are appended in order. -/
theorem objKeys_forEachFrom_fresh (L : List Ingredient) (s : Nat) (m : Obj)
    (hfresh : ∀ k ∈ objKeys m, ∀ j, s < j → k ≠ ingredientKey j ∧ k ≠ measureKey j) :
    objKeys (forEachFrom fillSlot s L m) = objKeys m ++ writtenKeys s L := by
  induction L generalizing s m with
  | nil => simp [forEachFrom, writtenKeys]
  | cons e rest ih =>
    rw [forEachFrom, writtenKeys]
    by_cases hb : nonBlank e.name = true
    · have h1 : ingredientKey (s + 1) ∉ objKeys m :=
        fun hk => (hfresh _ hk (s + 1) (Nat.lt_succ_self s)).1 rfl
      have h2 : measureKey (s + 1) ∉
          objKeys (objSet m (ingredientKey (s + 1)) (.str e.name)) := by
        rw [objKeys_objSet_of_not_mem _ _ _ h1]
        intro hk
        rcases List.mem_append.mp hk with hk | hk
        · exact (hfresh _ hk (s + 1) (Nat.lt_succ_self s)).2 rfl
        · exact measureKey_ne_ingredientKey _ _ (List.mem_singleton.mp hk)
      have hkeys : objKeys (fillSlot m e s) =
          objKeys m ++ [ingredientKey (s + 1), measureKey (s + 1)] := by
        unfold fillSlot
        rw [if_pos hb, objKeys_objSet_of_not_mem _ _ _ h2, objKeys_objSet_of_not_mem _ _ _ h1]
        simp
      rw [ih (s + 1) (fillSlot m e s), hkeys, if_pos hb]
      · simp
      · intro k hk j hj
        rw [hkeys] at hk
        rcases List.mem_append.mp hk with hk | hk
        · exact hfresh k hk j (by omega)
        · simp only [List.mem_cons, List.mem_singleton, List.not_mem_nil, or_false] at hk
          rcases hk with hk | hk
          · subst hk
            exact ⟨fun h => by have := ingredientKey_inj h; omega, ingredientKey_ne_measureKey _ _⟩
          · subst hk
            exact ⟨measureKey_ne_ingredientKey _ _, fun h => by have := measureKey_inj h; omega⟩
    · have hm : fillSlot m e s = m := by simp [fillSlot, hb]
      rw [hm, ih (s + 1) m (fun k hk j hj => hfresh k hk j (by omega)), if_neg hb]
      simp

/-- When every name the loop writes exists already, the names are unchanged. -/
theorem objKeys_forEachFrom_of_subset (L : List Ingredient) (s : Nat) (m : Obj)
    (hsub : ∀ k ∈ writtenKeys s L, k ∈ objKeys m) :
    objKeys (forEachFrom fillSlot s L m) = objKeys m := by
  induction L generalizing s m with
  | nil => simp [forEachFrom]
  | cons e rest ih =>
    rw [forEachFrom]
    have hkeys : objKeys (fillSlot m e s) = objKeys m := by
      unfold fillSlot
      by_cases hb : nonBlank e.name = true
      · have h1 : ingredientKey (s + 1) ∈ objKeys m :=
          hsub _ (by simp [writtenKeys, hb])
        have h2 : measureKey (s + 1) ∈ objKeys m :=
          hsub _ (by simp [writtenKeys, hb])
        rw [if_pos hb, objKeys_objSet_of_mem _ _ _ (by rw [objKeys_objSet_of_mem _ _ _ h1]; exact h2),
          objKeys_objSet_of_mem _ _ _ h1]
      · simp [hb]
    rw [ih (s + 1) (fillSlot m e s), hkeys]
    intro k hk
    rw [hkeys]
    exact hsub k (by rw [writtenKeys]; exact List.mem_append_right _ hk)

/-! ## Reading what the submit loop wrote -/

theorem not_throwsOnTrim_of_skipped {v : JsVal} (h : v.skipped = true) :
    v.throwsOnTrim = false := by
  cases v <;> simp_all [JsVal.skipped, JsVal.throwsOnTrim, JsVal.isStr]

theorem readSlot_of_skipped (meal : Obj) (i : Nat)
    (h : (objGet meal (ingredientKey i)).skipped = true) : readSlot meal i = none := by
  unfold readSlot
  cases hv : objGet meal (ingredientKey i) <;> simp_all [JsVal.skipped]

theorem readSlot_of_str (meal : Obj) (i : Nat) (s : String)
    (h : objGet meal (ingredientKey i) = .str s) (hb : nonBlank s = true) :
    readSlot meal i = some ⟨s, jsOr (objGet meal (measureKey i)) (.str "")⟩ := by
  unfold readSlot
  simp [h, hb]

theorem filterMap_filter_map (p : Ingredient → Bool) (f : Ingredient → Ingredient)
    (l : List Ingredient) :
    l.filterMap (fun e => ((some e).filter p).map f) = (l.filter p).map f := by
  induction l with
  | nil => rfl
  | cons e rest ih =>
    rw [List.filterMap_cons, List.filter_cons, ih]
    by_cases hp : p e = true <;> simp [Option.filter, hp]

theorem withDefaultMeasure_of_isStr (e : Ingredient) (h : e.measure.isStr = true) :
    e.withDefaultMeasure = e := by
  obtain ⟨n, m⟩ := e
  cases m <;> simp_all [JsVal.isStr, Ingredient.withDefaultMeasure, jsOr, JsVal.truthy]

theorem map_withDefaultMeasure_of_isStr (l : List Ingredient)
    (h : ∀ e ∈ l, e.measure.isStr = true) : l.map Ingredient.withDefaultMeasure = l := by
  induction l with
  | nil => rfl
  | cons e rest ih =>
    rw [List.map_cons, withDefaultMeasure_of_isStr e (h e (List.mem_cons_self _ _)),
      ih (fun x hx => h x (List.mem_cons_of_mem _ hx))]

/-- Reading a record whose slots 1..20 hold exactly what the submit loop over
`L` wrote, every other slot being one the read loop skips. -/
theorem getIngredients_of_written (meal : Obj) (L : List Ingredient)
    (hw : ∀ j, 1 ≤ j → j ≤ 20 →
      match writtenAt 0 L j with
      | some e => objGet meal (ingredientKey j) = .str e.name ∧
          objGet meal (measureKey j) = e.measure
      | none => (objGet meal (ingredientKey j)).skipped = true) :
    getIngredients (some meal) =
      .ok (((L.take 20).filter (fun e => nonBlank e.name)).map Ingredient.withDefaultMeasure) := by
  have hread : ∀ j ∈ List.range' 1 20, readSlot meal j =
      ((L[j - (0 + 1)]?).filter (fun e => nonBlank e.name)).map Ingredient.withDefaultMeasure ∧
      (objGet meal (ingredientKey j)).throwsOnTrim = false := by
    intro j hj
    obtain ⟨h1, h2⟩ := List.mem_range'_1.mp hj
    have hj' := hw j h1 (by omega)
    have hwa : writtenAt 0 L j = (L[j - (0 + 1)]?).filter (fun e => nonBlank e.name) := by
      unfold writtenAt
      rw [if_pos (by omega)]
    rw [← hwa]
    cases hwj : writtenAt 0 L j with
    | none =>
      rw [hwj] at hj'
      exact ⟨by simpa using readSlot_of_skipped meal j hj', not_throwsOnTrim_of_skipped hj'⟩
    | some e =>
      rw [hwj] at hj'
      have hb : nonBlank e.name = true := by
        rw [hwa] at hwj
        cases hL : L[j - (0 + 1)]? with
        | none => simp [hL, Option.filter] at hwj
        | some e' =>
          rw [hL] at hwj
          by_cases hb' : nonBlank e'.name = true
          · simp only [Option.filter, hb', if_true, Option.some.injEq] at hwj
            exact hwj ▸ hb'
          · simp [Option.filter, hb'] at hwj
      refine ⟨?_, ?_⟩
      · rw [readSlot_of_str meal j e.name hj'.1 hb, hj'.2]
        rfl
      · rw [hj'.1]
        simp [JsVal.throwsOnTrim, JsVal.isStr]
  unfold getIngredients
  simp only
  rw [getIngredientsLoop_ok meal _ [] (fun j hj => (hread j hj).2), List.nil_append,
    List.filterMap_congr (fun j hj => (hread j hj).1),
    filterMap_range'_getElem?
      (fun o => (o.filter (fun e => nonBlank e.name)).map Ingredient.withDefaultMeasure)
      (by rfl) 20 0 L,
    filterMap_filter_map]

theorem mem_objKeys_foldl_objSet (b : Obj) (ks : List String) (a : Obj) (k : String) :
    k ∈ objKeys (ks.foldl (fun acc k => objSet acc k (objGet b k)) a) ↔ k ∈ objKeys a ∨ k ∈ ks := by
  induction ks generalizing a with
  | nil => simp
  | cons k₀ ks ih =>
    rw [List.foldl_cons, ih, mem_objKeys_objSet, List.mem_cons]
    tauto

theorem mem_objKeys_objSpread (a b : Obj) (k : String) :
    k ∈ objKeys (objSpread a b) ↔ k ∈ objKeys a ∨ k ∈ objKeys b :=
  mem_objKeys_foldl_objSet b (objKeys b) a k

theorem slotKey_mem_toFlatForUpdate (L : List Ingredient) (k : String) (h : k ∈ slotKeys) :
    k ∈ objKeys (toFlatForUpdate L) := by
  unfold toFlatForUpdate
  rw [mem_objKeys_forEachFrom, objKeys_clearedSlots]
  exact Or.inl h

/-- A slot of the record after the merge-write holds what the submit loop
wrote, whatever the record and the form fields held. -/
theorem objGet_updateDoc_slot (R formData : Obj) (L : List Ingredient) (k : String)
    (h : k ∈ slotKeys) :
    objGet (updateDoc R (updatePayload formData L)) k = objGet (toFlatForUpdate L) k := by
  have hk := slotKey_mem_toFlatForUpdate L k h
  unfold updateDoc updatePayload
  rw [objGet_objSpread, if_pos ((mem_objKeys_objSpread _ _ _).mpr (Or.inr hk)),
    objGet_objSpread, if_pos hk]

/-- The slots 1..20 of the update encoding, in the form the read lemma takes. -/
theorem toFlatForUpdate_written (L : List Ingredient) (j : Nat) (h1 : 1 ≤ j) (h20 : j ≤ 20) :
    match writtenAt 0 L j with
    | some e => objGet (toFlatForUpdate L) (ingredientKey j) = .str e.name ∧
        objGet (toFlatForUpdate L) (measureKey j) = e.measure
    | none => objGet (toFlatForUpdate L) (ingredientKey j) = .str "" ∧
        objGet (toFlatForUpdate L) (measureKey j) = .str "" := by
  unfold toFlatForUpdate
  rw [objGet_forEachFrom_ingredientKey, objGet_forEachFrom_measureKey]
  cases writtenAt 0 L j with
  | some e => exact ⟨rfl, rfl⟩
  | none =>
    simp only [objGet_clearedSlots_ingredientKey, objGet_clearedSlots_measureKey]
    simp [h1, h20]

theorem skipped_empty : (JsVal.str "").skipped = true := by decide

/-- Reading the update encoding back, for a list of any length. -/
theorem getIngredients_toFlatForUpdate (L : List Ingredient) :
    getIngredients (some (toFlatForUpdate L)) =
      .ok (((L.take 20).filter (fun e => nonBlank e.name)).map Ingredient.withDefaultMeasure) := by
  apply getIngredients_of_written
  intro j h1 h20
  have h := toFlatForUpdate_written L j h1 h20
  cases hw : writtenAt 0 L j with
  | some e =>
    rw [hw] at h
    exact h
  | none =>
    rw [hw] at h
    simp only [h.1, skipped_empty]

/-- Reading a record back after the merge-write of the update payload, for a
list of any length. -/
theorem getIngredients_updateDoc (R formData : Obj) (L : List Ingredient) :
    getIngredients (some (updateDoc R (updatePayload formData L))) =
      .ok (((L.take 20).filter (fun e => nonBlank e.name)).map Ingredient.withDefaultMeasure) := by
  apply getIngredients_of_written
  intro j h1 h20
  have hi : ingredientKey j ∈ slotKeys := (mem_slotKeys _).mpr ⟨j, h1, h20, Or.inl rfl⟩
  have hm : measureKey j ∈ slotKeys := (mem_slotKeys _).mpr ⟨j, h1, h20, Or.inr rfl⟩
  rw [objGet_updateDoc_slot R formData L _ hi, objGet_updateDoc_slot R formData L _ hm]
  have h := toFlatForUpdate_written L j h1 h20
  cases hw : writtenAt 0 L j with
  | some e =>
    rw [hw] at h
    exact h
  | none =>
    rw [hw] at h
    simp only [h.1, skipped_empty]

theorem filter_nonBlank_eq_self (L : List Ingredient) (h : ∀ e ∈ L, nonBlank e.name = true) :
    L.filter (fun e => nonBlank e.name) = L :=
  List.filter_eq_self.mpr h

/-! ## The read loop against the reading rule of the spec -/

theorem readSlot_some {meal : Obj} {i : Nat} {e : Ingredient} (h : readSlot meal i = some e) :
    objGet meal (ingredientKey i) = .str e.name ∧ nonBlank e.name = true ∧
      e.measure = jsOr (objGet meal (measureKey i)) (.str "") := by
  unfold readSlot at h
  cases hv : objGet meal (ingredientKey i) <;> rw [hv] at h <;> simp at h
  rename_i s
  obtain ⟨hb, he⟩ := h
  subst he
  exact ⟨rfl, hb, rfl⟩

theorem jsOr_eq_jsNullish_of_isStrOrMissing (v : JsVal) (h : v.isStrOrMissing = true) :
    jsOr v (.str "") = jsNullish v (.str "") := by
  cases v <;>
    simp_all [JsVal.isStrOrMissing, JsVal.isStr, JsVal.isNullish, jsOr, jsNullish, JsVal.truthy]

theorem not_throwsOnTrim_of_isStrOrMissing (v : JsVal) (h : v.isStrOrMissing = true) :
    v.throwsOnTrim = false := by
  cases v <;>
    simp_all [JsVal.isStrOrMissing, JsVal.isStr, JsVal.isNullish, JsVal.throwsOnTrim,
      JsVal.truthy]

theorem fromFlatSpecStep_eq (meal : Obj) (acc : List Ingredient) (i : Nat)
    (hm : (objGet meal (measureKey i)).isStrOrMissing = true) :
    fromFlatSpecStep meal acc i = acc ++ (readSlot meal i).toList := by
  unfold fromFlatSpecStep readSlot
  rw [jsOr_eq_jsNullish_of_isStrOrMissing _ hm]
  cases objGet meal (ingredientKey i) <;> simp
  rename_i s
  by_cases hb : nonBlank s = true <;> simp [hb]

/-- On slots holding strings or nothing the read loop computes the fold of the
spec's reading rule. -/
theorem getIngredientsLoop_eq_foldl (meal : Obj) (slots : List Nat) (acc : List Ingredient)
    (hing : ∀ i ∈ slots, (objGet meal (ingredientKey i)).isStrOrMissing = true)
    (hmea : ∀ i ∈ slots, (objGet meal (measureKey i)).isStrOrMissing = true) :
    getIngredientsLoop meal slots acc = .ok (slots.foldl (fromFlatSpecStep meal) acc) := by
  induction slots generalizing acc with
  | nil => simp [getIngredientsLoop]
  | cons i rest ih =>
    rw [getIngredientsLoop_cons meal i rest acc
        (not_throwsOnTrim_of_isStrOrMissing _ (hing i (List.mem_cons_self _ _))),
      List.foldl_cons, fromFlatSpecStep_eq meal acc i (hmea i (List.mem_cons_self _ _))]
    exact ih _ (fun j hj => hing j (List.mem_cons_of_mem _ hj))
      (fun j hj => hmea j (List.mem_cons_of_mem _ hj))

/-- The entries a `filterMap` keeps pair up, in order, with the positions it
keeps. -/
theorem forall₂_filterMap {β : Type} (f : Nat → Option β) (P : β → Nat → Prop)
    (slots : List Nat) (hP : ∀ i ∈ slots, ∀ e, f i = some e → P e i) :
    List.Forall₂ P (slots.filterMap f) (slots.filter (fun i => (f i).isSome)) := by
  induction slots with
  | nil => exact List.Forall₂.nil
  | cons i rest ih =>
    have ih' := ih (fun j hj => hP j (List.mem_cons_of_mem _ hj))
    rw [List.filterMap_cons, List.filter_cons]
    cases hf : f i with
    | none => simpa using ih'
    | some e =>
      simp only [Option.isSome_some, if_true]
      exact List.Forall₂.cons (hP i (List.mem_cons_self _ _) e hf) ih'

theorem filterMap_eq_singleton {β : Type} (f : Nat → Option β) (slots : List Nat) (k : Nat)
    (e : β) (hk : k ∈ slots) (hnd : slots.Nodup) (hf : f k = some e)
    (ho : ∀ j ∈ slots, j ≠ k → f j = none) : slots.filterMap f = [e] := by
  induction slots with
  | nil => simp at hk
  | cons i rest ih =>
    rw [List.nodup_cons] at hnd
    by_cases hik : i = k
    · subst hik
      have hrest : rest.filterMap f = [] := by
        rw [List.filterMap_eq_nil_iff]
        intro j hj
        exact ho j (List.mem_cons_of_mem _ hj) (fun e' => hnd.1 (e' ▸ hj))
      rw [List.filterMap_cons, hf, hrest]
    · have hk' : k ∈ rest := by
        rcases List.mem_cons.mp hk with e' | e'
        · exact absurd e'.symm hik
        · exact e'
      rw [List.filterMap_cons, ho i (List.mem_cons_self _ _) hik]
      exact ih hk' hnd.2 (fun j hj => ho j (List.mem_cons_of_mem _ hj))

/-! ## The loader loop -/

theorem loadedIngredientsLoop_cons (data : Obj) (i : Nat) (rest : List Nat)
    (acc : List Ingredient) (h : (objGet data (ingredientKey i)).throwsOnTrim = false) :
    loadedIngredientsLoop data (i :: rest) acc =
      loadedIngredientsLoop data rest (acc ++ (loadSlot data i).toList) := by
  simp only [loadedIngredientsLoop, loadSlot]
  cases hv : objGet data (ingredientKey i) with
  | str s =>
    by_cases ht : (JsVal.str s).truthy = true
    · by_cases hb : nonBlank s = true <;> simp [ht, hb]
    · have hb := nonBlank_of_not_truthy (by simpa using ht)
      simp [ht, hb]
  | undefined => simp [JsVal.truthy]
  | null => simp [JsVal.truthy]
  | nan => simp [JsVal.truthy]
  | bool b =>
    rw [hv] at h
    cases b
    · simp [JsVal.truthy]
    · simp [JsVal.throwsOnTrim, JsVal.truthy, JsVal.isStr] at h
  | num n =>
    rw [hv] at h
    by_cases hn : n = 0
    · simp [JsVal.truthy, hn]
    · simp [JsVal.throwsOnTrim, JsVal.truthy, JsVal.isStr, hn] at h
  | obj =>
    rw [hv] at h
    simp [JsVal.throwsOnTrim, JsVal.truthy, JsVal.isStr] at h

theorem loadedIngredientsLoop_throw (data : Obj) (i : Nat) (rest : List Nat)
    (acc : List Ingredient) (h : (objGet data (ingredientKey i)).throwsOnTrim = true) :
    loadedIngredientsLoop data (i :: rest) acc = .error .typeError := by
  simp only [loadedIngredientsLoop]
  cases hv : objGet data (ingredientKey i) <;> rw [hv] at h <;>
    simp_all [JsVal.throwsOnTrim, JsVal.truthy, JsVal.isStr]

/-- The loader loop over slots none of which throws. -/
theorem loadedIngredientsLoop_ok (data : Obj) (slots : List Nat) (acc : List Ingredient)
    (h : ∀ i ∈ slots, (objGet data (ingredientKey i)).throwsOnTrim = false) :
    loadedIngredientsLoop data slots acc = .ok (acc ++ slots.filterMap (loadSlot data)) := by
  induction slots generalizing acc with
  | nil => simp [loadedIngredientsLoop]
  | cons i rest ih =>
    rw [loadedIngredientsLoop_cons data i rest acc (h i (List.mem_cons_self _ _)),
      ih _ (fun j hj => h j (List.mem_cons_of_mem _ hj))]
    cases hr : loadSlot data i <;> simp [List.filterMap_cons, hr]

/-- The loader loop over slots one of which throws. -/
theorem loadedIngredientsLoop_error (data : Obj) (slots : List Nat) (acc : List Ingredient)
    (h : ∃ i ∈ slots, (objGet data (ingredientKey i)).throwsOnTrim = true) :
    loadedIngredientsLoop data slots acc = .error .typeError := by
  induction slots generalizing acc with
  | nil => simp at h
  | cons i rest ih =>
    by_cases hi : (objGet data (ingredientKey i)).throwsOnTrim = true
    · exact loadedIngredientsLoop_throw data i rest acc hi
    · rw [loadedIngredientsLoop_cons data i rest acc (by simpa using hi)]
      apply ih
      obtain ⟨j, hj, hjt⟩ := h
      rcases List.mem_cons.mp hj with e | e
      · exact absurd (e ▸ hjt) hi
      · exact ⟨j, e, hjt⟩

/-! ## The resolver -/

/-- The local lookup returns null exactly when a read fails or the store holds
neither a document under the key nor one whose `idMeal` field is the
identifier. -/
theorem getCustomRecipe_eq_none_iff (store : Store) (id : String) :
    getCustomRecipe store id = none ↔
      store.reachable = false ∨
        ((∀ d ∈ store.docs, d.key ≠ id) ∧
          ∀ d ∈ store.docs, objGet d.data "idMeal" ≠ .str id) := by
  unfold getCustomRecipe
  cases hr : store.reachable with
  | false => simp
  | true =>
    simp only [if_true, Bool.true_eq_false, false_or]
    cases hfind : store.docs.find? (fun d => d.key == id) with
    | some d =>
      have hd := List.find?_some hfind
      have hmem := List.mem_of_find?_eq_some hfind
      constructor
      · intro h
        exact absurd h (by simp)
      · rintro ⟨hkey, _⟩
        exact absurd (by simpa using hd) (hkey d hmem)
    | none =>
      have hkey : ∀ d ∈ store.docs, d.key ≠ id := by
        intro d hd
        have := List.find?_eq_none.mp hfind d hd
        simpa using this
      cases hq : store.docs.filter (fun d => decide (objGet d.data "idMeal" = .str id)) with
      | nil =>
        simp only [List.head?_nil, true_iff]
        refine ⟨hkey, ?_⟩
        intro d hd hf
        have : d ∈ store.docs.filter (fun d => decide (objGet d.data "idMeal" = .str id)) :=
          List.mem_filter.mpr ⟨hd, by simpa using hf⟩
        rw [hq] at this
        simp at this
      | cons d rest =>
        have hd : d ∈ store.docs.filter (fun d => decide (objGet d.data "idMeal" = .str id)) := by
          rw [hq]
          exact List.mem_cons_self _ _
        obtain ⟨hdmem, hdf⟩ := List.mem_filter.mp hd
        simp only [List.head?_cons]
        constructor
        · intro h
          exact absurd h (by simp)
        · rintro ⟨_, hno⟩
          exact absurd (by simpa using hdf) (hno d hdmem)

/-- The external step leaves no record exactly when it is skipped, fails, or
answers with null or empty `meals`. -/
theorem externalLookup_eq_none_iff (ext : String → ExtReply) (id : String) :
    externalLookup ext id = none ↔
      jsIsNaN id = true ∨ ext id = .failed ∨ ext id = .meals none ∨ ext id = .meals (some []) := by
  unfold externalLookup
  cases hn : jsIsNaN id with
  | true => simp
  | false =>
    cases he : ext id with
    | failed => simp
    | meals m =>
      cases m with
      | none => simp
      | some ms =>
        cases ms with
        | nil => simp
        | cons r rest => simp

/-! ## The local search -/

theorem includesChars_iff (hay needle : List Char) :
    includesChars hay needle = true ↔ needle <:+: hay := by
  induction hay with
  | nil =>
    rw [includesChars, List.infix_nil]
    exact List.isEmpty_iff
  | cons c rest ih =>
    rw [includesChars, Bool.or_eq_true, ih, List.isPrefixOf_iff_prefix, List.infix_cons_iff]

theorem objGet_objSpread_nil (o : Obj) (k : String) : objGet (objSpread [] o) k = objGet o k := by
  rw [objGet_objSpread]
  by_cases h : k ∈ objKeys o
  · rw [if_pos h]
  · rw [if_neg h, objGet_of_not_mem o k h]
    rfl

theorem objGet_recipeOfDoc_idMeal (d : Doc) : objGet (recipeOfDoc d) "idMeal" = .str d.key :=
  objGet_objSet_self _ _ _

theorem objGet_recipeOfDoc_of_ne (d : Doc) (k : String) (h : "idMeal" ≠ k) :
    objGet (recipeOfDoc d) k = objGet d.data k := by
  unfold recipeOfDoc
  rw [objGet_objSet_ne _ _ h, objGet_objSpread_nil]

/-- On a record with a string title and a category that is a string or falsy the
callback of the filter does not throw and decides the match rule of the spec. -/
theorem matchesQuery_recipeOfDoc (toLowerCase : String → String) (q : String) (d : Doc)
    (htitle : (objGet d.data "strMeal").isStr = true)
    (hcat : (objGet d.data "strCategory").isStr = true ∨
      (objGet d.data "strCategory").truthy = false) :
    matchesQuery toLowerCase (toLowerCase q) (recipeOfDoc d) =
      .ok (localMatchSpec toLowerCase q d) := by
  unfold matchesQuery localMatchSpec
  rw [objGet_recipeOfDoc_of_ne d "strMeal" (by decide),
    objGet_recipeOfDoc_of_ne d "strCategory" (by decide)]
  cases ht : objGet d.data "strMeal" with
  | str t =>
    simp only [jsIncludes]
    by_cases hinc : includesChars (toLowerCase t).data (toLowerCase q).data = true
    · have := (includesChars_iff _ _).mp hinc
      simp [hinc, this]
    · have hno : ¬ (toLowerCase q).data <:+: (toLowerCase t).data :=
        fun h => hinc ((includesChars_iff _ _).mpr h)
      simp only [hinc, hno, decide_False, Bool.false_or]
      cases hc : objGet d.data "strCategory" with
      | str c =>
        by_cases hce : c = ""
        · simp [JsVal.truthy, hce]
        · have hb : (includesChars (toLowerCase c).data (toLowerCase q).data) =
              decide ((toLowerCase q).data <:+: (toLowerCase c).data) := by
            rw [Bool.eq_iff_iff, includesChars_iff]
            simp
          simp [JsVal.truthy, hce, hb]
      | undefined => simp [JsVal.truthy]
      | null => simp [JsVal.truthy]
      | nan => simp [JsVal.truthy]
      | bool b =>
        rw [hc] at hcat
        cases b <;> simp_all [JsVal.truthy, JsVal.isStr]
      | num n =>
        rw [hc] at hcat
        by_cases hn : n = 0 <;> simp_all [JsVal.truthy, JsVal.isStr]
      | obj =>
        rw [hc] at hcat
        simp_all [JsVal.truthy, JsVal.isStr]
  | undefined => simp [ht, JsVal.isStr] at htitle
  | null => simp [ht, JsVal.isStr] at htitle
  | nan => simp [ht, JsVal.isStr] at htitle
  | bool b => simp [ht, JsVal.isStr] at htitle
  | num n => simp [ht, JsVal.isStr] at htitle
  | obj => simp [ht, JsVal.isStr] at htitle

theorem filterRecipes_ok (p : Obj → Except JsError Bool) (b : Obj → Bool) (l : List Obj)
    (h : ∀ r ∈ l, p r = .ok (b r)) : filterRecipes p l = .ok (l.filter b) := by
  induction l with
  | nil => rfl
  | cons r rest ih =>
    rw [filterRecipes, h r (List.mem_cons_self _ _),
      ih (fun x hx => h x (List.mem_cons_of_mem _ hx))]
    cases hb : b r <;> simp [List.filter_cons, hb]

theorem filterRecipes_map_ok (p : Obj → Except JsError Bool) (b : Doc → Bool) (docs : List Doc)
    (h : ∀ d ∈ docs, p (recipeOfDoc d) = .ok (b d)) :
    filterRecipes p (docs.map recipeOfDoc) = .ok ((docs.filter b).map recipeOfDoc) := by
  induction docs with
  | nil => rfl
  | cons d rest ih =>
    rw [List.map_cons, filterRecipes, h d (List.mem_cons_self _ _),
      ih (fun x hx => h x (List.mem_cons_of_mem _ hx))]
    cases hb : b d <;> simp [List.filter_cons, hb]

/-- The local search on a reachable store of records with string titles. -/
theorem searchCustomRecipes_eq (toLowerCase : String → String) (store : Store) (q : String)
    (hreach : store.reachable = true)
    (htitle : ∀ d ∈ store.docs, (objGet d.data "strMeal").isStr = true)
    (hcat : ∀ d ∈ store.docs, (objGet d.data "strCategory").isStr = true ∨
      (objGet d.data "strCategory").truthy = false) :
    searchCustomRecipes toLowerCase store q =
      (store.docs.filter (localMatchSpec toLowerCase q)).map recipeOfDoc := by
  unfold searchCustomRecipes
  simp only [hreach, if_true]
  rw [filterRecipes_map_ok _ (localMatchSpec toLowerCase q) store.docs
    (fun d hd => matchesQuery_recipeOfDoc toLowerCase q d (htitle d hd) (hcat d hd))]

theorem searchCustomRecipes_unreachable (toLowerCase : String → String) (store : Store)
    (q : String) (h : store.reachable = false) : searchCustomRecipes toLowerCase store q = [] := by
  unfold searchCustomRecipes
  simp [h]

theorem filterRecipes_error (p : Obj → Except JsError Bool) (l : List Obj)
    (h : ∃ r ∈ l, p r = .error .typeError) : filterRecipes p l = .error .typeError := by
  induction l with
  | nil => simp at h
  | cons r rest ih =>
    rw [filterRecipes]
    cases hp : p r with
    | error e => cases e; rfl
    | ok b =>
      have hrest : ∃ x ∈ rest, p x = .error .typeError := by
        obtain ⟨x, hx, hxe⟩ := h
        rcases List.mem_cons.mp hx with e | e
        · rw [e, hp] at hxe
          exact absurd hxe (by simp)
        · exact ⟨x, e, hxe⟩
      simp only [ih hrest]

theorem matchesQuery_of_not_isStr (toLowerCase : String → String) (lowerQuery : String)
    (d : Doc) (h : (objGet d.data "strMeal").isStr = false) :
    matchesQuery toLowerCase lowerQuery (recipeOfDoc d) = .error .typeError := by
  unfold matchesQuery
  rw [objGet_recipeOfDoc_of_ne d "strMeal" (by decide)]
  cases ht : objGet d.data "strMeal" <;> simp_all [JsVal.isStr]

/-- A stored record without a string title makes the filter throw; the local
search catches the error and returns the empty list. -/
theorem searchCustomRecipes_of_bad_title (toLowerCase : String → String) (store : Store)
    (q : String) (h : ∃ d ∈ store.docs, (objGet d.data "strMeal").isStr = false) :
    searchCustomRecipes toLowerCase store q = [] := by
  unfold searchCustomRecipes
  cases store.reachable with
  | false => rfl
  | true =>
    obtain ⟨d, hd, hdt⟩ := h
    simp only [if_true]
    rw [filterRecipes_error _ _ ⟨recipeOfDoc d, List.mem_map_of_mem _ hd,
      matchesQuery_of_not_isStr toLowerCase _ d hdt⟩]

/-! ## Sorting the comments -/

theorem sortInsert_perm (cmp : Obj → Obj → Option Int) (a : Obj) (l : List Obj) :
    (sortInsert cmp a l).Perm (a :: l) := by
  induction l with
  | nil => exact List.Perm.refl _
  | cons b rest ih =>
    rw [sortInsert]
    split
    · exact List.Perm.refl _
    · exact ((List.Perm.cons b ih).trans (List.Perm.swap a b rest))

theorem jsSort_perm (cmp : Obj → Obj → Option Int) (l : List Obj) : (jsSort cmp l).Perm l := by
  induction l with
  | nil => exact List.Perm.refl _
  | cons a rest ih =>
    show (sortInsert cmp a (jsSort cmp rest)).Perm (a :: rest)
    exact (sortInsert_perm cmp a _).trans (List.Perm.cons a ih)

theorem sortInsert_pairwise (cmp : Obj → Obj → Option Int) (key : Obj → Int) (a : Obj)
    (l : List Obj) (hcmp : ∀ b ∈ l, cmp a b = some (key b - key a))
    (hs : l.Pairwise (fun x y => key y ≤ key x)) :
    (sortInsert cmp a l).Pairwise (fun x y => key y ≤ key x) := by
  induction l with
  | nil => simp [sortInsert]
  | cons b rest ih =>
    rw [sortInsert, hcmp b (List.mem_cons_self _ _)]
    rw [List.pairwise_cons] at hs
    by_cases hle : key b - key a ≤ 0
    · simp only [Option.getD_some, hle, if_true]
      refine List.Pairwise.cons ?_ (List.Pairwise.cons hs.1 hs.2)
      intro x hx
      rcases List.mem_cons.mp hx with e | e
      · rw [e]
        omega
      · have := hs.1 x e
        omega
    · simp only [Option.getD_some, hle, if_false]
      refine List.Pairwise.cons ?_ (ih (fun x hx => hcmp x (List.mem_cons_of_mem _ hx)) hs.2)
      intro x hx
      rcases List.mem_cons.mp ((sortInsert_perm cmp a rest).subset hx) with e | e
      · rw [e]
        omega
      · exact hs.1 x e

theorem jsSort_pairwise (cmp : Obj → Obj → Option Int) (key : Obj → Int) (l : List Obj)
    (hcmp : ∀ a ∈ l, ∀ b ∈ l, cmp a b = some (key b - key a)) :
    (jsSort cmp l).Pairwise (fun x y => key y ≤ key x) := by
  induction l with
  | nil => exact List.Pairwise.nil
  | cons a rest ih =>
    show (sortInsert cmp a (jsSort cmp rest)).Pairwise _
    apply sortInsert_pairwise
    · intro b hb
      exact hcmp a (List.mem_cons_self _ _) b
        (List.mem_cons_of_mem _ ((jsSort_perm cmp rest).subset hb))
    · exact ih (fun x hx y hy =>
        hcmp x (List.mem_cons_of_mem _ hx) y (List.mem_cons_of_mem _ hy))

theorem objGet_commentOfDoc_id (d : Doc) : objGet (commentOfDoc d) "id" = .str d.key :=
  objGet_objSet_self _ _ _

theorem objGet_commentOfDoc_of_ne (d : Doc) (k : String) (h : "id" ≠ k) :
    objGet (commentOfDoc d) k = objGet d.data k := by
  unfold commentOfDoc
  rw [objGet_objSet_ne _ _ h, objGet_objSpread_nil]

/-- The comments of a recipe are a permutation of its stored documents. -/
theorem getComments_perm (dateOf : JsVal → Option Int) (comments : List Doc) (recipeId : JsVal) :
    (getComments dateOf comments recipeId).Perm
      ((comments.filter
        (fun d => decide (objGet d.data "recipeId" = .str (jsToString recipeId)))).map
        commentOfDoc) :=
  jsSort_perm _ _

/-! ## Posting a comment -/

theorem filter_addComment_of_match (p : Doc → Bool) (comments : List Doc) (position : Nat)
    (n : Doc) (h : p n = true) :
    ((comments.take position ++ [n] ++ comments.drop position).filter p).Perm
      (n :: comments.filter p) := by
  have hsplit : comments.filter p =
      (comments.take position).filter p ++ (comments.drop position).filter p := by
    rw [← List.filter_append, List.take_append_drop]
  rw [List.filter_append, List.filter_append, hsplit]
  simp only [List.filter_cons, h, if_true, List.filter_nil]
  rw [List.append_assoc]
  exact List.perm_middle

theorem filter_addComment_of_not_match (p : Doc → Bool) (comments : List Doc) (position : Nat)
    (n : Doc) (h : p n = false) :
    (comments.take position ++ [n] ++ comments.drop position).filter p = comments.filter p := by
  have hsplit : comments.filter p =
      (comments.take position).filter p ++ (comments.drop position).filter p := by
    rw [← List.filter_append, List.take_append_drop]
  rw [List.filter_append, List.filter_append, hsplit]
  simp [List.filter_cons, h]

theorem objGet_addComment_recipeId (commentData : Obj) (recipeId : JsVal) (now : String) :
    objGet (objSet (objSet (objSpread [] commentData) "recipeId"
      (.str (jsToString recipeId))) "createdAt" (.str now)) "recipeId" =
      .str (jsToString recipeId) := by
  rw [objGet_objSet_ne _ _ (by decide), objGet_objSet_self]

theorem objGet_addComment_of_ne (commentData : Obj) (recipeId : JsVal) (now : String)
    (k : String) (h1 : "createdAt" ≠ k) (h2 : "recipeId" ≠ k) :
    objGet (objSet (objSet (objSpread [] commentData) "recipeId"
      (.str (jsToString recipeId))) "createdAt" (.str now)) k = objGet commentData k := by
  rw [objGet_objSet_ne _ _ h1, objGet_objSet_ne _ _ h2, objGet_objSpread_nil]

/-- The comments of the recipe after `addComment` are the new comment and the
comments before, in some order. -/
theorem getComments_addComment_perm (dateOf : JsVal → Option Int) (comments : List Doc)
    (newKey : String) (position : Nat) (now : String) (recipeId : JsVal) (commentData : Obj) :
    (getComments dateOf (addComment comments newKey position now recipeId commentData)
        recipeId).Perm
      (commentOfDoc ⟨newKey, objSet (objSet (objSpread [] commentData) "recipeId"
          (.str (jsToString recipeId))) "createdAt" (.str now)⟩ ::
        getComments dateOf comments recipeId) := by
  refine (getComments_perm dateOf _ recipeId).trans ?_
  refine List.Perm.trans ?_ (List.Perm.cons _ (getComments_perm dateOf comments recipeId).symm)
  unfold addComment
  have h := filter_addComment_of_match
    (fun d => decide (objGet d.data "recipeId" = .str (jsToString recipeId))) comments position
    ⟨newKey, objSet (objSet (objSpread [] commentData) "recipeId"
      (.str (jsToString recipeId))) "createdAt" (.str now)⟩
    (by simp [objGet_addComment_recipeId])
  exact (h.map commentOfDoc)

/-- The comments of a recipe with another id are not touched by `addComment`. -/
theorem getComments_addComment_other (dateOf : JsVal → Option Int) (comments : List Doc)
    (newKey : String) (position : Nat) (now : String) (recipeId other : JsVal)
    (commentData : Obj) (h : jsToString other ≠ jsToString recipeId) :
    getComments dateOf (addComment comments newKey position now recipeId commentData) other =
      getComments dateOf comments other := by
  unfold getComments addComment
  rw [filter_addComment_of_not_match]
  simp only [objGet_addComment_recipeId, decide_eq_false_iff_not, JsVal.str.injEq]
  exact fun e => h e.symm

/-! ## Keyed collections -/

theorem kvGet_kvSet_self {κ ν : Type} [DecidableEq κ] (l : List (κ × ν)) (k : κ) (v : ν) :
    kvGet (kvSet l k v) k = some v := by
  induction l with
  | nil => simp [kvSet, kvGet]
  | cons p rest ih =>
    obtain ⟨k', v'⟩ := p
    by_cases hk : k' = k
    · simp [kvSet, kvGet, hk]
    · simp [kvSet, kvGet, hk, ih]

theorem kvGet_kvSet_ne {κ ν : Type} [DecidableEq κ] (l : List (κ × ν)) {k k' : κ} (v : ν)
    (h : k ≠ k') : kvGet (kvSet l k v) k' = kvGet l k' := by
  induction l with
  | nil => simp [kvSet, kvGet, h]
  | cons p rest ih =>
    obtain ⟨k₀, v₀⟩ := p
    by_cases hk : k₀ = k
    · subst hk
      simp [kvSet, kvGet, h]
    · by_cases hk' : k₀ = k'
      · subst hk'
        simp [kvSet, kvGet, hk]
      · simp [kvSet, kvGet, hk, hk', ih]

theorem kvSet_kvSet_self {κ ν : Type} [DecidableEq κ] (l : List (κ × ν)) (k : κ) (v : ν) :
    kvSet (kvSet l k v) k v = kvSet l k v := by
  induction l with
  | nil => simp [kvSet]
  | cons p rest ih =>
    obtain ⟨k', v'⟩ := p
    by_cases hk : k' = k
    · simp [kvSet, hk]
    · simp [kvSet, hk, ih]

theorem mem_kvSet {κ ν : Type} [DecidableEq κ] (l : List (κ × ν)) (k : κ) (v : ν)
    (e : κ × ν) (h : e ∈ kvSet l k v) : e = (k, v) ∨ e ∈ l := by
  induction l with
  | nil =>
    left
    simpa [kvSet] using h
  | cons p rest ih =>
    obtain ⟨k₀, v₀⟩ := p
    by_cases hk : k₀ = k
    · simp only [kvSet, hk, if_true, List.mem_cons] at h
      rcases h with h | h
      · exact Or.inl h
      · exact Or.inr (List.mem_cons_of_mem _ h)
    · simp only [kvSet, hk, if_false, List.mem_cons] at h
      rcases h with h | h
      · right
        rw [h]
        exact List.mem_cons_self _ _
      · rcases ih h with h' | h'
        · exact Or.inl h'
        · exact Or.inr (List.mem_cons_of_mem _ h')

theorem map_fst_kvSet_of_mem {κ ν : Type} [DecidableEq κ] (l : List (κ × ν)) (k : κ) (v : ν)
    (h : k ∈ l.map Prod.fst) : (kvSet l k v).map Prod.fst = l.map Prod.fst := by
  induction l with
  | nil => simp at h
  | cons p rest ih =>
    obtain ⟨k₀, v₀⟩ := p
    by_cases hk : k₀ = k
    · simp [kvSet, hk]
    · have hr : k ∈ rest.map Prod.fst := by
        simp only [List.map_cons, List.mem_cons] at h
        rcases h with h | h
        · exact absurd h.symm hk
        · exact h
      simp [kvSet, hk, ih hr]

theorem map_fst_kvSet_of_not_mem {κ ν : Type} [DecidableEq κ] (l : List (κ × ν)) (k : κ)
    (v : ν) (h : k ∉ l.map Prod.fst) : (kvSet l k v).map Prod.fst = l.map Prod.fst ++ [k] := by
  induction l with
  | nil => simp [kvSet]
  | cons p rest ih =>
    obtain ⟨k₀, v₀⟩ := p
    simp only [List.map_cons, List.mem_cons, not_or] at h
    have hk : k₀ ≠ k := fun e => h.1 e.symm
    simp [kvSet, hk, ih h.2]

theorem nodup_map_fst_kvSet {κ ν : Type} [DecidableEq κ] (l : List (κ × ν)) (k : κ) (v : ν)
    (h : (l.map Prod.fst).Nodup) : ((kvSet l k v).map Prod.fst).Nodup := by
  by_cases hk : k ∈ l.map Prod.fst
  · rw [map_fst_kvSet_of_mem l k v hk]
    exact h
  · rw [map_fst_kvSet_of_not_mem l k v hk]
    exact List.Nodup.append h (List.nodup_singleton k)
      (by
        intro x hx hx'
        rw [List.mem_singleton] at hx'
        exact hk (hx' ▸ hx))

/-- A filter on the keys that rejects `k` does not see a write under `k`. -/
theorem filter_kvSet_of_not {κ ν : Type} [DecidableEq κ] (q : κ → Bool) (l : List (κ × ν))
    (k : κ) (v : ν) (h : q k = false) :
    (kvSet l k v).filter (fun e => q e.1) = l.filter (fun e => q e.1) := by
  induction l with
  | nil => simp [kvSet, h]
  | cons p rest ih =>
    obtain ⟨k₀, v₀⟩ := p
    by_cases hk : k₀ = k
    · subst hk
      simp [kvSet, List.filter_cons, h]
    · simp [kvSet, hk, List.filter_cons, ih]

/-! ## The meal planner -/

theorem planSlot_setMealSlot_self (plans : MealPlans) (userId date slot : String)
    (ref : MealRef) : planSlot (setMealSlot plans userId date slot ref) userId date slot =
      some ref := by
  unfold planSlot setMealSlot
  rw [kvGet_kvSet_self]
  exact kvGet_kvSet_self _ _ _

theorem planSlot_setMealSlot_of_ne (plans : MealPlans) (userId date slot : String)
    (ref : MealRef) {slot' : String} (h : slot' ≠ slot) :
    planSlot (setMealSlot plans userId date slot ref) userId date slot' =
      planSlot plans userId date slot' := by
  unfold planSlot setMealSlot
  rw [kvGet_kvSet_self]
  simp only
  rw [kvGet_kvSet_ne _ _ (fun e => h e.symm)]
  cases kvGet plans (userId, date) with
  | none => rfl
  | some doc => rfl

theorem kvGet_setMealSlot_of_ne (plans : MealPlans) (userId date slot : String)
    (ref : MealRef) {u d : String} (h : (u, d) ≠ (userId, date)) :
    kvGet (setMealSlot plans userId date slot ref) (u, d) = kvGet plans (u, d) := by
  unfold setMealSlot
  exact kvGet_kvSet_ne _ _ (fun e => h e.symm)

/-- A recipe whose three fields are defined is written. -/
theorem addToMealPlan_of_defined (plans : MealPlans) (userId date slot : String) (recipe : Obj)
    (h : (mealRefOf recipe).hasUndefined = false) :
    addToMealPlan plans userId date slot recipe =
      .ok (setMealSlot plans userId date slot (mealRefOf recipe)) := by
  unfold addToMealPlan
  simp [h]

/-- A recipe lacking one of the three fields is refused. -/
theorem addToMealPlan_of_undefined (plans : MealPlans) (userId date slot : String)
    (recipe : Obj) (h : (mealRefOf recipe).hasUndefined = true) :
    addToMealPlan plans userId date slot recipe = .error .invalidArgument := by
  unfold addToMealPlan
  simp [h]

/-! ## Favorites -/

/-- A recipe with a string `idMeal` and the five fields defined is written. -/
theorem addToFavorites_of_defined (favs : Favorites) (userId : String) (recipe : Obj)
    (key : String) (hkey : objGet recipe "idMeal" = .str key)
    (h : hasUndefined (favoriteEntry recipe) = false) :
    addToFavorites favs userId recipe = .ok (kvSet favs (userId, key) (favoriteEntry recipe)) := by
  unfold addToFavorites
  rw [hkey]
  simp [h]

/-- A recipe lacking one of the five fields is refused. -/
theorem addToFavorites_of_undefined (favs : Favorites) (userId : String) (recipe : Obj)
    (h : hasUndefined (favoriteEntry recipe) = true) :
    addToFavorites favs userId recipe = .error .invalidArgument := by
  unfold addToFavorites
  cases objGet recipe "idMeal" <;> simp [h]

/-- A recipe whose `idMeal` is not a string is refused. -/
theorem addToFavorites_of_not_isStr (favs : Favorites) (userId : String) (recipe : Obj)
    (h : (objGet recipe "idMeal").isStr = false) :
    addToFavorites favs userId recipe = .error .invalidArgument := by
  unfold addToFavorites
  cases hv : objGet recipe "idMeal" <;> simp_all [JsVal.isStr]

theorem favoritesWF_kvSet (favs : Favorites) (userId key : String) (entry : Obj)
    (hentry : objGet entry "idMeal" = .str key) (h : FavoritesWF favs) :
    FavoritesWF (kvSet favs (userId, key) entry) := by
  refine ⟨nodup_map_fst_kvSet favs _ _ h.1, ?_⟩
  intro e he
  rcases mem_kvSet favs _ _ e he with rfl | he'
  · exact hentry
  · exact h.2 e he'

theorem favoritesWF_removeFromFavorites (favs : Favorites) (userId recipeId : String)
    (h : FavoritesWF favs) : FavoritesWF (removeFromFavorites favs userId recipeId) := by
  unfold removeFromFavorites kvErase
  refine ⟨?_, ?_⟩
  · exact List.Nodup.sublist (List.Sublist.map _ (List.filter_sublist _)) h.1
  · intro e he
    exact h.2 e (List.mem_of_mem_filter he)

/-- In a well-formed store the favorites of a user hold no recipe id twice. -/
theorem nodup_idMeal_getFavorites (favs : Favorites) (userId : String) (h : FavoritesWF favs) :
    ((getFavorites favs userId).map (fun e => objGet e "idMeal")).Nodup := by
  unfold getFavorites
  rw [List.map_map]
  have hnd : (favs.filter (fun e => decide (e.1.1 = userId))).Nodup :=
    List.Nodup.sublist (List.filter_sublist _) (List.Nodup.of_map _ h.1)
  apply List.Nodup.map_on _ hnd
  intro a ha b hb hab
  obtain ⟨ham, hau⟩ := List.mem_filter.mp ha
  obtain ⟨hbm, hbu⟩ := List.mem_filter.mp hb
  simp only [Function.comp_apply, h.2 a ham, h.2 b hbm, JsVal.str.injEq] at hab
  have hau' : a.1.1 = userId := by simpa using hau
  have hbu' : b.1.1 = userId := by simpa using hbu
  have hfst : a.1 = b.1 := Prod.ext (hau'.trans hbu'.symm) hab
  exact List.inj_on_of_nodup_map h.1 ham hbm hfst

/-! ## Reading what the create loop wrote -/

/-- Reading the create encoding back, for a list of any length. -/
theorem getIngredients_toFlat (L : List Ingredient) :
    getIngredients (some (toFlat L)) =
      .ok (((L.take 20).filter (fun e => nonBlank e.name)).map Ingredient.withDefaultMeasure) := by
  apply getIngredients_of_written
  intro j _ _
  unfold toFlat
  rw [objGet_forEachFrom_ingredientKey, objGet_forEachFrom_measureKey]
  cases writtenAt 0 L j with
  | some e => exact ⟨rfl, rfl⟩
  | none => rfl

theorem jsOr_str_empty (m : String) : jsOr (.str m) (.str "") = .str m := by
  by_cases h0 : m = "" <;> simp [jsOr, JsVal.truthy, h0]

/-- On a slot whose measure is a string the two decoders append the same
entry. -/
theorem loadSlot_eq_readSlot (data : Obj) (i : Nat)
    (h : ∀ s, objGet data (ingredientKey i) = .str s → nonBlank s = true →
      (objGet data (measureKey i)).isStr = true) :
    loadSlot data i = readSlot data i := by
  unfold loadSlot readSlot
  cases hv : objGet data (ingredientKey i) with
  | str s =>
    by_cases hb : nonBlank s = true
    · have hm := h s hv hb
      cases hmv : objGet data (measureKey i) <;> simp_all [JsVal.isStr, jsOr_str_empty]
    · simp [hb]
  | undefined => rfl
  | null => rfl
  | nan => rfl
  | bool b => rfl
  | num n => rfl
  | obj => rfl

/-- The two decoders agree on every record whose populated slots have string
measures; they throw on the same records. -/
theorem loadedIngredients_eq_getIngredients (data : Obj)
    (h : ∀ i, 1 ≤ i → i ≤ 20 → ∀ s, objGet data (ingredientKey i) = .str s →
      nonBlank s = true → (objGet data (measureKey i)).isStr = true) :
    loadedIngredients data = getIngredients (some data) := by
  unfold loadedIngredients getIngredients
  simp only
  by_cases hthrow : ∃ i ∈ List.range' 1 20, (objGet data (ingredientKey i)).throwsOnTrim = true
  · rw [loadedIngredientsLoop_error data _ [] hthrow, getIngredientsLoop_error data _ [] hthrow]
  · have hno : ∀ i ∈ List.range' 1 20, (objGet data (ingredientKey i)).throwsOnTrim = false := by
      intro i hi
      by_contra hne
      exact hthrow ⟨i, hi, by simpa using hne⟩
    rw [loadedIngredientsLoop_ok data _ [] hno, getIngredientsLoop_ok data _ [] hno]
    congr 2
    apply List.filterMap_congr
    intro i hi
    obtain ⟨h1, h2⟩ := List.mem_range'_1.mp hi
    exact loadSlot_eq_readSlot data i (h i h1 (by omega))

/-! ## The fields the edit form does not write -/

theorem preservedField_ne_slotKey (f : String) (hf : f ∈ preservedFields) (n : Nat) :
    f ≠ ingredientKey n ∧ f ≠ measureKey n := by
  simp only [preservedFields, List.mem_cons, List.mem_singleton, List.not_mem_nil,
    or_false] at hf
  constructor
  · intro h
    have hd := congrArg String.data h
    unfold ingredientKey at hd
    rcases hf with rfl | rfl | rfl | rfl | rfl | rfl <;> simp [String.data_append] at hd
  · intro h
    have hd := congrArg String.data h
    unfold measureKey at hd
    rcases hf with rfl | rfl | rfl | rfl | rfl | rfl <;> simp [String.data_append] at hd

theorem preservedField_not_formField (f : String) (hf : f ∈ preservedFields) :
    f ∉ formFields := by
  simp only [preservedFields, List.mem_cons, List.mem_singleton, List.not_mem_nil,
    or_false] at hf
  rcases hf with rfl | rfl | rfl | rfl | rfl | rfl <;> decide

/-- Every property of the update encoding is an ingredient or measure slot
name. -/
theorem mem_objKeys_toFlatForUpdate (L : List Ingredient) (k : String)
    (h : k ∈ objKeys (toFlatForUpdate L)) : ∃ i, k = ingredientKey i ∨ k = measureKey i := by
  unfold toFlatForUpdate at h
  rw [mem_objKeys_forEachFrom, objKeys_clearedSlots] at h
  rcases h with h | h
  · obtain ⟨i, _, _, hk⟩ := (mem_slotKeys k).mp h
    exact ⟨i, hk⟩
  · obtain ⟨i, _, _, hk⟩ := (mem_writtenKeys k 0 L).mp h
    exact ⟨0 + i + 1, hk⟩

/-- Every property of the update payload is a form field or a slot name. -/
theorem mem_objKeys_updatePayload (formData : Obj) (L : List Ingredient) (k : String)
    (hform : ∀ k ∈ objKeys formData, k ∈ formFields)
    (h : k ∈ objKeys (updatePayload formData L)) :
    k ∈ formFields ∨ ∃ i, k = ingredientKey i ∨ k = measureKey i := by
  unfold updatePayload at h
  rcases (mem_objKeys_objSpread _ _ _).mp h with h | h
  · exact Or.inl (hform k h)
  · exact Or.inr (mem_objKeys_toFlatForUpdate L k h)

/-- The merge-write of the update payload leaves the fields without an input as
they are. -/
theorem objGet_updateDoc_preserved (data formData : Obj) (L : List Ingredient) (f : String)
    (hform : ∀ k ∈ objKeys formData, k ∈ formFields) (hf : f ∈ preservedFields) :
    objGet (updateDoc data (updatePayload formData L)) f = objGet data f := by
  unfold updateDoc
  rw [objGet_objSpread, if_neg]
  intro hmem
  rcases mem_objKeys_updatePayload formData L f hform hmem with h | ⟨i, h | h⟩
  · exact preservedField_not_formField f hf h
  · exact (preservedField_ne_slotKey f hf i).1 h
  · exact (preservedField_ne_slotKey f hf i).2 h

theorem mem_objKeys_handleChange (formData : Obj) (name value : String)
    (hname : name ∈ formFields) (hform : ∀ k ∈ objKeys formData, k ∈ formFields) :
    ∀ k ∈ objKeys (EditRecipe.handleChange formData name value), k ∈ formFields := by
  intro k hk
  unfold EditRecipe.handleChange at hk
  rcases (mem_objKeys_objSet _ _ _ _).mp hk with rfl | hk
  · exact hname
  · rcases (mem_objKeys_objSpread _ _ _).mp hk with h | h
    · simp [objKeys] at h
    · exact hform k h

/-! ## Deleting the data of a user -/

theorem kvGet_kvErase_self {κ ν : Type} [DecidableEq κ] (l : List (κ × ν)) (k : κ) :
    kvGet (kvErase l k) k = none := by
  unfold kvErase
  induction l with
  | nil => rfl
  | cons p rest ih =>
    obtain ⟨k', v⟩ := p
    rw [List.filter_cons]
    by_cases hk : k' = k
    · rw [if_neg (by simpa using hk)]
      exact ih
    · rw [if_pos (by simpa using hk)]
      simp only [kvGet, hk, if_false]
      exact ih

theorem kvGet_kvErase_ne {κ ν : Type} [DecidableEq κ] (l : List (κ × ν)) {k k' : κ}
    (h : k' ≠ k) : kvGet (kvErase l k) k' = kvGet l k' := by
  unfold kvErase
  induction l with
  | nil => rfl
  | cons p rest ih =>
    obtain ⟨k₀, v⟩ := p
    rw [List.filter_cons]
    by_cases hk : k₀ = k
    · have hk' : k₀ ≠ k' := fun e => h (e.symm.trans hk)
      rw [if_neg (by simpa using hk)]
      simp only [kvGet, hk', if_false]
      exact ih
    · rw [if_pos (by simpa using hk)]
      by_cases hk' : k₀ = k'
      · simp only [kvGet, hk', if_true]
      · simp only [kvGet, hk', if_false]
        exact ih

/-- The documents that `deleteUserData` keeps are those of the other users. -/
theorem filter_not_mem_filter (docs : List Doc) (p : Doc → Bool) :
    docs.filter (fun d => decide (d ∉ docs.filter p)) = docs.filter (fun d => !p d) := by
  apply List.filter_congr
  intro d hd
  by_cases hp : p d = true
  · simp [List.mem_filter, hd, hp]
  · simp [List.mem_filter, hd, hp]

/-- The result of `deleteUserData` when the query and the commit succeed. -/
theorem deleteUserData_ok (store : Store) (profiles : Profiles) (userId : String)
    (hr : store.reachable = true) :
    deleteUserData store profiles true userId =
      .ok (⟨store.docs.filter (fun d => !decide (objGet d.data "userId" = .str userId)),
          store.reachable⟩,
        kvErase profiles userId) := by
  unfold deleteUserData
  simp only [hr, if_true]
  rw [filter_not_mem_filter]

theorem deleteUserData_error (store : Store) (profiles : Profiles) (commits : Bool)
    (userId : String) (h : store.reachable = false ∨ commits = false) :
    deleteUserData store profiles commits userId = .error .unavailable := by
  unfold deleteUserData
  rcases h with h | h
  · simp [h]
  · simp [h]

/-! ## The branches of the signup handler -/

theorem handleSubmit_of_mismatch (signup : String → String → SignupOutcome)
    (email password confirmPassword : String) (h : password ≠ confirmPassword) :
    Signup.handleSubmit signup email password confirmPassword =
      ⟨[], "Passwords do not match", false⟩ := by
  unfold Signup.handleSubmit
  rw [if_pos h]

theorem handleSubmit_of_short (signup : String → String → SignupOutcome)
    (email password : String) (h : jsLength password < 6) :
    Signup.handleSubmit signup email password password =
      ⟨[], "Password must be at least 6 characters", false⟩ := by
  unfold Signup.handleSubmit
  rw [if_neg (fun hne => hne rfl), if_pos h]

theorem handleSubmit_of_resolved (signup : String → String → SignupOutcome)
    (email password : String) (h : 6 ≤ jsLength password)
    (hs : signup email password = .resolved) :
    Signup.handleSubmit signup email password password = ⟨[(email, password)], "", true⟩ := by
  unfold Signup.handleSubmit
  rw [if_neg (fun hne => hne rfl), if_neg (by omega), hs]

theorem handleSubmit_of_rejected (signup : String → String → SignupOutcome)
    (email password : String) (code : JsVal) (h : 6 ≤ jsLength password)
    (hs : signup email password = .rejected code) :
    Signup.handleSubmit signup email password password =
      ⟨[(email, password)],
        if code = .str "auth/email-already-in-use" then "This email is already registered."
        else "Failed to create an account.", false⟩ := by
  unfold Signup.handleSubmit
  rw [if_neg (fun hne => hne rfl), if_neg (by omega), hs]
  simp only
  split <;> rfl

/-! ## The claims -/

/-- C1. Round trip of the update encoding: for every ingredient list of at most
20 rows whose names are all non-blank after trimming and whose measures are
strings, `getIngredients` applied to the slot map built by
`EditRecipe.handleSubmit` returns the list itself, same order and content. The
lower bound on the length is not needed. -/
theorem roundTrip_toFlatForUpdate (L : List Ingredient) (hlen : L.length ≤ 20)
    (hnames : ∀ e ∈ L, nonBlank e.name = true)
    (hmeasures : ∀ e ∈ L, e.measure.isStr = true) :
    getIngredients (some (toFlatForUpdate L)) = .ok L := by
  rw [getIngredients_toFlatForUpdate, List.take_of_length_le hlen,
    filter_nonBlank_eq_self L hnames, map_withDefaultMeasure_of_isStr L hmeasures]

/-- C1, at a three-row list. -/
theorem roundTrip_toFlatForUpdate_witness :
    getIngredients (some (toFlatForUpdate
        [⟨"Salt", .str "1tsp"⟩, ⟨"Olive oil", .str ""⟩, ⟨"Egg", .str "2"⟩])) =
      .ok [⟨"Salt", .str "1tsp"⟩, ⟨"Olive oil", .str ""⟩, ⟨"Egg", .str "2"⟩] :=
  roundTrip_toFlatForUpdate _ (by decide) (by decide) (by decide)

/-- C2. No stale ingredients after an update: for every stored record `R`, every
state of the form fields and every list `L` of at most 20 rows with string
measures, reading the record after the merge-write of the update payload gives
exactly the rows of `L` with a non-blank name, in order, and nothing of `R`; for
the empty list the result is the empty list. -/
theorem update_leaves_no_stale (R formData : Obj) (L : List Ingredient) (hlen : L.length ≤ 20)
    (hmeasures : ∀ e ∈ L, e.measure.isStr = true) :
    getIngredients (some (updateDoc R (updatePayload formData L))) =
        .ok (L.filter (fun e => nonBlank e.name)) ∧
      getIngredients (some (updateDoc R (updatePayload formData []))) = .ok [] := by
  constructor
  · rw [getIngredients_updateDoc, List.take_of_length_le hlen]
    rw [map_withDefaultMeasure_of_isStr]
    intro e he
    exact hmeasures e (List.mem_of_mem_filter he)
  · rw [getIngredients_updateDoc]
    rfl

/-- C2, at a record populated at slots 1..5: shrinking to three rows, one of
them blank, and clearing to no row at all. -/
theorem update_leaves_no_stale_witness :
    getIngredients (some (updateDoc
        [("strMeal", .str "Stew"), ("strIngredient1", .str "a"), ("strMeasure1", .str "1"),
          ("strIngredient2", .str "b"), ("strMeasure2", .str "2"),
          ("strIngredient3", .str "c"), ("strMeasure3", .str "3"),
          ("strIngredient4", .str "d"), ("strMeasure4", .str "4"),
          ("strIngredient5", .str "e"), ("strMeasure5", .str "5")]
        (updatePayload [("strMeal", .str "Soup")]
          [⟨"x", .str "1"⟩, ⟨"  ", .str "9"⟩, ⟨"y", .str ""⟩]))) =
        .ok (List.filter (fun e => nonBlank e.name)
          [⟨"x", .str "1"⟩, ⟨"  ", .str "9"⟩, ⟨"y", .str ""⟩]) ∧
      getIngredients (some (updateDoc
        [("strMeal", .str "Stew"), ("strIngredient1", .str "a"), ("strMeasure1", .str "1"),
          ("strIngredient2", .str "b"), ("strMeasure2", .str "2"),
          ("strIngredient3", .str "c"), ("strMeasure3", .str "3"),
          ("strIngredient4", .str "d"), ("strMeasure4", .str "4"),
          ("strIngredient5", .str "e"), ("strMeasure5", .str "5")]
        (updatePayload [("strMeal", .str "Soup")] []))) = .ok [] :=
  update_leaves_no_stale _ _ _ (by decide) (by decide)

/-- C3. Sparse create: the property names of the `ingredientMap` built by
`CreateRecipe.handleSubmit` are exactly the two slot names of every row whose
name is non-blank after trimming, each once; those two properties hold the
row's name and measure; a blank row contributes no property. For the single row
Salt, 1tsp the names are exactly strIngredient1 and strMeasure1. -/
theorem toFlat_sparse (L : List Ingredient) :
    (∀ k, k ∈ objKeys (toFlat L) ↔
        ∃ i, ∃ h : i < L.length, nonBlank (L[i]).name = true ∧
          (k = ingredientKey (i + 1) ∨ k = measureKey (i + 1))) ∧
      (objKeys (toFlat L)).Nodup ∧
      (∀ i, ∀ h : i < L.length, nonBlank (L[i]).name = true →
        objGet (toFlat L) (ingredientKey (i + 1)) = .str (L[i]).name ∧
          objGet (toFlat L) (measureKey (i + 1)) = (L[i]).measure) ∧
      objKeys (toFlat [⟨"Salt", .str "1tsp"⟩]) = ["strIngredient1", "strMeasure1"] := by
  have hkeys : objKeys (toFlat L) = writtenKeys 0 L := by
    unfold toFlat
    rw [objKeys_forEachFrom_fresh L 0 [] (by intro k hk; simp [objKeys] at hk)]
    simp [objKeys]
  refine ⟨?_, ?_, ?_, by decide⟩
  · intro k
    rw [hkeys, mem_writtenKeys]
    simp only [Nat.zero_add]
  · rw [hkeys]
    exact nodup_writtenKeys 0 L
  · intro i h hb
    have hw : writtenAt 0 L (i + 1) = some L[i] := by
      unfold writtenAt
      simp [List.getElem?_eq_getElem h, Option.filter, hb]
    unfold toFlat
    rw [objGet_forEachFrom_ingredientKey, objGet_forEachFrom_measureKey, hw]
    exact ⟨rfl, rfl⟩

/-- C4. Reference definition of the read side: on every flat record whose
ingredient and measure slots 1..20 each hold a string or nothing,
`RecipeDetails.getIngredients` returns the list the spec's rule builds by
scanning the slots 1..20 in ascending order and appending name and measure (the
empty string for a missing measure) exactly at the slots whose ingredient is a
non-blank string. The result has at most 20 entries, none has a blank name, the
entries come from strictly increasing slots, those slots are exactly the
populated ones, and a null meal gives the empty list. -/
theorem getIngredients_eq_fromFlatSpec (meal : Obj)
    (hing : ∀ i, 1 ≤ i → i ≤ 20 → (objGet meal (ingredientKey i)).isStrOrMissing = true)
    (hmea : ∀ i, 1 ≤ i → i ≤ 20 → (objGet meal (measureKey i)).isStrOrMissing = true) :
    getIngredients (some meal) = .ok (fromFlatSpec meal) ∧
      (fromFlatSpec meal).length ≤ 20 ∧
      (∀ e ∈ fromFlatSpec meal, nonBlank e.name = true) ∧
      (∃ slots : List Nat, slots.Pairwise (· < ·) ∧
        (∀ i, i ∈ slots ↔ 1 ≤ i ∧ i ≤ 20 ∧
          ∃ s, objGet meal (ingredientKey i) = .str s ∧ nonBlank s = true) ∧
        List.Forall₂ (fun e i => objGet meal (ingredientKey i) = .str e.name ∧
          e.measure = jsNullish (objGet meal (measureKey i)) (.str ""))
          (fromFlatSpec meal) slots) ∧
      getIngredients none = .ok [] := by
  have hing' : ∀ i ∈ List.range' 1 20, (objGet meal (ingredientKey i)).isStrOrMissing = true :=
    fun i hi => hing i (List.mem_range'_1.mp hi).1 (by have := (List.mem_range'_1.mp hi).2; omega)
  have hmea' : ∀ i ∈ List.range' 1 20, (objGet meal (measureKey i)).isStrOrMissing = true :=
    fun i hi => hmea i (List.mem_range'_1.mp hi).1 (by have := (List.mem_range'_1.mp hi).2; omega)
  have hspec : getIngredients (some meal) = .ok (fromFlatSpec meal) :=
    getIngredientsLoop_eq_foldl meal _ [] hing' hmea'
  have hcode : getIngredients (some meal) = .ok ((List.range' 1 20).filterMap (readSlot meal)) := by
    have h := getIngredientsLoop_ok meal (List.range' 1 20) []
      (fun i hi => not_throwsOnTrim_of_isStrOrMissing _ (hing' i hi))
    simpa [getIngredients] using h
  have heq : fromFlatSpec meal = (List.range' 1 20).filterMap (readSlot meal) := by
    rw [hspec] at hcode
    exact Except.ok.inj hcode
  refine ⟨hspec, ?_, ?_, ?_, rfl⟩
  · rw [heq]
    exact (List.length_filterMap_le _ _).trans (by simp)
  · intro e he
    rw [heq, List.mem_filterMap] at he
    obtain ⟨i, _, hi⟩ := he
    exact (readSlot_some hi).2.1
  · refine ⟨(List.range' 1 20).filter (fun i => (readSlot meal i).isSome),
      List.Pairwise.filter _ (List.pairwise_lt_range' 1 20), ?_, ?_⟩
    · intro i
      rw [List.mem_filter, List.mem_range'_1]
      constructor
      · rintro ⟨⟨h1, h2⟩, hsome⟩
        obtain ⟨e, he⟩ := Option.isSome_iff_exists.mp hsome
        exact ⟨h1, by omega, e.name, (readSlot_some he).1, (readSlot_some he).2.1⟩
      · rintro ⟨h1, h2, s, hs, hb⟩
        exact ⟨⟨h1, by omega⟩, by rw [readSlot_of_str meal i s hs hb]; rfl⟩
    · rw [heq]
      apply forall₂_filterMap
      intro i hi e he
      refine ⟨(readSlot_some he).1, ?_⟩
      rw [(readSlot_some he).2.2, jsOr_eq_jsNullish_of_isStrOrMissing _ (hmea' i hi)]

/-- C4, at a record with a missing measure, a blank slot and a gap. -/
theorem getIngredients_eq_fromFlatSpec_witness :
    getIngredients (some [("strIngredient1", .str "Egg"), ("strMeasure1", .null),
        ("strIngredient2", .str " "), ("strMeasure2", .str "1"),
        ("strIngredient4", .str "Salt"), ("strMeasure4", .str "1tsp")]) =
      .ok (fromFlatSpec [("strIngredient1", .str "Egg"), ("strMeasure1", .null),
        ("strIngredient2", .str " "), ("strMeasure2", .str "1"),
        ("strIngredient4", .str "Salt"), ("strMeasure4", .str "1tsp")]) ∧
    fromFlatSpec [("strIngredient1", .str "Egg"), ("strMeasure1", .null),
        ("strIngredient2", .str " "), ("strMeasure2", .str "1"),
        ("strIngredient4", .str "Salt"), ("strMeasure4", .str "1tsp")] =
      [⟨"Egg", .str ""⟩, ⟨"Salt", .str "1tsp"⟩] :=
  ⟨(getIngredients_eq_fromFlatSpec _
      (by intro i h1 h20; interval_cases i <;> decide)
      (by intro i h1 h20; interval_cases i <;> decide)).1, by decide⟩

/-- C5. Blank-skip: when slot `k` of 1..20 holds a non-blank name and every
other ingredient slot is blank or missing, `getIngredients` returns exactly one
entry, made of slot `k`'s name and of its measure (the measure itself when it is
a string). -/
theorem getIngredients_single_slot (meal : Obj) (k : Nat) (s : String)
    (hk1 : 1 ≤ k) (hk20 : k ≤ 20)
    (hname : objGet meal (ingredientKey k) = .str s) (hnb : nonBlank s = true)
    (hothers : ∀ j, 1 ≤ j → j ≤ 20 → j ≠ k → (objGet meal (ingredientKey j)).skipped = true) :
    getIngredients (some meal) = .ok [⟨s, jsOr (objGet meal (measureKey k)) (.str "")⟩] ∧
      (∀ m, objGet meal (measureKey k) = .str m →
        getIngredients (some meal) = .ok [⟨s, .str m⟩]) := by
  have hno : ∀ i ∈ List.range' 1 20, (objGet meal (ingredientKey i)).throwsOnTrim = false := by
    intro i hi
    by_cases hik : i = k
    · rw [hik, hname]
      simp [JsVal.throwsOnTrim, JsVal.isStr]
    · exact not_throwsOnTrim_of_skipped
        (hothers i (List.mem_range'_1.mp hi).1 (by have := (List.mem_range'_1.mp hi).2; omega) hik)
  have hres : getIngredients (some meal) =
      .ok [⟨s, jsOr (objGet meal (measureKey k)) (.str "")⟩] := by
    have h := getIngredientsLoop_ok meal (List.range' 1 20) [] hno
    rw [List.nil_append, filterMap_eq_singleton (readSlot meal) (List.range' 1 20) k _
      (List.mem_range'_1.mpr ⟨hk1, by omega⟩) (List.nodup_range' 1 20)
      (readSlot_of_str meal k s hname hnb)
      (fun j hj hjk => readSlot_of_skipped meal j
        (hothers j (List.mem_range'_1.mp hj).1
          (by have := (List.mem_range'_1.mp hj).2; omega) hjk))] at h
    exact h
  refine ⟨hres, ?_⟩
  intro m hm
  rw [hres, hm]
  have : jsOr (.str m) (.str "") = .str m := by
    by_cases h0 : m = "" <;> simp [jsOr, JsVal.truthy, h0]
  rw [this]

/-- C5, at the record of the spec: slot 1 blank, slot 2 populated. -/
theorem getIngredients_single_slot_witness :
    getIngredients (some [("strIngredient1", .str " "), ("strMeasure1", .str ""),
        ("strIngredient2", .str "Egg"), ("strMeasure2", .str "2")]) = .ok [⟨"Egg", .str "2"⟩] :=
  (getIngredients_single_slot
    [("strIngredient1", .str " "), ("strMeasure1", .str ""),
      ("strIngredient2", .str "Egg"), ("strMeasure2", .str "2")] 2 "Egg"
    (by decide) (by decide) (by decide) (by decide)
    (by intro j h1 h20 hj; interval_cases j <;> first | decide | exact absurd rfl hj)).2 "2"
    (by decide)

/-- C6, as stated, fails: a list of 21 rows named x gives 42 properties, among
them strIngredient21 holding the 21st name. -/
theorem toFlat_no_ceiling_counterexample :
    (objKeys (toFlat (List.replicate 21 ⟨"x", .str "1"⟩))).length = 42 ∧
      ingredientKey 21 ∈ objKeys (toFlat (List.replicate 21 ⟨"x", .str "1"⟩)) ∧
      objGet (toFlat (List.replicate 21 ⟨"x", .str "1"⟩)) (ingredientKey 21) = .str "x" := by
  decide

/-- C6, amended. `CreateRecipe.handleSubmit` applies no ceiling: its
`ingredientMap` has exactly two properties for every row with a non-blank name,
so at most twice the length of the list; every such row, also one beyond the
20th, is written under its own position's two names. Only for a list of at most
20 rows does the map have at most 40 properties and none for a position beyond
20. -/
theorem toFlat_size (L : List Ingredient) :
    (objKeys (toFlat L)).length = 2 * (L.filter (fun e => nonBlank e.name)).length ∧
      (objKeys (toFlat L)).length ≤ 2 * L.length ∧
      (∀ i, ∀ h : i < L.length, nonBlank (L[i]).name = true →
        ingredientKey (i + 1) ∈ objKeys (toFlat L) ∧ measureKey (i + 1) ∈ objKeys (toFlat L) ∧
          objGet (toFlat L) (ingredientKey (i + 1)) = .str (L[i]).name ∧
          objGet (toFlat L) (measureKey (i + 1)) = (L[i]).measure) ∧
      (L.length ≤ 20 → (objKeys (toFlat L)).length ≤ 40 ∧
        ∀ j, 20 < j →
          ingredientKey j ∉ objKeys (toFlat L) ∧ measureKey j ∉ objKeys (toFlat L)) := by
  have hkeys : objKeys (toFlat L) = writtenKeys 0 L := by
    unfold toFlat
    rw [objKeys_forEachFrom_fresh L 0 [] (by intro k hk; simp [objKeys] at hk)]
    simp [objKeys]
  have hlen : (objKeys (toFlat L)).length = 2 * (L.filter (fun e => nonBlank e.name)).length := by
    rw [hkeys, length_writtenKeys]
  have hle : (objKeys (toFlat L)).length ≤ 2 * L.length := by
    rw [hlen]
    exact Nat.mul_le_mul_left 2 (List.length_filter_le _ _)
  refine ⟨hlen, hle, ?_, ?_⟩
  · intro i h hb
    have hw : writtenAt 0 L (i + 1) = some L[i] := by
      unfold writtenAt
      simp [List.getElem?_eq_getElem h, Option.filter, hb]
    refine ⟨?_, ?_, ?_, ?_⟩
    · rw [hkeys, mem_writtenKeys]
      exact ⟨i, h, hb, Or.inl (by rw [Nat.zero_add])⟩
    · rw [hkeys, mem_writtenKeys]
      exact ⟨i, h, hb, Or.inr (by rw [Nat.zero_add])⟩
    · unfold toFlat
      rw [objGet_forEachFrom_ingredientKey, hw]
    · unfold toFlat
      rw [objGet_forEachFrom_measureKey, hw]
  · intro h20
    refine ⟨by omega, ?_⟩
    intro j hj
    rw [hkeys]
    constructor
    · intro hmem
      obtain ⟨i, hi, _, hk | hk⟩ := (mem_writtenKeys _ _ _).mp hmem
      · have := ingredientKey_inj hk
        omega
      · exact ingredientKey_ne_measureKey _ _ hk
    · intro hmem
      obtain ⟨i, hi, _, hk | hk⟩ := (mem_writtenKeys _ _ _).mp hmem
      · exact measureKey_ne_ingredientKey _ _ hk
      · have := measureKey_inj hk
        omega

/-- C7, as stated, fails: for a list of 21 rows named x the update encoding has
42 properties, strIngredient21 among them, which is none of the forty slot
names. -/
theorem toFlatForUpdate_shape_counterexample :
    (objKeys (toFlatForUpdate (List.replicate 21 ⟨"x", .str "1"⟩))).length = 42 ∧
      ingredientKey 21 ∈ objKeys (toFlatForUpdate (List.replicate 21 ⟨"x", .str "1"⟩)) ∧
      ingredientKey 21 ∉ slotKeys := by
  decide

/-- C7, amended. For every list of at most 20 rows the property names of the
update encoding are exactly the forty slot names strIngredient1..20 and
strMeasure1..20, in the order the clearing loop creates them. For a list of any
length they are the forty slot names together with the two names of every row
at index 20 or more whose name is non-blank. -/
theorem toFlatForUpdate_shape (L : List Ingredient) :
    (L.length ≤ 20 → objKeys (toFlatForUpdate L) = slotKeys) ∧
      slotKeys.length = 40 ∧ slotKeys.Nodup ∧
      (∀ k, k ∈ slotKeys ↔
        ∃ i, 1 ≤ i ∧ i ≤ 20 ∧ (k = ingredientKey i ∨ k = measureKey i)) ∧
      (∀ k, k ∈ objKeys (toFlatForUpdate L) ↔
        k ∈ slotKeys ∨ ∃ i, ∃ h : i < L.length, 20 ≤ i ∧ nonBlank (L[i]).name = true ∧
          (k = ingredientKey (i + 1) ∨ k = measureKey (i + 1))) := by
  refine ⟨?_, by decide, by decide, mem_slotKeys, ?_⟩
  · intro hlen
    unfold toFlatForUpdate
    rw [objKeys_forEachFrom_of_subset, objKeys_clearedSlots]
    intro k hk
    rw [objKeys_clearedSlots, mem_slotKeys]
    obtain ⟨i, hi, _, hki⟩ := (mem_writtenKeys _ _ _).mp hk
    refine ⟨0 + i + 1, by omega, by omega, hki⟩
  · intro k
    unfold toFlatForUpdate
    rw [mem_objKeys_forEachFrom, objKeys_clearedSlots, mem_writtenKeys]
    constructor
    · rintro (h | ⟨i, hi, hb, hk⟩)
      · exact Or.inl h
      · rw [Nat.zero_add] at hk
        by_cases h20 : 20 ≤ i
        · exact Or.inr ⟨i, hi, h20, hb, hk⟩
        · exact Or.inl ((mem_slotKeys k).mpr ⟨i + 1, by omega, by omega, hk⟩)
    · rintro (h | ⟨i, hi, _, hb, hk⟩)
      · exact Or.inl h
      · exact Or.inr ⟨i, hi, hb, by rw [Nat.zero_add]; exact hk⟩

/-- C8. Slot invariant of the update encoding: for every list and every slot `i`
of 1..20, the ingredient property of slot `i` is a non-blank string exactly when
the list has a row at index `i - 1` whose name is non-blank, and then the two
properties of the slot are that row's name and measure; in every other case both
are the empty string. Rows are not compacted: each slot depends on the row at
its own index only. -/
theorem toFlatForUpdate_slot_invariant (L : List Ingredient) (i : Nat)
    (h1 : 1 ≤ i) (h20 : i ≤ 20) :
    ((∃ s, objGet (toFlatForUpdate L) (ingredientKey i) = .str s ∧ nonBlank s = true) ↔
        ∃ h : i - 1 < L.length, nonBlank (L[i - 1]).name = true) ∧
      (∀ h : i - 1 < L.length, nonBlank (L[i - 1]).name = true →
        objGet (toFlatForUpdate L) (ingredientKey i) = .str (L[i - 1]).name ∧
          objGet (toFlatForUpdate L) (measureKey i) = (L[i - 1]).measure) ∧
      ((¬ ∃ h : i - 1 < L.length, nonBlank (L[i - 1]).name = true) →
        objGet (toFlatForUpdate L) (ingredientKey i) = .str "" ∧
          objGet (toFlatForUpdate L) (measureKey i) = .str "") := by
  have hw := toFlatForUpdate_written L i h1 h20
  have hwa : writtenAt 0 L i = (L[i - 1]?).filter (fun e => nonBlank e.name) := by
    unfold writtenAt
    rw [if_pos (by omega)]
  by_cases hex : ∃ h : i - 1 < L.length, nonBlank (L[i - 1]).name = true
  · obtain ⟨h, hb⟩ := hex
    have hsome : writtenAt 0 L i = some L[i - 1] := by
      rw [hwa, List.getElem?_eq_getElem h]
      simp [Option.filter, hb]
    rw [hsome] at hw
    refine ⟨⟨fun _ => ⟨h, hb⟩, fun _ => ⟨_, hw.1, hb⟩⟩, fun _ _ => hw, ?_⟩
    intro hne
    exact absurd ⟨h, hb⟩ hne
  · have hnone : writtenAt 0 L i = none := by
      rw [hwa]
      by_cases h : i - 1 < L.length
      · have hb : ¬ nonBlank (L[i - 1]).name = true := fun hb => hex ⟨h, hb⟩
        rw [List.getElem?_eq_getElem h]
        simp [Option.filter, hb]
      · rw [List.getElem?_eq_none (by omega)]
        rfl
    rw [hnone] at hw
    refine ⟨⟨?_, fun h => absurd h hex⟩, fun h hb => absurd ⟨h, hb⟩ hex, fun _ => hw⟩
    rintro ⟨s, hs, hb⟩
    rw [hw.1] at hs
    have : s = "" := by
      injection hs with hs
      exact hs.symm
    rw [this, nonBlank_empty] at hb
    exact absurd hb (by decide)

/-- C8, at a list with a blank row in the middle: slot 2 stays empty and the
third row stays in slot 3. -/
theorem toFlatForUpdate_slot_invariant_witness :
    (objGet (toFlatForUpdate [⟨"a", .str "1"⟩, ⟨"  ", .str "2"⟩, ⟨"c", .str "3"⟩])
          (ingredientKey 2) = .str "" ∧
        objGet (toFlatForUpdate [⟨"a", .str "1"⟩, ⟨"  ", .str "2"⟩, ⟨"c", .str "3"⟩])
          (measureKey 2) = .str "") ∧
      (objGet (toFlatForUpdate [⟨"a", .str "1"⟩, ⟨"  ", .str "2"⟩, ⟨"c", .str "3"⟩])
          (ingredientKey 3) = .str "c" ∧
        objGet (toFlatForUpdate [⟨"a", .str "1"⟩, ⟨"  ", .str "2"⟩, ⟨"c", .str "3"⟩])
          (measureKey 3) = .str "3") :=
  ⟨(toFlatForUpdate_slot_invariant
      [⟨"a", .str "1"⟩, ⟨"  ", .str "2"⟩, ⟨"c", .str "3"⟩] 2 (by decide) (by decide)).2.2
      (by decide),
    (toFlatForUpdate_slot_invariant
      [⟨"a", .str "1"⟩, ⟨"  ", .str "2"⟩, ⟨"c", .str "3"⟩] 3 (by decide) (by decide)).2.1
      (by decide) (by decide)⟩

/-- C9, as stated, fails: on a record whose first ingredient slot holds the
number 5 the call of `trim` throws, in the read function and in the loader. -/
theorem getIngredients_throws_counterexample :
    getIngredients (some [("strIngredient1", .num 5), ("strMeasure1", .str "1")]) =
        .error .typeError ∧
      loadedIngredients [("strIngredient1", .num 5), ("strMeasure1", .str "1")] =
        .error .typeError := by
  decide

/-- C9, amended. `getIngredients` returns a list exactly on the records whose
ingredient slots 1..20 each hold a string or a falsy value (undefined, null,
false, 0, NaN), whatever the measure slots hold; it then keeps the slots holding
a non-blank string and treats every other slot as absent. On a record with a
truthy non-string ingredient (a non-zero number, true, an object) it throws a
TypeError. The loader of `EditRecipe.fetchData` returns and throws on the same
records. -/
theorem getIngredients_returns_iff (meal : Obj) :
    ((∃ l, getIngredients (some meal) = .ok l) ↔
        ∀ i, 1 ≤ i → i ≤ 20 → (objGet meal (ingredientKey i)).throwsOnTrim = false) ∧
      ((∀ i, 1 ≤ i → i ≤ 20 → (objGet meal (ingredientKey i)).throwsOnTrim = false) →
        getIngredients (some meal) = .ok ((List.range' 1 20).filterMap (readSlot meal)) ∧
          loadedIngredients meal = .ok ((List.range' 1 20).filterMap (loadSlot meal))) ∧
      ((∃ i, 1 ≤ i ∧ i ≤ 20 ∧ (objGet meal (ingredientKey i)).throwsOnTrim = true) →
        getIngredients (some meal) = .error .typeError ∧
          loadedIngredients meal = .error .typeError) ∧
      (∀ i, (objGet meal (ingredientKey i)).skipped = true → readSlot meal i = none) := by
  have hok : (∀ i, 1 ≤ i → i ≤ 20 → (objGet meal (ingredientKey i)).throwsOnTrim = false) →
      getIngredients (some meal) = .ok ((List.range' 1 20).filterMap (readSlot meal)) ∧
        loadedIngredients meal = .ok ((List.range' 1 20).filterMap (loadSlot meal)) := by
    intro h
    have h' : ∀ i ∈ List.range' 1 20, (objGet meal (ingredientKey i)).throwsOnTrim = false :=
      fun i hi => h i (List.mem_range'_1.mp hi).1 (by have := (List.mem_range'_1.mp hi).2; omega)
    constructor
    · simpa [getIngredients] using getIngredientsLoop_ok meal (List.range' 1 20) [] h'
    · simpa [loadedIngredients] using loadedIngredientsLoop_ok meal (List.range' 1 20) [] h'
  have herr : (∃ i, 1 ≤ i ∧ i ≤ 20 ∧ (objGet meal (ingredientKey i)).throwsOnTrim = true) →
      getIngredients (some meal) = .error .typeError ∧
        loadedIngredients meal = .error .typeError := by
    rintro ⟨i, h1, h20, ht⟩
    have h' : ∃ i ∈ List.range' 1 20, (objGet meal (ingredientKey i)).throwsOnTrim = true :=
      ⟨i, List.mem_range'_1.mpr ⟨h1, by omega⟩, ht⟩
    exact ⟨getIngredientsLoop_error meal (List.range' 1 20) [] h',
      loadedIngredientsLoop_error meal (List.range' 1 20) [] h'⟩
  refine ⟨⟨?_, fun h => ⟨_, (hok h).1⟩⟩, hok, herr, fun i h => readSlot_of_skipped meal i h⟩
  rintro ⟨l, hl⟩ i h1 h20
  by_contra hne
  have ht : (objGet meal (ingredientKey i)).throwsOnTrim = true := by simpa using hne
  rw [(herr ⟨i, h1, h20, ht⟩).1] at hl
  exact absurd hl (by simp)

/-- C10. Resolver fallback: for every identifier for which the external source
yields no record, if the reachable local store has no document under that key
but has a document whose `idMeal` field equals the identifier, the resolver
returns the fields of such a document, the first one in store order, hence that
very document when it is the only one. -/
theorem fetchData_fallback (ext : String → ExtReply) (store : Store) (id : String)
    (hext : externalLookup ext id = none) (hreach : store.reachable = true)
    (hkey : ∀ d ∈ store.docs, d.key ≠ id)
    (hfield : ∃ d ∈ store.docs, objGet d.data "idMeal" = .str id) :
    (∃ d ∈ store.docs, objGet d.data "idMeal" = .str id ∧
        (store.docs.filter (fun d => decide (objGet d.data "idMeal" = .str id))).head? = some d ∧
        fetchData ext store id = some d.data) ∧
      (∀ d ∈ store.docs, objGet d.data "idMeal" = .str id →
        (∀ d' ∈ store.docs, objGet d'.data "idMeal" = .str id → d' = d) →
        fetchData ext store id = some d.data) := by
  have hfind : store.docs.find? (fun d => d.key == id) = none := by
    rw [List.find?_eq_none]
    intro d hd
    simpa using hkey d hd
  obtain ⟨d₀, hd₀, hf₀⟩ := hfield
  have hmem : d₀ ∈ store.docs.filter (fun d => decide (objGet d.data "idMeal" = .str id)) :=
    List.mem_filter.mpr ⟨hd₀, by simpa using hf₀⟩
  cases hq : store.docs.filter (fun d => decide (objGet d.data "idMeal" = .str id)) with
  | nil =>
    rw [hq] at hmem
    simp at hmem
  | cons d rest =>
    have hd : d ∈ store.docs.filter (fun d => decide (objGet d.data "idMeal" = .str id)) := by
      rw [hq]
      exact List.mem_cons_self _ _
    obtain ⟨hdmem, hdf⟩ := List.mem_filter.mp hd
    have hres : fetchData ext store id = some d.data := by
      unfold fetchData getCustomRecipe
      rw [hext]
      simp only [hreach, if_true, hfind, hq, List.head?_cons]
    refine ⟨⟨d, hdmem, by simpa using hdf, rfl, hres⟩, ?_⟩
    intro d₁ _ _ huniq
    rw [hres, huniq d hdmem (by simpa using hdf)]

/-- C10, at the identifier 42 of the spec: the external source answers with null
meals, the store holds no document under key 42 and one document, under another
key, whose `idMeal` field is 42. -/
theorem fetchData_fallback_witness :
    fetchData (fun _ => .meals none)
        ⟨[⟨"a1", [("strMeal", .str "Stew"), ("idMeal", .str "7")]⟩,
          ⟨"b2", [("strMeal", .str "Pie"), ("idMeal", .str "42")]⟩], true⟩ "42" =
      some [("strMeal", .str "Pie"), ("idMeal", .str "42")] :=
  (fetchData_fallback (fun _ => .meals none)
    ⟨[⟨"a1", [("strMeal", .str "Stew"), ("idMeal", .str "7")]⟩,
      ⟨"b2", [("strMeal", .str "Pie"), ("idMeal", .str "42")]⟩], true⟩ "42"
    (by decide) (by decide) (by decide) (by decide)).2
    ⟨"b2", [("strMeal", .str "Pie"), ("idMeal", .str "42")]⟩ (by decide) (by decide)
    (by decide)

/-- C11, as stated, fails: the store holds a document under key 42, the
external lookup raises an error and the read of the store fails too;
`getCustomRecipe` catches the error and the resolver reports not-found. -/
theorem fetchData_notFound_counterexample :
    (∃ d ∈ [(⟨"42", [("strMeal", .str "Pie")]⟩ : Doc)], d.key = "42") ∧
      fetchData (fun _ => .failed) ⟨[⟨"42", [("strMeal", .str "Pie")]⟩], false⟩ "42" = none := by
  decide

/-- C11, amended. When the external lookup raises an error the resolver does
not fail: its result is the result of the local lookup. The resolver reports
not-found exactly when the external step gave no record (skipped, errored, null
or empty meals) and the local lookup returned null, which it does when the
store has neither a document under the key nor one whose `idMeal` field equals
the identifier, and also when a read of the store fails. -/
theorem fetchData_notFound_iff (ext : String → ExtReply) (store : Store) (id : String) :
    (ext id = .failed → fetchData ext store id = getCustomRecipe store id) ∧
      (fetchData ext store id = none ↔
        (jsIsNaN id = true ∨ ext id = .failed ∨ ext id = .meals none ∨
            ext id = .meals (some [])) ∧
          (store.reachable = false ∨
            ((∀ d ∈ store.docs, d.key ≠ id) ∧
              ∀ d ∈ store.docs, objGet d.data "idMeal" ≠ .str id))) := by
  constructor
  · intro hf
    have : externalLookup ext id = none :=
      (externalLookup_eq_none_iff ext id).mpr (Or.inr (Or.inl hf))
    unfold fetchData
    rw [this]
  · rw [← externalLookup_eq_none_iff, ← getCustomRecipe_eq_none_iff]
    unfold fetchData
    cases externalLookup ext id with
    | none => simp
    | some r => simp

/-- C12. The external source is consulted only for numeric identifiers: when
`isNaN(id)` is true the resolver returns the local lookup whatever the external
source holds; when it is false and the external source answers with a non-empty
`meals`, the resolver returns its first record whatever the local store
holds. -/
theorem fetchData_numeric_gate (store : Store) (id : String) :
    (jsIsNaN id = true →
        ∀ ext : String → ExtReply, fetchData ext store id = getCustomRecipe store id) ∧
      (jsIsNaN id = false →
        ∀ (ext : String → ExtReply) (r : Obj) (rest : List Obj),
          ext id = .meals (some (r :: rest)) →
          ∀ store' : Store, fetchData ext store' id = some r) ∧
      jsIsNaN "52772" = false ∧ jsIsNaN "k3Xb9" = true := by
  refine ⟨?_, ?_, by decide, by decide⟩
  · intro hn ext
    unfold fetchData externalLookup
    simp [hn]
  · intro hn ext r rest he store'
    unfold fetchData externalLookup
    simp [hn, he]

/-- C13. Search merge order: for a non-empty query whose external request is
answered, the new result list is the local matches followed by the external
matches, the empty list standing for null `meals`: the local results keep their
positions, the external ones follow in their own order, the length is the sum of
both lengths, and nothing is de-duplicated, so a recipe present in both lists
occurs at least twice. With one local and one external match the local one is
at index 0. -/
theorem fetchRecipes_merge (toLowerCase : String → String) (api : String → ExtReply)
    (store : Store) (query : String) (recipes : List Obj) (m : Option (List Obj))
    (hq : query ≠ "") (hapi : api query = .meals m) :
    fetchRecipes toLowerCase api store query recipes =
        searchCustomRecipes toLowerCase store query ++ m.getD [] ∧
      (fetchRecipes toLowerCase api store query recipes).length =
        (searchCustomRecipes toLowerCase store query).length + (m.getD []).length ∧
      (∀ i, i < (searchCustomRecipes toLowerCase store query).length →
        (fetchRecipes toLowerCase api store query recipes)[i]? =
          (searchCustomRecipes toLowerCase store query)[i]?) ∧
      (∀ j, (fetchRecipes toLowerCase api store query recipes)[
          (searchCustomRecipes toLowerCase store query).length + j]? = (m.getD [])[j]?) ∧
      (∀ r, r ∈ searchCustomRecipes toLowerCase store query → r ∈ m.getD [] →
        2 ≤ (fetchRecipes toLowerCase api store query recipes).count r) ∧
      (∀ a b, searchCustomRecipes toLowerCase store query = [a] → m = some [b] →
        fetchRecipes toLowerCase api store query recipes = [a, b]) := by
  have hres : fetchRecipes toLowerCase api store query recipes =
      searchCustomRecipes toLowerCase store query ++ m.getD [] := by
    unfold fetchRecipes
    rw [if_neg hq, hapi]
  rw [hres]
  refine ⟨rfl, List.length_append _ _, ?_, ?_, ?_, ?_⟩
  · intro i hi
    exact List.getElem?_append_left hi
  · intro j
    rw [List.getElem?_append_right (Nat.le_add_right _ _), Nat.add_sub_cancel_left]
  · intro r h1 h2
    rw [List.count_append]
    have c1 := List.count_pos_iff.mpr h1
    have c2 := List.count_pos_iff.mpr h2
    omega
  · intro a b ha hb
    rw [ha, hb]
    rfl

/-- C13, with one local and one external match, the same recipe in both
sources: the local one is at index 0 and the recipe is listed twice. -/
theorem fetchRecipes_merge_witness :
    fetchRecipes asciiLowerCase
        (fun _ => .meals (some [[("strMeal", .str "Pie"), ("idMeal", .str "k1")]]))
        ⟨[⟨"k1", [("strMeal", .str "Pie")]⟩], true⟩ "pie" [] =
      [[("strMeal", .str "Pie"), ("idMeal", .str "k1")],
        [("strMeal", .str "Pie"), ("idMeal", .str "k1")]] :=
  (fetchRecipes_merge asciiLowerCase
    (fun _ => .meals (some [[("strMeal", .str "Pie"), ("idMeal", .str "k1")]]))
    ⟨[⟨"k1", [("strMeal", .str "Pie")]⟩], true⟩ "pie" [] _ (by decide) rfl).2.2.2.2.2
    _ _ (by decide) rfl

/-- C14. Local search predicate: on a reachable store in which every record has
a string title and a category that is a string or absent,
`searchCustomRecipes` returns, in store order, exactly the records matching the
rule of the spec (lower-cased title contains the lower-cased query, or the
category is present and its lower-cased form does), each carrying its record
key as `idMeal`; the result depends on the query only through its lower-cased
form. -/
theorem searchCustomRecipes_spec (toLowerCase : String → String) (store : Store) (q : String)
    (hreach : store.reachable = true)
    (htitle : ∀ d ∈ store.docs, (objGet d.data "strMeal").isStr = true)
    (hcat : ∀ d ∈ store.docs, (objGet d.data "strCategory").isStr = true ∨
      (objGet d.data "strCategory").truthy = false) :
    searchCustomRecipes toLowerCase store q =
        (store.docs.filter (localMatchSpec toLowerCase q)).map recipeOfDoc ∧
      (∀ r ∈ searchCustomRecipes toLowerCase store q,
        ∃ d ∈ store.docs, localMatchSpec toLowerCase q d = true ∧ r = recipeOfDoc d ∧
          objGet r "idMeal" = .str d.key) ∧
      (∀ d ∈ store.docs, localMatchSpec toLowerCase q d = true →
        recipeOfDoc d ∈ searchCustomRecipes toLowerCase store q) ∧
      (∀ q', toLowerCase q' = toLowerCase q →
        searchCustomRecipes toLowerCase store q' = searchCustomRecipes toLowerCase store q) := by
  have hres := searchCustomRecipes_eq toLowerCase store q hreach htitle hcat
  refine ⟨hres, ?_, ?_, ?_⟩
  · intro r hr
    rw [hres, List.mem_map] at hr
    obtain ⟨d, hd, rfl⟩ := hr
    obtain ⟨hmem, hmatch⟩ := List.mem_filter.mp hd
    exact ⟨d, hmem, hmatch, rfl, objGet_recipeOfDoc_idMeal d⟩
  · intro d hd hmatch
    rw [hres]
    exact List.mem_map_of_mem _ (List.mem_filter.mpr ⟨hd, hmatch⟩)
  · intro q' hq'
    unfold searchCustomRecipes
    rw [hq']

/-- C14, at a store of three records and the query Pie: the title match is
case-insensitive, the category match finds the second record, the third record
has no category and does not match. -/
theorem searchCustomRecipes_spec_witness :
    searchCustomRecipes asciiLowerCase
        ⟨[⟨"k1", [("strMeal", .str "Apple PIE"), ("strCategory", .str "Dessert")]⟩,
          ⟨"k2", [("strMeal", .str "Stew"), ("strCategory", .str "Piedmont")]⟩,
          ⟨"k3", [("strMeal", .str "Soup")]⟩], true⟩ "Pie" =
      [[("strMeal", .str "Apple PIE"), ("strCategory", .str "Dessert"), ("idMeal", .str "k1")],
        [("strMeal", .str "Stew"), ("strCategory", .str "Piedmont"), ("idMeal", .str "k2")]] ∧
      searchCustomRecipes asciiLowerCase
        ⟨[⟨"k1", [("strMeal", .str "Apple PIE"), ("strCategory", .str "Dessert")]⟩,
          ⟨"k2", [("strMeal", .str "Stew"), ("strCategory", .str "Piedmont")]⟩,
          ⟨"k3", [("strMeal", .str "Soup")]⟩], true⟩ "PIE" =
      searchCustomRecipes asciiLowerCase
        ⟨[⟨"k1", [("strMeal", .str "Apple PIE"), ("strCategory", .str "Dessert")]⟩,
          ⟨"k2", [("strMeal", .str "Stew"), ("strCategory", .str "Piedmont")]⟩,
          ⟨"k3", [("strMeal", .str "Soup")]⟩], true⟩ "Pie" :=
  ⟨by decide,
    (searchCustomRecipes_spec asciiLowerCase
      ⟨[⟨"k1", [("strMeal", .str "Apple PIE"), ("strCategory", .str "Dessert")]⟩,
        ⟨"k2", [("strMeal", .str "Stew"), ("strCategory", .str "Piedmont")]⟩,
        ⟨"k3", [("strMeal", .str "Soup")]⟩], true⟩ "Pie"
      (by decide) (by decide) (by decide)).2.2.2 "PIE" (by decide)⟩

/-- C15, as stated, fails: the read of the local store fails,
`searchCustomRecipes` catches the error and contributes the empty list, and the
result of the external source alone replaces the displayed list. -/
theorem fetchRecipes_local_failure_counterexample :
    fetchRecipes asciiLowerCase
        (fun _ => .meals (some [[("strMeal", .str "Pie"), ("idMeal", .str "52")]]))
        ⟨[⟨"k1", [("strMeal", .str "Pie")]⟩], false⟩ "pie"
        [[("strMeal", .str "Old"), ("idMeal", .str "7")]] =
      [[("strMeal", .str "Pie"), ("idMeal", .str "52")]] := by
  decide

/-- C15, amended. When the request to the external API fails the batch fails
and the displayed list is left unchanged, the local matches are not shown
either. A failure of the local search never fails the batch:
`searchCustomRecipes` catches it and contributes the empty list, so when the
read of the local store fails, or a stored record without a string title makes
the filter throw, the external matches alone are shown. -/
theorem fetchRecipes_failure (toLowerCase : String → String) (api : String → ExtReply)
    (store : Store) (query : String) (recipes : List Obj) :
    (api query = .failed → fetchRecipes toLowerCase api store query recipes = recipes) ∧
      (query = "" → fetchRecipes toLowerCase api store query recipes = recipes) ∧
      (∀ m, query ≠ "" → api query = .meals m → store.reachable = false →
        fetchRecipes toLowerCase api store query recipes = m.getD []) ∧
      (∀ m, query ≠ "" → api query = .meals m →
        (∃ d ∈ store.docs, (objGet d.data "strMeal").isStr = false) →
        fetchRecipes toLowerCase api store query recipes = m.getD []) := by
  refine ⟨?_, ?_, ?_, ?_⟩
  · intro h
    unfold fetchRecipes
    rw [h]
    split <;> rfl
  · intro h
    unfold fetchRecipes
    rw [if_pos h]
  · intro m hq h hr
    unfold fetchRecipes
    rw [if_neg hq, h, searchCustomRecipes_unreachable _ _ _ hr]
    rfl
  · intro m hq h hbad
    unfold fetchRecipes
    rw [if_neg hq, h, searchCustomRecipes_of_bad_title _ _ _ hbad]
    rfl

/-- C16. Comments are ordered newest first: when the creation times of the
stored comments of a recipe are valid timestamps, `getComments` returns a
permutation of exactly the stored comments whose `recipeId` is the string form
of the recipe id, each carrying its document key as `id`, with creation times
in non-increasing order. -/
theorem getComments_newest_first (dateOf : JsVal → Option Int) (comments : List Doc)
    (recipeId : JsVal)
    (hvalid : ∀ d ∈ comments, objGet d.data "recipeId" = .str (jsToString recipeId) →
      (dateOf (objGet d.data "createdAt")).isSome = true) :
    (getComments dateOf comments recipeId).Perm
        ((comments.filter
          (fun d => decide (objGet d.data "recipeId" = .str (jsToString recipeId)))).map
          commentOfDoc) ∧
      (∀ c ∈ getComments dateOf comments recipeId,
        ∃ d ∈ comments, objGet d.data "recipeId" = .str (jsToString recipeId) ∧
          c = commentOfDoc d ∧ objGet c "id" = .str d.key) ∧
      (getComments dateOf comments recipeId).Pairwise
        (fun a b => ∃ ta tb, dateOf (objGet a "createdAt") = some ta ∧
          dateOf (objGet b "createdAt") = some tb ∧ tb ≤ ta) := by
  have hperm := getComments_perm dateOf comments recipeId
  have hmem : ∀ c, c ∈ (comments.filter
      (fun d => decide (objGet d.data "recipeId" = .str (jsToString recipeId)))).map
      commentOfDoc →
      ∃ d ∈ comments, objGet d.data "recipeId" = .str (jsToString recipeId) ∧
        c = commentOfDoc d ∧ objGet c "id" = .str d.key ∧
        ∃ t, dateOf (objGet c "createdAt") = some t := by
    intro c hc
    obtain ⟨d, hd, rfl⟩ := List.mem_map.mp hc
    obtain ⟨hdm, hdr⟩ := List.mem_filter.mp hd
    have hdr' : objGet d.data "recipeId" = .str (jsToString recipeId) := by simpa using hdr
    refine ⟨d, hdm, hdr', rfl, objGet_commentOfDoc_id d, ?_⟩
    rw [objGet_commentOfDoc_of_ne d "createdAt" (by decide)]
    exact Option.isSome_iff_exists.mp (hvalid d hdm hdr')
  refine ⟨hperm, ?_, ?_⟩
  · intro c hc
    obtain ⟨d, hdm, hdr, hcd, hid, _⟩ := hmem c (hperm.subset hc)
    exact ⟨d, hdm, hdr, hcd, hid⟩
  · have hkey := jsSort_pairwise (compareNewestFirst dateOf)
      (fun c => (dateOf (objGet c "createdAt")).getD 0)
      ((comments.filter
        (fun d => decide (objGet d.data "recipeId" = .str (jsToString recipeId)))).map
        commentOfDoc)
      (by
        intro a ha b hb
        obtain ⟨_, _, _, _, _, ta, hta⟩ := hmem a ha
        obtain ⟨_, _, _, _, _, tb, htb⟩ := hmem b hb
        simp [compareNewestFirst, hta, htb])
    refine List.Pairwise.imp_of_mem ?_ hkey
    intro a b ha hb hab
    obtain ⟨_, _, _, _, _, ta, hta⟩ := hmem a (hperm.subset ha)
    obtain ⟨_, _, _, _, _, tb, htb⟩ := hmem b (hperm.subset hb)
    refine ⟨ta, tb, hta, htb, ?_⟩
    simpa [hta, htb] using hab

/-- C16, at a store of four comments, three of them of recipe 52772. -/
theorem getComments_newest_first_witness :
    getComments dateOfNumber
        [⟨"c1", [("recipeId", .str "52772"), ("text", .str "first"), ("createdAt", .num 100)]⟩,
          ⟨"c2", [("recipeId", .str "9"), ("text", .str "other"), ("createdAt", .num 400)]⟩,
          ⟨"c3", [("recipeId", .str "52772"), ("text", .str "third"), ("createdAt", .num 300)]⟩,
          ⟨"c4", [("recipeId", .str "52772"), ("text", .str "second"), ("createdAt", .num 200)]⟩]
        (.num 52772) =
      [[("recipeId", .str "52772"), ("text", .str "third"), ("createdAt", .num 300),
          ("id", .str "c3")],
        [("recipeId", .str "52772"), ("text", .str "second"), ("createdAt", .num 200),
          ("id", .str "c4")],
        [("recipeId", .str "52772"), ("text", .str "first"), ("createdAt", .num 100),
          ("id", .str "c1")]] ∧
      (getComments dateOfNumber
        [⟨"c1", [("recipeId", .str "52772"), ("text", .str "first"), ("createdAt", .num 100)]⟩,
          ⟨"c2", [("recipeId", .str "9"), ("text", .str "other"), ("createdAt", .num 400)]⟩,
          ⟨"c3", [("recipeId", .str "52772"), ("text", .str "third"), ("createdAt", .num 300)]⟩,
          ⟨"c4", [("recipeId", .str "52772"), ("text", .str "second"), ("createdAt", .num 200)]⟩]
        (.num 52772)).Pairwise
        (fun a b => ∃ ta tb, dateOfNumber (objGet a "createdAt") = some ta ∧
          dateOfNumber (objGet b "createdAt") = some tb ∧ tb ≤ ta) :=
  ⟨by decide, (getComments_newest_first dateOfNumber _ (.num 52772) (by decide)).2.2⟩

/-- C17. Posting a comment: for every comment store, recipe, rating and
non-blank text, after `Comments.handleSubmit` the displayed list is the comment
list of the recipe in the new store; it is made of one new entry, which has the
rating, the text, the string form of the recipe id and the generated key, and
of the comments of the recipe before, so it has exactly one more entry; the
heading count is the length of that list; the comment list of every recipe with
another id is unchanged. -/
theorem handleSubmit_posts_comment (dateOf : JsVal → Option Int) (newKey : String)
    (position : Nat) (now : String) (currentUser : AuthUser) (recipeId : JsVal)
    (store : List Doc) (shown : List Obj) (t : String) (r : Int)
    (hnb : nonBlank t = true) :
    (Comments.handleSubmit dateOf newKey position now currentUser recipeId
        ⟨store, shown, t, r⟩).comments =
        getComments dateOf (Comments.handleSubmit dateOf newKey position now currentUser
          recipeId ⟨store, shown, t, r⟩).store recipeId ∧
      (∃ c, objGet c "rating" = .num r ∧ objGet c "text" = .str t ∧
        objGet c "recipeId" = .str (jsToString recipeId) ∧ objGet c "id" = .str newKey ∧
        (Comments.handleSubmit dateOf newKey position now currentUser recipeId
          ⟨store, shown, t, r⟩).comments.Perm (c :: getComments dateOf store recipeId)) ∧
      (Comments.handleSubmit dateOf newKey position now currentUser recipeId
        ⟨store, shown, t, r⟩).comments.length =
        (getComments dateOf store recipeId).length + 1 ∧
      reviewsCount (Comments.handleSubmit dateOf newKey position now currentUser recipeId
        ⟨store, shown, t, r⟩) = (getComments dateOf store recipeId).length + 1 ∧
      (∀ other, jsToString other ≠ jsToString recipeId →
        getComments dateOf (Comments.handleSubmit dateOf newKey position now currentUser
          recipeId ⟨store, shown, t, r⟩).store other = getComments dateOf store other) := by
  simp only [Comments.handleSubmit, hnb, if_true]
  have hperm := getComments_addComment_perm dateOf store newKey position now recipeId
    [("text", .str t), ("rating", .num r), ("userId", .str currentUser.uid),
      ("userName", jsOr currentUser.displayName (.str (emailLocalPart currentUser.email))),
      ("userPhoto", jsOr currentUser.photoURL .null)]
  refine ⟨trivial, ⟨_, ?_, ?_, ?_, ?_, hperm⟩, ?_, ?_, ?_⟩
  · rw [objGet_commentOfDoc_of_ne _ _ (by decide),
      objGet_addComment_of_ne _ _ _ _ (by decide) (by decide)]
    simp [objGet]
  · rw [objGet_commentOfDoc_of_ne _ _ (by decide),
      objGet_addComment_of_ne _ _ _ _ (by decide) (by decide)]
    simp [objGet]
  · rw [objGet_commentOfDoc_of_ne _ _ (by decide), objGet_addComment_recipeId]
  · exact objGet_commentOfDoc_id _
  · rw [hperm.length_eq, List.length_cons]
  · unfold reviewsCount
    rw [hperm.length_eq, List.length_cons]
  · intro other hother
    exact getComments_addComment_other dateOf store newKey position now recipeId other _ hother

/-- C17, at the example of the spec: no prior comment, rating 4, text Great
dish; the list has exactly one entry, with rating 4, and the heading count is
1. -/
theorem handleSubmit_posts_comment_witness :
    (Comments.handleSubmit dateOfNumber "c1" 0 "2024-05-01T10:00:00.000Z"
        ⟨"u1", .str "Ann", "ann@example.org", .null⟩ (.str "52772")
        ⟨[], [], "Great dish", 4⟩).comments =
      [[("text", .str "Great dish"), ("rating", .num 4), ("userId", .str "u1"),
        ("userName", .str "Ann"), ("userPhoto", .null), ("recipeId", .str "52772"),
        ("createdAt", .str "2024-05-01T10:00:00.000Z"), ("id", .str "c1")]] ∧
      reviewsCount (Comments.handleSubmit dateOfNumber "c1" 0 "2024-05-01T10:00:00.000Z"
        ⟨"u1", .str "Ann", "ann@example.org", .null⟩ (.str "52772")
        ⟨[], [], "Great dish", 4⟩) = (getComments dateOfNumber [] (.str "52772")).length + 1 :=
  ⟨by decide,
    (handleSubmit_posts_comment dateOfNumber "c1" 0 "2024-05-01T10:00:00.000Z"
      ⟨"u1", .str "Ann", "ann@example.org", .null⟩ (.str "52772") [] [] "Great dish" 4
      (by decide)).2.2.2.1⟩

/-- C18. Meal-plan slots do not clobber each other: for a recipe whose idMeal,
strMeal and strMealThumb are defined, `addToMealPlan` succeeds, the slot of that
user and date then holds exactly the three fields taken from the recipe, every
other slot of that date is what it was, and the documents of every other date
and of every other user are what they were; so breakfast, lunch and dinner set
one after the other on one date are all three there. A recipe lacking one of the
three fields is refused by the store and nothing is written. -/
theorem addToMealPlan_frame (plans : MealPlans) (userId date slot : String) (recipe : Obj)
    (hdef : (mealRefOf recipe).hasUndefined = false) :
    (∃ plans', addToMealPlan plans userId date slot recipe = .ok plans' ∧
        planSlot plans' userId date slot =
          some ⟨objGet recipe "idMeal", objGet recipe "strMeal", objGet recipe "strMealThumb"⟩ ∧
        (∀ slot', slot' ≠ slot →
          planSlot plans' userId date slot' = planSlot plans userId date slot') ∧
        (∀ u d, (u, d) ≠ (userId, date) → kvGet plans' (u, d) = kvGet plans (u, d))) ∧
      (∀ r₁ r₂ r₃ : Obj, (mealRefOf r₁).hasUndefined = false →
        (mealRefOf r₂).hasUndefined = false → (mealRefOf r₃).hasUndefined = false →
        ∃ p₁ p₂ p₃, addToMealPlan plans userId date "breakfast" r₁ = .ok p₁ ∧
          addToMealPlan p₁ userId date "lunch" r₂ = .ok p₂ ∧
          addToMealPlan p₂ userId date "dinner" r₃ = .ok p₃ ∧
          planSlot p₃ userId date "breakfast" = some (mealRefOf r₁) ∧
          planSlot p₃ userId date "lunch" = some (mealRefOf r₂) ∧
          planSlot p₃ userId date "dinner" = some (mealRefOf r₃)) ∧
      (∀ r : Obj, (mealRefOf r).hasUndefined = true →
        addToMealPlan plans userId date slot r = .error .invalidArgument) := by
  refine ⟨⟨_, addToMealPlan_of_defined plans userId date slot recipe hdef,
    planSlot_setMealSlot_self _ _ _ _ _,
    fun s' hs' => planSlot_setMealSlot_of_ne _ _ _ _ _ hs',
    fun u d hne => kvGet_setMealSlot_of_ne _ _ _ _ _ hne⟩, ?_,
    fun r hr => addToMealPlan_of_undefined plans userId date slot r hr⟩
  intro r₁ r₂ r₃ h₁ h₂ h₃
  refine ⟨_, _, _, addToMealPlan_of_defined _ _ _ _ _ h₁, addToMealPlan_of_defined _ _ _ _ _ h₂,
    addToMealPlan_of_defined _ _ _ _ _ h₃, ?_, ?_, planSlot_setMealSlot_self _ _ _ _ _⟩
  · rw [planSlot_setMealSlot_of_ne _ _ _ _ _ (by decide),
      planSlot_setMealSlot_of_ne _ _ _ _ _ (by decide), planSlot_setMealSlot_self]
  · rw [planSlot_setMealSlot_of_ne _ _ _ _ _ (by decide), planSlot_setMealSlot_self]

/-- C18, at a plan that holds a breakfast for the date: lunch is added next to
it, and the plan of the other user is as it was. -/
theorem addToMealPlan_frame_witness :
    (mealRefOf [("idMeal", .str "52772"), ("strMeal", .str "Pie"),
        ("strMealThumb", .str "pie.jpg"), ("strCategory", .str "Dessert")]).hasUndefined = false ∧
      addToMealPlan
          [(("u1", "2024-05-01"), [("breakfast", ⟨.str "1", .str "Stew", .str "stew.jpg"⟩)]),
            (("u2", "2024-05-01"), [("lunch", ⟨.str "2", .str "Soup", .str "soup.jpg"⟩)])]
          "u1" "2024-05-01" "lunch"
          [("idMeal", .str "52772"), ("strMeal", .str "Pie"),
            ("strMealThumb", .str "pie.jpg"), ("strCategory", .str "Dessert")] =
        .ok [(("u1", "2024-05-01"), [("breakfast", ⟨.str "1", .str "Stew", .str "stew.jpg"⟩),
              ("lunch", ⟨.str "52772", .str "Pie", .str "pie.jpg"⟩)]),
            (("u2", "2024-05-01"), [("lunch", ⟨.str "2", .str "Soup", .str "soup.jpg"⟩)])] ∧
      addToMealPlan
          [(("u1", "2024-05-01"), [("breakfast", ⟨.str "1", .str "Stew", .str "stew.jpg"⟩)]),
            (("u2", "2024-05-01"), [("lunch", ⟨.str "2", .str "Soup", .str "soup.jpg"⟩)])]
          "u1" "2024-05-01" "lunch" [("idMeal", .str "52772"), ("strMeal", .str "Pie")] =
        .error .invalidArgument ∧
      ∃ plans', addToMealPlan
          [(("u1", "2024-05-01"), [("breakfast", ⟨.str "1", .str "Stew", .str "stew.jpg"⟩)]),
            (("u2", "2024-05-01"), [("lunch", ⟨.str "2", .str "Soup", .str "soup.jpg"⟩)])]
          "u1" "2024-05-01" "lunch"
          [("idMeal", .str "52772"), ("strMeal", .str "Pie"),
            ("strMealThumb", .str "pie.jpg"), ("strCategory", .str "Dessert")] = .ok plans' ∧
        planSlot plans' "u1" "2024-05-01" "lunch" =
          some ⟨.str "52772", .str "Pie", .str "pie.jpg"⟩ := by
  refine ⟨by decide, by decide, by decide, ?_⟩
  obtain ⟨plans', h1, h2, _⟩ := (addToMealPlan_frame
    [(("u1", "2024-05-01"), [("breakfast", ⟨.str "1", .str "Stew", .str "stew.jpg"⟩)]),
      (("u2", "2024-05-01"), [("lunch", ⟨.str "2", .str "Soup", .str "soup.jpg"⟩)])]
    "u1" "2024-05-01" "lunch"
    [("idMeal", .str "52772"), ("strMeal", .str "Pie"),
      ("strMealThumb", .str "pie.jpg"), ("strCategory", .str "Dessert")] (by decide)).1
  exact ⟨plans', h1, h2⟩

/-- C19. Favorites are unique per user and recipe: for a recipe whose `idMeal`
is a string and whose five fields are defined, `addToFavorites` succeeds and
adding the same recipe again leaves the store as it is; the stored entry has
exactly the five fields idMeal, strMeal, strMealThumb, strCategory and strArea,
with the recipe's values; the favorites of every other user are unchanged; and a
store built from the empty one by adding and removing favorites never lists one
recipe id twice for a user. A recipe whose `idMeal` is not a string, or that
lacks one of the five fields, is refused by the store and nothing is written. -/
theorem addToFavorites_unique (favs : Favorites) (userId : String) (recipe : Obj) (key : String)
    (hkey : objGet recipe "idMeal" = .str key)
    (hdef : hasUndefined (favoriteEntry recipe) = false) :
    ∃ favs', addToFavorites favs userId recipe = .ok favs' ∧
      addToFavorites favs' userId recipe = .ok favs' ∧
      (∃ entry, kvGet favs' (userId, key) = some entry ∧
        objKeys entry = ["idMeal", "strMeal", "strMealThumb", "strCategory", "strArea"] ∧
        ∀ k ∈ objKeys entry, objGet entry k = objGet recipe k) ∧
      (∀ other, other ≠ userId → getFavorites favs' other = getFavorites favs other) ∧
      (FavoritesWF favs →
        FavoritesWF favs' ∧
          ((getFavorites favs' userId).map (fun e => objGet e "idMeal")).Nodup) ∧
      FavoritesWF [] ∧
      (∀ u k, FavoritesWF favs → FavoritesWF (removeFromFavorites favs u k)) ∧
      (∀ r : Obj,
        (objGet r "idMeal").isStr = false ∨ hasUndefined (favoriteEntry r) = true →
        addToFavorites favs userId r = .error .invalidArgument) := by
  have hadd : ∀ f : Favorites, addToFavorites f userId recipe =
      .ok (kvSet f (userId, key) (favoriteEntry recipe)) :=
    fun f => addToFavorites_of_defined f userId recipe key hkey hdef
  refine ⟨_, hadd favs, ?_, ⟨_, kvGet_kvSet_self _ _ _, rfl, ?_⟩, ?_, ?_, ?_, ?_, ?_⟩
  · rw [hadd, kvSet_kvSet_self]
  · intro k hk
    simp only [favoriteEntry, objKeys, List.map_cons, List.map_nil, List.mem_cons,
      List.mem_singleton, List.not_mem_nil, or_false] at hk
    rcases hk with rfl | rfl | rfl | rfl | rfl <;> simp [favoriteEntry, objGet]
  · intro other hother
    unfold getFavorites
    rw [filter_kvSet_of_not (fun k => decide (k.1 = other)) favs (userId, key) _
      (by simpa using fun e => hother e.symm)]
  · intro hwf
    have hwf' := favoritesWF_kvSet favs userId key (favoriteEntry recipe)
      (by simp [favoriteEntry, objGet, hkey]) hwf
    exact ⟨hwf', nodup_idMeal_getFavorites _ userId hwf'⟩
  · exact ⟨List.nodup_nil, fun e he => absurd he (List.not_mem_nil e)⟩
  · intro u k hwf
    exact favoritesWF_removeFromFavorites favs u k hwf
  · intro r hr
    rcases hr with hr | hr
    · exact addToFavorites_of_not_isStr favs userId r hr
    · exact addToFavorites_of_undefined favs userId r hr

/-- C19, adding one recipe twice for one user next to a favorite of another
user; a recipe without category and area is refused. -/
theorem addToFavorites_unique_witness :
    (addToFavorites [(("u2", "52772"), [("idMeal", .str "52772")])] "u1"
        [("idMeal", .str "52772"), ("strMeal", .str "Pie"), ("strMealThumb", .str "pie.jpg"),
          ("strCategory", .str "Dessert"), ("strArea", .str "British"),
          ("strInstructions", .str "Bake")]).bind
        (fun favs => addToFavorites favs "u1"
          [("idMeal", .str "52772"), ("strMeal", .str "Pie"), ("strMealThumb", .str "pie.jpg"),
          ("strCategory", .str "Dessert"), ("strArea", .str "British"),
          ("strInstructions", .str "Bake")]) =
      .ok [(("u2", "52772"), [("idMeal", .str "52772")]),
        (("u1", "52772"), [("idMeal", .str "52772"), ("strMeal", .str "Pie"),
          ("strMealThumb", .str "pie.jpg"), ("strCategory", .str "Dessert"),
          ("strArea", .str "British")])] ∧
      addToFavorites [(("u2", "52772"), [("idMeal", .str "52772")])] "u1"
          [("idMeal", .str "52772"), ("strMeal", .str "Pie"),
            ("strMealThumb", .str "pie.jpg")] = .error .invalidArgument ∧
      ∃ favs', addToFavorites [(("u2", "52772"), [("idMeal", .str "52772")])] "u1"
          [("idMeal", .str "52772"), ("strMeal", .str "Pie"), ("strMealThumb", .str "pie.jpg"),
          ("strCategory", .str "Dessert"), ("strArea", .str "British"),
          ("strInstructions", .str "Bake")] = .ok favs' ∧
        addToFavorites favs' "u1"
          [("idMeal", .str "52772"), ("strMeal", .str "Pie"), ("strMealThumb", .str "pie.jpg"),
          ("strCategory", .str "Dessert"), ("strArea", .str "British"),
          ("strInstructions", .str "Bake")] = .ok favs' := by
  refine ⟨by decide, by decide, ?_⟩
  obtain ⟨favs', h1, h2, _⟩ := addToFavorites_unique
    [(("u2", "52772"), [("idMeal", .str "52772")])] "u1"
    [("idMeal", .str "52772"), ("strMeal", .str "Pie"), ("strMealThumb", .str "pie.jpg"),
          ("strCategory", .str "Dessert"), ("strArea", .str "British"),
          ("strInstructions", .str "Bake")]
    "52772" (by decide) (by decide)
  exact ⟨favs', h1, h2⟩

/-- C20, evaluated where it fails. The store holds a recipe created by the user
alice under key r1, with every field `CreateRecipe` writes. The user bob, signed
in, opens the edit page of that recipe: the form is filled from the record; bob
changes the title and submits: the payload holds no `undefined`, the stored
title is replaced, and the record still names alice as its owner. The submit
handler compares no user with the owner of the record. The delete path is
restricted to the author: the dashboard lists, and so offers to delete, only
stored documents whose `userId` is the uid of the current user. -/
theorem editRecipe_submit_ignores_author :
    (EditRecipe.fetchData aliceStore "r1" =
        ⟨[("strMeal", .str "Pie"), ("strMealThumb", .str ""), ("strCategory", .str "Dessert"),
          ("strInstructions", .str "Bake"), ("strYoutube", .str ""), ("cookingTime", .str ""),
          ("servings", .str ""), ("difficulty", .str "Easy")], [⟨"Flour", .str "200g"⟩]⟩ ∧
      hasUndefined (updatePayload
        (EditRecipe.handleChange (EditRecipe.fetchData aliceStore "r1").formData "strMeal" "Spam")
        (EditRecipe.fetchData aliceStore "r1").ingredients) = false ∧
      (EditRecipe.handleSubmit ⟨"bob", .null, "bob@example.org", .null⟩ aliceStore "r1"
        (EditRecipe.handleChange (EditRecipe.fetchData aliceStore "r1").formData "strMeal" "Spam")
        (EditRecipe.fetchData aliceStore "r1").ingredients).docs.map
        (fun d => (d.key, objGet d.data "userId", objGet d.data "strMeal",
          objGet d.data "strIngredient1")) =
      [("r1", .str "alice", .str "Spam", .str "Flour")] ∧
      aliceStore.docs.map
        (fun d => (d.key, objGet d.data "userId", objGet d.data "strMeal",
          objGet d.data "strIngredient1")) =
      [("r1", .str "alice", .str "Pie", .str "Flour")]) ∧
      (∀ (u u' : AuthUser) (store : Store) (id : String) (formData : Obj)
        (ingredients : List Ingredient),
        EditRecipe.handleSubmit u store id formData ingredients =
          EditRecipe.handleSubmit u' store id formData ingredients) ∧
      (∀ (store : Store) (uid : String) (recipes : List Obj),
        getMyRecipes store uid = .ok recipes →
        ∀ r ∈ recipes, ∃ d ∈ store.docs,
          objGet r "idMeal" = .str d.key ∧ objGet d.data "userId" = .str uid) := by
  refine ⟨by decide, fun _ _ _ _ _ _ => rfl, ?_⟩
  intro store uid recipes h r hr
  unfold getMyRecipes at h
  cases hreach : store.reachable with
  | false => simp [hreach] at h
  | true =>
    simp only [hreach, if_true, Except.ok.injEq] at h
    rw [← h] at hr
    obtain ⟨d, hd, rfl⟩ := List.mem_map.mp hr
    obtain ⟨hdm, hdu⟩ := List.mem_filter.mp hd
    exact ⟨d, hdm, objGet_recipeOfDoc_idMeal d, by simpa using hdu⟩

/-- C21. Destructive operations require confirmation: in
`Dashboard.handleDeleteRecipe`, `Dashboard.handleDeleteAccount` and
`MealPlanner.handleRemove`, when the user declines no backend call is made and
the stored and the local state are unchanged; a backend call is issued only
when the confirmation returned true, and then it is issued. -/
theorem destructive_requires_confirmation :
    (∀ (store : Store) (recipes : List Obj) (recipeId : String),
        Dashboard.handleDeleteRecipe false store recipes recipeId = (store, recipes, [])) ∧
      (∀ (commits authDeletes : Bool) (u : AuthUser) (b : Backend),
        Dashboard.handleDeleteAccount false commits authDeletes u b = (b, [])) ∧
      (∀ (u : AuthUser) (plans : MealPlans) (plan : List (String × PlanDoc))
        (date slot : String),
        MealPlanner.handleRemove false u plans plan date slot = (plans, plan, [])) ∧
      (∀ (confirmed : Bool) (store : Store) (recipes : List Obj) (recipeId : String),
        ((Dashboard.handleDeleteRecipe confirmed store recipes recipeId).2.2 ≠ [] ↔
          confirmed = true) ∧
        (confirmed = true →
          (Dashboard.handleDeleteRecipe confirmed store recipes recipeId).2.2 =
            [.deleteRecipe recipeId])) ∧
      (∀ (confirmed commits authDeletes : Bool) (u : AuthUser) (b : Backend),
        ((Dashboard.handleDeleteAccount confirmed commits authDeletes u b).2 ≠ [] ↔
          confirmed = true) ∧
        (confirmed = true → ∃ rest,
          (Dashboard.handleDeleteAccount confirmed commits authDeletes u b).2 =
            .deleteUserData u.uid :: rest)) ∧
      (∀ (confirmed : Bool) (u : AuthUser) (plans : MealPlans)
        (plan : List (String × PlanDoc)) (date slot : String),
        ((MealPlanner.handleRemove confirmed u plans plan date slot).2.2 ≠ [] ↔
          confirmed = true) ∧
        (confirmed = true →
          (MealPlanner.handleRemove confirmed u plans plan date slot).2.2 =
            [.removeFromMealPlan u.uid date slot])) := by
  refine ⟨fun _ _ _ => rfl, fun _ _ _ _ => rfl, fun _ _ _ _ _ => rfl, ?_, ?_, ?_⟩
  · intro confirmed store recipes recipeId
    cases confirmed with
    | false => simp [Dashboard.handleDeleteRecipe]
    | true =>
      unfold Dashboard.handleDeleteRecipe
      cases deleteRecipe store recipeId <;> simp
  · intro confirmed commits authDeletes u b
    cases confirmed with
    | false => simp [Dashboard.handleDeleteAccount]
    | true =>
      unfold Dashboard.handleDeleteAccount
      cases deleteUserData b.recipes b.profiles commits u.uid with
      | error e => simp
      | ok r => cases authDeletes <;> simp
  · intro confirmed u plans plan date slot
    cases confirmed with
    | false => simp [MealPlanner.handleRemove]
    | true =>
      unfold MealPlanner.handleRemove
      cases removeFromMealPlan plans u.uid date slot <;> simp

/-- C22. Signup validation: `Signup.handleSubmit` calls `signup`, once and with
the email and the password, exactly when the password equals the confirmation
and has at least 6 UTF-16 code units; otherwise it makes no call and the error
is Passwords do not match when they differ, else Password must be at least 6
characters. When `signup` is rejected the error is This email is already
registered. exactly for the code auth/email-already-in-use, and Failed to create
an account. for every other code. -/
theorem signup_validation (signup : String → String → SignupOutcome)
    (email password confirmPassword : String) :
    ((Signup.handleSubmit signup email password confirmPassword).authCalls =
          [(email, password)] ↔
        password = confirmPassword ∧ 6 ≤ jsLength password) ∧
      ((Signup.handleSubmit signup email password confirmPassword).authCalls = [] ↔
        ¬ (password = confirmPassword ∧ 6 ≤ jsLength password)) ∧
      (password ≠ confirmPassword →
        Signup.handleSubmit signup email password confirmPassword =
          ⟨[], "Passwords do not match", false⟩) ∧
      (password = confirmPassword → jsLength password < 6 →
        Signup.handleSubmit signup email password confirmPassword =
          ⟨[], "Password must be at least 6 characters", false⟩) ∧
      (password = confirmPassword → 6 ≤ jsLength password →
        ∀ code, signup email password = .rejected code →
          ((Signup.handleSubmit signup email password confirmPassword).error =
              "This email is already registered." ↔
            code = .str "auth/email-already-in-use") ∧
          (code ≠ .str "auth/email-already-in-use" →
            (Signup.handleSubmit signup email password confirmPassword).error =
              "Failed to create an account.")) := by
  by_cases hp : password = confirmPassword
  · subst hp
    by_cases hl : jsLength password < 6
    · have hl' : ¬ 6 ≤ jsLength password := by omega
      rw [handleSubmit_of_short signup email password hl]
      simp [hl']
    · have hl' : 6 ≤ jsLength password := by omega
      cases hs : signup email password with
      | resolved =>
        rw [handleSubmit_of_resolved signup email password hl' hs]
        simp [hl, hl']
      | rejected code =>
        rw [handleSubmit_of_rejected signup email password code hl' hs]
        by_cases hc : code = .str "auth/email-already-in-use"
        · simp [hl, hl', hc]
        · simp [hl, hl', hc]
  · rw [handleSubmit_of_mismatch signup email password confirmPassword hp]
    simp [hp]

/-- C23. The function `deleteUserData` on the recipes and the profiles: when the
query and the commit succeed, the recipes left are exactly the stored recipes
whose `userId` is not the user, in their order, the user's profile document is
gone and every other profile is unchanged; when the query or the commit fails
the call throws and nothing is deleted, so the deletions are applied all or
none. -/
theorem deleteUserData_frame (store : Store) (profiles : Profiles) (commits : Bool)
    (userId : String) :
    (store.reachable = true → commits = true →
        ∃ s p, deleteUserData store profiles commits userId = .ok (s, p) ∧
          s.docs = store.docs.filter
            (fun d => !decide (objGet d.data "userId" = .str userId)) ∧
          (∀ d ∈ s.docs, objGet d.data "userId" ≠ .str userId) ∧
          (∀ d ∈ store.docs, objGet d.data "userId" ≠ .str userId → d ∈ s.docs) ∧
          kvGet p userId = none ∧
          (∀ other, other ≠ userId → kvGet p other = kvGet profiles other)) ∧
      ((store.reachable = false ∨ commits = false) →
        deleteUserData store profiles commits userId = .error .unavailable) := by
  refine ⟨?_, deleteUserData_error store profiles commits userId⟩
  intro hr hc
  subst hc
  refine ⟨_, _, deleteUserData_ok store profiles userId hr, rfl, ?_, ?_,
    kvGet_kvErase_self _ _, fun other h => kvGet_kvErase_ne _ h⟩
  · intro d hd
    simpa using (List.mem_filter.mp hd).2
  · intro d hd hne
    exact List.mem_filter.mpr ⟨hd, by simpa using hne⟩

/-- C24. A sparse write leaves stale slots: for a record populated at slots 1..5
and a list of three rows with non-blank names, the merge-write of the sparse
encoding `toFlat` followed by a read gives the three rows and then the old
ingredients 4 and 5, which is not the list, whereas the merge-write of
`toFlatForUpdate` gives the list. -/
theorem sparse_write_leaves_stale :
    ∃ (R : Obj) (L : List Ingredient),
      L.length = 3 ∧ (∀ e ∈ L, nonBlank e.name = true) ∧
      getIngredients (some R) =
        .ok [⟨"a", .str "1"⟩, ⟨"b", .str "2"⟩, ⟨"c", .str "3"⟩, ⟨"d", .str "4"⟩,
          ⟨"e", .str "5"⟩] ∧
      getIngredients (some (updateDoc R (toFlat L))) =
        .ok (L ++ [⟨"d", .str "4"⟩, ⟨"e", .str "5"⟩]) ∧
      getIngredients (some (updateDoc R (toFlat L))) ≠ .ok L ∧
      getIngredients (some (updateDoc R (toFlatForUpdate L))) = .ok L :=
  ⟨[("strMeal", .str "Stew"), ("strIngredient1", .str "a"), ("strMeasure1", .str "1"),
      ("strIngredient2", .str "b"), ("strMeasure2", .str "2"),
      ("strIngredient3", .str "c"), ("strMeasure3", .str "3"),
      ("strIngredient4", .str "d"), ("strMeasure4", .str "4"),
      ("strIngredient5", .str "e"), ("strMeasure5", .str "5")],
    [⟨"x", .str "7"⟩, ⟨"y", .str "8"⟩, ⟨"z", .str "9"⟩],
    by decide, by decide, by decide, by decide, by decide, by decide⟩

/-- C25, evaluated where it fails, and where it holds. On a record whose first
slot has a name and no measure the loader of `EditRecipe` keeps the measure
`undefined` while `getIngredients` gives the empty string. The two decoders
agree on every record whose populated slots have string measures. -/
theorem loadedIngredients_differs :
    loadedIngredients [("strIngredient1", .str "Salt")] = .ok [⟨"Salt", .undefined⟩] ∧
      getIngredients (some [("strIngredient1", .str "Salt")]) = .ok [⟨"Salt", .str ""⟩] ∧
      (∀ data : Obj,
        (∀ i, 1 ≤ i → i ≤ 20 → ∀ s, objGet data (ingredientKey i) = .str s →
          nonBlank s = true → (objGet data (measureKey i)).isStr = true) →
        loadedIngredients data = getIngredients (some data)) :=
  ⟨by decide, by decide, loadedIngredients_eq_getIngredients⟩

/-- C26. Create-then-read for any length: for every list with string measures,
reading the `ingredientMap` of `CreateRecipe.handleSubmit` gives the rows among
the first 20 whose names are non-blank, in their order; blank rows are removed
and rows from the 21st on are not read. -/
theorem getIngredients_toFlat_first20 (L : List Ingredient)
    (hmeasures : ∀ e ∈ L, e.measure.isStr = true) :
    getIngredients (some (toFlat L)) = .ok ((L.take 20).filter (fun e => nonBlank e.name)) := by
  rw [getIngredients_toFlat, map_withDefaultMeasure_of_isStr]
  intro e he
  exact hmeasures e (List.mem_of_mem_take (List.mem_of_mem_filter he))

/-- C26, at a list of 22 rows: a blank second row, and two rows beyond the
20th. -/
theorem getIngredients_toFlat_first20_witness :
    getIngredients (some (toFlat
        ([⟨"a", .str "1"⟩, ⟨" ", .str "2"⟩] ++ List.replicate 18 ⟨"m", .str "3"⟩ ++
          [⟨"y", .str "4"⟩, ⟨"z", .str "5"⟩]))) =
      .ok (⟨"a", .str "1"⟩ :: List.replicate 18 ⟨"m", .str "3"⟩) :=
  (getIngredients_toFlat_first20 _ (by decide)).trans (by decide)

/-- C27. Identifier consistency of the local lookup: whenever `getCustomRecipe`
returns a record, its `idMeal` is the identifier asked for, be it found by key
(where `idMeal` is overwritten with the key) or by the `idMeal` field; and when
a document is stored under the key, the result is that document with `idMeal`
set to the key, whatever other documents hold in their `idMeal` field. -/
theorem getCustomRecipe_idMeal (store : Store) (id : String) :
    (∀ r, getCustomRecipe store id = some r → objGet r "idMeal" = .str id) ∧
      (store.reachable = true → ∀ d, store.docs.find? (fun d => d.key == id) = some d →
        d.key = id ∧ getCustomRecipe store id = some (recipeOfDoc d)) ∧
      (store.reachable = true → (∃ d ∈ store.docs, d.key = id) →
        ∃ d ∈ store.docs, d.key = id ∧ getCustomRecipe store id = some (recipeOfDoc d)) := by
  have hkey : store.reachable = true → ∀ d,
      store.docs.find? (fun d => d.key == id) = some d →
      d.key = id ∧ getCustomRecipe store id = some (recipeOfDoc d) := by
    intro hr d hfind
    have hd : d.key = id := by simpa using List.find?_some hfind
    refine ⟨hd, ?_⟩
    unfold getCustomRecipe recipeOfDoc
    simp only [hr, if_true, hfind]
  refine ⟨?_, hkey, ?_⟩
  · intro r hres
    cases hr : store.reachable with
    | false => simp [getCustomRecipe, hr] at hres
    | true =>
      cases hfind : store.docs.find? (fun d => d.key == id) with
      | some d =>
        obtain ⟨hd, hget⟩ := hkey hr d hfind
        rw [hget] at hres
        have : r = recipeOfDoc d := (Option.some.inj hres).symm
        rw [this, objGet_recipeOfDoc_idMeal, hd]
      | none =>
        unfold getCustomRecipe at hres
        simp only [hr, if_true, hfind] at hres
        cases hq : store.docs.filter
            (fun d => decide (objGet d.data "idMeal" = .str id)) with
        | nil => simp [hq] at hres
        | cons d rest =>
          have hd : d ∈ store.docs.filter
              (fun d => decide (objGet d.data "idMeal" = .str id)) := by
            rw [hq]
            exact List.mem_cons_self _ _
          have hdf := (List.mem_filter.mp hd).2
          simp only [hq, List.head?_cons, Option.some.injEq] at hres
          rw [← hres]
          simpa using hdf
  · rintro hr ⟨d, hd, hdk⟩
    cases hfind : store.docs.find? (fun d => d.key == id) with
    | none =>
      have := List.find?_eq_none.mp hfind d hd
      simp [hdk] at this
    | some d' =>
      exact ⟨d', List.mem_of_find?_eq_some hfind, hkey hr d' hfind⟩

/-- C28. Update frame: for every form state whose properties are among the eight
form fields, the payload of `EditRecipe.handleSubmit` holds only form fields and
ingredient or measure slot names, and after the submit every stored document
has the key and the fields userId, author, idMeal, isCustom, strArea and
createdAt it had before. The initial form state, the form state set from a
loaded record and every change made by an input of the form keep the properties
among the eight fields. -/
theorem editRecipe_update_frame (u : AuthUser) (store : Store) (id : String) (formData : Obj)
    (L : List Ingredient) (hform : ∀ k ∈ objKeys formData, k ∈ formFields) :
    (∀ k ∈ objKeys (updatePayload formData L),
        k ∈ formFields ∨ ∃ i, k = ingredientKey i ∨ k = measureKey i) ∧
      (EditRecipe.handleSubmit u store id formData L).docs.map
          (fun d => (d.key, preservedFields.map (objGet d.data))) =
        store.docs.map (fun d => (d.key, preservedFields.map (objGet d.data))) ∧
      (∀ k ∈ objKeys EditRecipe.initialFormData, k ∈ formFields) ∧
      (∀ data, ∀ k ∈ objKeys (EditRecipe.loadedFormData data), k ∈ formFields) ∧
      (∀ name value, name ∈ formFields →
        ∀ k ∈ objKeys (EditRecipe.handleChange formData name value), k ∈ formFields) := by
  refine ⟨fun k hk => mem_objKeys_updatePayload formData L k hform hk, ?_, by decide, ?_,
    fun name value hname => mem_objKeys_handleChange formData name value hname hform⟩
  · unfold EditRecipe.handleSubmit updateRecipe
    by_cases hu : hasUndefined (updatePayload formData L) = true
    · rw [if_pos hu]
    · rw [if_neg hu]
      cases hr : store.reachable with
      | false => simp
      | true =>
        by_cases hany : store.docs.any (fun d => d.key == id) = true
        · simp only [if_true, hany, List.map_map]
          apply List.map_congr_left
          intro d _
          by_cases hk : d.key = id
          · simp only [Function.comp_apply, hk, if_true, Prod.mk.injEq, true_and]
            apply List.map_congr_left
            intro f hf
            exact objGet_updateDoc_preserved d.data formData L f hform hf
          · simp only [Function.comp_apply, hk, if_false]
        · simp only [if_true, hany]
          rfl
  · intro data k hk
    simp only [EditRecipe.loadedFormData, objKeys, List.map_cons, List.map_nil] at hk
    exact hk

/-- C28, at a stored recipe of the user alice edited from the initial form
state with one field changed. -/
theorem editRecipe_update_frame_witness :
    (EditRecipe.handleSubmit ⟨"alice", .null, "alice@example.org", .null⟩
        ⟨[⟨"r1", [("strMeal", .str "Pie"), ("userId", .str "alice"),
          ("author", .str "alice@example.org"), ("idMeal", .str "1700000000000"),
          ("isCustom", .bool true), ("strArea", .str "Unknown"),
          ("createdAt", .str "2024-05-01T10:00:00.000Z")]⟩], true⟩ "r1"
        (EditRecipe.handleChange EditRecipe.initialFormData "strMeal" "Tart")
        [⟨"Flour", .str "200g"⟩]).docs.map
        (fun d => (d.key, preservedFields.map (objGet d.data))) =
      [("r1", [.str "alice", .str "alice@example.org", .str "1700000000000", .bool true,
        .str "Unknown", .str "2024-05-01T10:00:00.000Z"])] :=
  (editRecipe_update_frame _ _ "r1" _ _ (by decide)).2.1

/-- C29, evaluated where it fails, and where it holds. The store holds one
recipe under the key k1 whose `idMeal` field is 1700000000000; for that route
identifier the page loads the record through the fallback on the `idMeal`
field, but the submit calls `updateRecipe` with the identifier as the document
key, which no document has: the call is rejected and nothing is written. The
same happens for a record with every field `CreateRecipe` writes, loaded by the
page under its `idMeal` and submitted with a new title. When a document is
stored under the identifier as its key, the loaded record and the document
written by a payload the store accepts are the same. -/
theorem editRecipe_fallback_not_written :
    (getCustomRecipe
          ⟨[⟨"k1", [("strMeal", .str "Pie"), ("idMeal", .str "1700000000000")]⟩], true⟩
          "1700000000000" =
        some [("strMeal", .str "Pie"), ("idMeal", .str "1700000000000")] ∧
      updateRecipe
          ⟨[⟨"k1", [("strMeal", .str "Pie"), ("idMeal", .str "1700000000000")]⟩], true⟩
          "1700000000000" (updatePayload [("strMeal", .str "Tart")] []) =
        .error .notFound ∧
      EditRecipe.handleSubmit ⟨"alice", .null, "alice@example.org", .null⟩
          ⟨[⟨"k1", [("strMeal", .str "Pie"), ("idMeal", .str "1700000000000")]⟩], true⟩
          "1700000000000" [("strMeal", .str "Tart")] [] =
        ⟨[⟨"k1", [("strMeal", .str "Pie"), ("idMeal", .str "1700000000000")]⟩], true⟩) ∧
      (∀ (u : AuthUser) (store : Store) (id : String) (formData : Obj) (L : List Ingredient)
        (d : Doc),
        store.reachable = true → store.docs.find? (fun d => d.key == id) = some d →
        hasUndefined (updatePayload formData L) = false →
        getCustomRecipe store id = some (recipeOfDoc d) ∧
          (⟨d.key, updateDoc d.data (updatePayload formData L)⟩ : Doc) ∈
            (EditRecipe.handleSubmit u store id formData L).docs) ∧
      ((EditRecipe.fetchData aliceStore "1700000000000").formData =
          [("strMeal", .str "Pie"), ("strMealThumb", .str ""), ("strCategory", .str "Dessert"),
            ("strInstructions", .str "Bake"), ("strYoutube", .str ""), ("cookingTime", .str ""),
            ("servings", .str ""), ("difficulty", .str "Easy")] ∧
        updateRecipe aliceStore "1700000000000"
            (updatePayload
              (EditRecipe.handleChange (EditRecipe.fetchData aliceStore "1700000000000").formData
                "strMeal" "Tart")
              (EditRecipe.fetchData aliceStore "1700000000000").ingredients) =
          .error .notFound ∧
        EditRecipe.handleSubmit ⟨"alice", .null, "alice@example.org", .null⟩ aliceStore
            "1700000000000"
            (EditRecipe.handleChange (EditRecipe.fetchData aliceStore "1700000000000").formData
              "strMeal" "Tart")
            (EditRecipe.fetchData aliceStore "1700000000000").ingredients =
          aliceStore) := by
  refine ⟨by decide, ?_, by decide⟩
  intro u store id formData L d hr hfind hu
  have hd : d.key = id := by simpa using List.find?_some hfind
  have hmem := List.mem_of_find?_eq_some hfind
  refine ⟨?_, ?_⟩
  · unfold getCustomRecipe recipeOfDoc
    simp only [hr, if_true, hfind]
  · have hany : store.docs.any (fun d => d.key == id) = true :=
      List.any_eq_true.mpr ⟨d, hmem, by simpa using hd⟩
    unfold EditRecipe.handleSubmit updateRecipe
    simp only [hu, Bool.false_eq_true, if_false, hr, if_true, hany]
    refine List.mem_map.mpr ⟨d, hmem, ?_⟩
    simp [hd]

/-- C30, as stated, fails: the user confirms, the stored data is deleted, then
the deletion of the account is rejected; the recipe and the profile of the user
are gone and the account is still there. -/
theorem handleDeleteAccount_not_atomic_counterexample :
    Dashboard.handleDeleteAccount true true false ⟨"u1", .null, "u1@example.org", .null⟩
        ⟨⟨[⟨"r1", [("strMeal", .str "Pie"), ("userId", .str "u1")]⟩,
          ⟨"r2", [("strMeal", .str "Stew"), ("userId", .str "u2")]⟩], true⟩,
          [("u1", [("name", .str "Ann")]), ("u2", [("name", .str "Bob")])], ["u1", "u2"]⟩ =
      (⟨⟨[⟨"r2", [("strMeal", .str "Stew"), ("userId", .str "u2")]⟩], true⟩,
          [("u2", [("name", .str "Bob")])], ["u1", "u2"]⟩,
        [.deleteUserData "u1", .deleteUser "u1"]) := by
  decide

/-- C30, amended. `Dashboard.handleDeleteAccount` deletes the stored data first
and the account after it, without a way back: when `deleteUserData` succeeds and
the deletion of the account fails, the recipes and the profile document of the
user are removed and the account remains. The stored data is unchanged when the
user declines, and when `deleteUserData` itself fails, in which case the
deletion of the account is not attempted. When both calls succeed the data and
the account are removed. -/
theorem handleDeleteAccount_order (commits : Bool) (u : AuthUser) (b : Backend) :
    (b.recipes.reachable = true → commits = true →
        ∀ authDeletes,
          (Dashboard.handleDeleteAccount true commits authDeletes u b).1.recipes.docs =
              b.recipes.docs.filter
                (fun d => !decide (objGet d.data "userId" = .str u.uid)) ∧
            kvGet (Dashboard.handleDeleteAccount true commits authDeletes u b).1.profiles
              u.uid = none ∧
            (Dashboard.handleDeleteAccount true commits authDeletes u b).1.accounts =
              (if authDeletes then b.accounts.filter (fun a => a != u.uid) else b.accounts) ∧
            (Dashboard.handleDeleteAccount true commits authDeletes u b).2 =
              [.deleteUserData u.uid, .deleteUser u.uid]) ∧
      ((b.recipes.reachable = false ∨ commits = false) →
        ∀ authDeletes,
          Dashboard.handleDeleteAccount true commits authDeletes u b =
            (b, [.deleteUserData u.uid])) ∧
      (∀ authDeletes, Dashboard.handleDeleteAccount false commits authDeletes u b = (b, [])) := by
  refine ⟨?_, ?_, fun _ => rfl⟩
  · intro hr hc authDeletes
    subst hc
    unfold Dashboard.handleDeleteAccount
    simp only [if_true, deleteUserData_ok b.recipes b.profiles u.uid hr]
    cases authDeletes
    · exact ⟨rfl, kvGet_kvErase_self _ _, rfl, rfl⟩
    · exact ⟨rfl, kvGet_kvErase_self _ _, rfl, rfl⟩
  · intro h authDeletes
    unfold Dashboard.handleDeleteAccount
    simp only [if_true, deleteUserData_error b.recipes b.profiles commits u.uid h]

end ChefsTable
